import Mathlib

/-!
# Sealed-bid reverse auction for shipping jobs: the chaincode and its contract

A shallow embedding of `shipping/shipping.go` and `shipping/shippingQueries.go`.

* The ledger platform is explicit state: `World` holds the public key/value
  state, the private data collections and the key-level endorsement lists.
  Every contract function takes the transaction context and the world and
  returns its Go result together with the world its stub calls leave behind,
  so a write issued before a later error return stays visible.
* Go maps are association lists (`KV`).  A `range` loop visits a permutation
  of the entries chosen by a number carried in the context (`rangeOrder`),
  because Go leaves the iteration order unspecified.
* The stored JSON document is represented by the record it encodes; the
  strings of the record are the text that the JSON encoder writes.  The item
  name and destination reach `CreateShipping` as Go strings, which are bytes,
  and pass through that encoder (`jsonText`); identities, org names, shipping
  and transaction IDs are text.
* SHA-256 and `json.Unmarshal` of a bid payload are parameters (`Env`).
-/

namespace ShipSupplychain

/-! ## Data model -/

abbrev Bytes := List (Fin 256)

/-- Go maps with keys `κ`: an association list, first binding of a key wins. -/
abbrev KV (κ ν : Type) := List (κ × ν)

namespace KV

variable {κ ν : Type} [DecidableEq κ]

/-- Map read `m[k]` with the comma-ok result. -/
def get : KV κ ν → κ → Option ν
  | [], _ => none
  | (k', v) :: rest, k => if k' = k then some v else get rest k

/-- Removal of every binding of a key. -/
def del : KV κ ν → κ → KV κ ν
  | [], _ => []
  | (k', v) :: rest, k => if k' = k then del rest k else (k', v) :: del rest k

/-- Map write `m[k] = v`. -/
def put (m : KV κ ν) (k : κ) (v : ν) : KV κ ν :=
  (k, v) :: m.del k

/-- Key membership. -/
def has (m : KV κ ν) (k : κ) : Bool := (m.get k).isSome

end KV

/-- Order in which one `range` loop visits the entries of a map: the
permutation of the entries numbered `seed` (number 0 is the list itself). -/
def rangeOrder {α : Type} (seed : Nat) (l : List α) : List α :=
  (l.permutations').getD seed l

structure Item where
  Name : String
  Dest : String
  Weight : Int
  Days : Int
deriving DecidableEq, Repr

/-- FullBid is the structure of a revealed bid (`ObjType` is the Go field `Type`). -/
structure FullBid where
  ObjType : String
  Price : Int
  Org : String
  Bidder : String
deriving DecidableEq, Repr

/-- BidHash is the structure of a private bid. -/
structure BidHash where
  Org : String
  Hash : String
deriving DecidableEq, Repr

/-- Shipping data (`ObjType` is the Go field `Type`). -/
structure Shipping where
  ObjType : String
  ItemSold : Item
  Seller : String
  Orgs : List String
  PrivateBids : KV String BidHash
  RevealedBids : KV String FullBid
  Winner : String
  Price : Int
  Status : String
deriving DecidableEq, Repr

/-- The local type `transientBidInput` of `RevealBid`. -/
structure transientBidInput where
  Price : Int
  Org : String
  Bidder : String
deriving DecidableEq, Repr

def bidKeyType : String := "bid"

/-! ## The platform -/

/-- Library functions the contract calls: `crypto/sha256` (a digest has
`sha256.Size = 32` bytes) and `json.Unmarshal` of a bid payload into each of
the two Go types it is decoded to (`none`: the decoder reports an error).
`RevealBid` decodes into a struct value, so every payload without a decoder
error gives a value.  `checkForHigherBid` decodes into a pointer `*FullBid`:
for the payload `null` the decoder reports no error and leaves the pointer
nil, which is the result `some none`. -/
structure Env where
  sha256 : Bytes → Bytes
  sha256_size : ∀ b, (sha256 b).length = 32
  unmarshalBidInput : Bytes → Option transientBidInput
  unmarshalFullBid : Bytes → Option (Option FullBid)

/-- Stub calls that report an error in this transaction. -/
structure Faults where
  getState : Bool
  putState : Bool
  getPrivateData : Bool
  getPrivateDataHash : Bool
  putPrivateData : Bool
  endorsement : Bool
deriving DecidableEq, Repr

def noFaults : Faults := ⟨false, false, false, false, false, false⟩

/-- Transaction context: what the platform tells the chaincode about this
invocation.  `none` in an optional field is the error return of the call. -/
structure Ctx where
  /-- Result of `GetStub().GetTxID()`. -/
  txID : String
  /-- Result of `GetSubmittingClientIdentity`, a helper of the package that is
  not among the sources: the identity of the submitting client.  The platform
  forms it from the subject and issuer names of the client's certificate; it
  is taken to be text, which the JSON encoder stores as it is. -/
  clientID : Option String
  /-- Result of `GetClientIdentity().GetMSPID()`, the name of the client's
  org, likewise text. -/
  mspID : Option String
  /-- Result of `shim.GetMSPID()`, the org of the executing peer. -/
  peerMSPID : Option String
  /-- Result of `GetStub().GetTransient()`. -/
  transient : Option (KV String Bytes)
  faults : Faults
  /-- Iteration order of the loop over the revealed bids. -/
  rangeRevealed : Nat
  /-- Iteration order of the loop over the private bids. -/
  rangeBidders : Nat

/-- The payload in the transient field "bid", when there is one. -/
def Ctx.payload (ctx : Ctx) : Option Bytes :=
  match ctx.transient with
  | none => none
  | some transientMap => transientMap.get "bid"

/-- The invocation comes from `client`, a member of `org`, and no stub call
fails. -/
def Ctx.invokedBy (ctx : Ctx) (client org : String) : Prop :=
  ctx.clientID = some client ∧ ctx.mspID = some org ∧ ctx.faults = noFaults

instance (ctx : Ctx) (client org : String) : Decidable (ctx.invokedBy client org) :=
  inferInstanceAs
    (Decidable (ctx.clientID = some client ∧ ctx.mspID = some org ∧ ctx.faults = noFaults))

/-- Ledger platform state. -/
structure World where
  /-- Public state: shipping ID to the stored shipping document. -/
  ledger : KV String Shipping
  /-- Private data: (collection, key) to the stored bytes. -/
  priv : KV (String × String) Bytes
  /-- Key-level endorsement: shipping ID to the orgs that must endorse. -/
  policy : KV String (List String)
deriving DecidableEq

def World.empty : World := ⟨[], [], []⟩

/-- Error returns of the contract, one per `fmt.Errorf` site. -/
inductive QueryErr where
  /-- Message "failed to get shipping object" -/
  | getState
  /-- Message "shipping does not exist" -/
  | notExist
deriving DecidableEq, Repr

/-- Error returns of `checkForHigherBid`, and the one way in which it ends
without returning. -/
inductive CheckErr where
  /-- Message "failed getting the peer's MSPID" -/
  | peerMSPID
  /-- Message "failed to get bid" -/
  | getBid
  /-- Message "bid ... does not exist" -/
  | bidNotExist
  /-- error of `json.Unmarshal` -/
  | unmarshal
  /-- Message "Cannot close shipping, bidder has a higher price" -/
  | higherPrice
  /-- Message "failed to read bid hash from collection" -/
  | readBidHash
  /-- Message "bid hash does not exist" -/
  | bidHashMissing
  /-- No error value: the run ends in the panic of a nil pointer dereference
  at `bid.Price`, the decoded pointer being nil.  The transaction fails and
  nothing is written. -/
  | nilBid
deriving DecidableEq, Repr

/-- Error returns of the transactions. -/
inductive Err where
  /-- Message "failed to get client identity" (`GetSubmittingClientIdentity`) -/
  | clientIdentity
  /-- Message "failed to get client MSP ID" / "failed to get client identity" (`GetMSPID`) -/
  | clientMSPID
  /-- Message "failed to put shipping in public data" -/
  | putShipping
  /-- Message "failed setting state based endorsement for new organization" -/
  | endorsement
  /-- Message "error getting transient" -/
  | getTransient
  /-- Message "bid key not found in the transient map" -/
  | bidKeyNotInTransient
  /-- Message "failed to get implicit collection name" -/
  | collectionName
  /-- Message "Cannot store bid on this peer, not a member of this org" -/
  | wrongPeerOrg
  /-- Message "failed to create composite key" -/
  | compositeKey
  /-- Message "failed to input price into collection" -/
  | putPrivate
  /-- Message "failed to get shipping from public state" -/
  | query (e : QueryErr)
  /-- Message "cannot join closed or ended shipping" -/
  | notOpen
  /-- Message "failed to read bid bash from collection" -/
  | readBidHash
  /-- Message "bid hash does not exist" -/
  | bidHashMissing
  /-- Message "failed to update shipping" -/
  | updateShipping
  /-- Message "cannot reveal bid for open or ended shipping" -/
  | notClosed
  /-- check 2: "hash ... for bid JSON ... does not match hash in shipping" -/
  | hashMismatch
  /-- check 3: "... does not match hash in shipping: ..., bidder must have changed bid" -/
  | hashChanged
  /-- Message "failed to unmarshal JSON" -/
  | unmarshal
  /-- Message "Permission denied, client id ... is not the owner of the bid" -/
  | permissionDenied
  /-- Message "shipping can only be closed by seller" / "shipping can only be ended by seller" -/
  | notSeller
  /-- Message "cannot close shipping that is not open" -/
  | closeNotOpen
  /-- Message "failed to close shipping" -/
  | closeShipping
  /-- Message "Can only end a closed shipping" -/
  | endNotClosed
  /-- Message "No bids have been revealed, cannot end shipping" -/
  | noBids
  /-- Message "Cannot end shipping: ..." around the error of `checkForHigherBid` -/
  | cannotEnd (e : CheckErr)
  /-- Message "failed to end shipping" -/
  | endShipping
deriving DecidableEq, Repr

/-! ### Go strings and JSON text -/

/-- The byte with the given number. -/
def byte (n : Nat) : Fin 256 := Fin.ofNat n

/-- UTF-8 encoding of one character, given by its number. -/
def encodeRune (v : Nat) : Bytes :=
  if v < 0x80 then [byte v]
  else if v < 0x800 then [byte (0xC0 + v / 64), byte (0x80 + v % 64)]
  else if v < 0x10000 then
    [byte (0xE0 + v / 4096), byte (0x80 + v / 64 % 64), byte (0x80 + v % 64)]
  else
    [byte (0xF0 + v / 262144), byte (0x80 + v / 4096 % 64), byte (0x80 + v / 64 % 64),
      byte (0x80 + v % 64)]

/-- The bytes of a Go string that holds the given text. -/
def goBytes (s : String) : Bytes := s.data.flatMap fun c => encodeRune c.val.toNat

/-- Go's tables `first` and `acceptRanges` of package `unicode/utf8`: for a
leading byte of a multi-byte sequence, the size of the sequence and the range
accepted for the second byte; `none` for a byte that starts no sequence. -/
def acceptRange (p0 : Nat) : Option (Nat × Nat × Nat) :=
  if 0xC2 ≤ p0 ∧ p0 ≤ 0xDF then some (2, 0x80, 0xBF)
  else if p0 = 0xE0 then some (3, 0xA0, 0xBF)
  else if p0 = 0xED then some (3, 0x80, 0x9F)
  else if 0xE1 ≤ p0 ∧ p0 ≤ 0xEF then some (3, 0x80, 0xBF)
  else if p0 = 0xF0 then some (4, 0x90, 0xBF)
  else if 0xF1 ≤ p0 ∧ p0 ≤ 0xF3 then some (4, 0x80, 0xBF)
  else if p0 = 0xF4 then some (4, 0x80, 0x8F)
  else none

/-- Go's `utf8.DecodeRune`: the first rune of the bytes and its width; the
rune is U+FFFD with width 1 where the bytes start with no valid sequence. -/
def DecodeRune : Bytes → Nat × Nat
  | [] => (0xFFFD, 0)
  | p0 :: rest =>
    if p0.val < 0x80 then (p0.val, 1)
    else
      match acceptRange p0.val with
      | none => (0xFFFD, 1)
      | some (sz, lo, hi) =>
        if rest.length + 1 < sz then (0xFFFD, 1)
        else
          match rest with
          | [] => (0xFFFD, 1)
          | b1 :: rest1 =>
            if b1.val < lo ∨ hi < b1.val then (0xFFFD, 1)
            else if sz ≤ 2 then (p0.val % 32 * 64 + b1.val % 64, 2)
            else
              match rest1 with
              | [] => (0xFFFD, 1)
              | b2 :: rest2 =>
                if b2.val < 0x80 ∨ 0xBF < b2.val then (0xFFFD, 1)
                else if sz ≤ 3 then
                  (p0.val % 16 * 4096 + b1.val % 64 * 64 + b2.val % 64, 3)
                else
                  match rest2 with
                  | [] => (0xFFFD, 1)
                  | b3 :: _ =>
                    if b3.val < 0x80 ∨ 0xBF < b3.val then (0xFFFD, 1)
                    else
                      (p0.val % 8 * 262144 + b1.val % 64 * 4096 + b2.val % 64 * 64
                        + b3.val % 64, 4)

/-- The characters of a Go string as the JSON encoder writes them: rune by
rune, a byte that starts no valid sequence becoming U+FFFD
(`appendString` of `encoding/json`).  The first argument bounds the number of
runes; the length of the string is enough (`coerceRunes_fuel`). -/
def coerceRunes : Nat → Bytes → List Char
  | 0, _ => []
  | _ + 1, [] => []
  | fuel + 1, p0 :: rest =>
    Char.ofNat (DecodeRune (p0 :: rest)).1 ::
      coerceRunes fuel ((p0 :: rest).drop (DecodeRune (p0 :: rest)).2)

/-- A Go string after `json.Marshal` and `json.Unmarshal`: the text it holds
when it is valid UTF-8, with U+FFFD in place of every invalid byte
otherwise. -/
def jsonText (p : Bytes) : String := String.mk (coerceRunes p.length p)

/-! ### Stub calls -/

def minUnicodeRuneValue : Char := Char.ofNat 0

def maxUnicodeRuneValue : Char := Char.ofNat 0x10FFFF

/-- Check of the shim on each part of a composite key. -/
def validateCompositeKeyAttribute (s : String) : Bool :=
  s.data.all fun c => decide (c ≠ minUnicodeRuneValue ∧ c ≠ maxUnicodeRuneValue)

/-- Glue the parts of a composite key, each followed by U+0000. -/
def joinAttributes : List String → List Char
  | [] => []
  | a :: rest => a.data ++ minUnicodeRuneValue :: joinAttributes rest

/-- The shim's `CreateCompositeKey`: U+0000, the object type and every
attribute, each followed by U+0000; an error when a part holds U+0000 or
U+10FFFF. -/
def CreateCompositeKey (objectType : String) (attributes : List String) : Option String :=
  if validateCompositeKeyAttribute objectType && attributes.all validateCompositeKeyAttribute then
    some (String.mk (minUnicodeRuneValue :: joinAttributes (objectType :: attributes)))
  else none

/-- Stub call `GetPrivateDataHash`: outer `none` is the error return, inner
`none` the nil hash of a key that holds nothing. -/
def GetPrivateDataHash (env : Env) (ctx : Ctx) (w : World) (collection key : String) :
    Option (Option Bytes) :=
  if ctx.faults.getPrivateDataHash then none
  else some ((w.priv.get (collection, key)).map env.sha256)

/-- Stub call `GetPrivateData`. -/
def GetPrivateData (ctx : Ctx) (w : World) (collection key : String) : Option (Option Bytes) :=
  if ctx.faults.getPrivateData then none
  else some (w.priv.get (collection, key))

/-- Lowercase hex digit of a number below 16. -/
def hexDigit (n : Nat) : Char :=
  if n < 10 then Char.ofNat (48 + n) else Char.ofNat (87 + n)

def hexChars : Bytes → List Char
  | [] => []
  | x :: xs => hexDigit (x.val / 16) :: hexDigit (x.val % 16) :: hexChars xs

/-- The formatting `fmt.Sprintf("%x", b)` of a byte slice. -/
def hexString (b : Bytes) : String := String.mk (hexChars b)

/-- Lowercase hexadecimal as the specification words it, for comparison with
the formatting the code uses (`hexString`): every byte gives two characters,
its high and its low four bits looked up in the digits 0-9, a-f. -/
def specLowerHex (b : Bytes) : String :=
  String.mk (b.flatMap fun x =>
    ["0123456789abcdef".data.getD (x.val / 16) '0',
      "0123456789abcdef".data.getD (x.val % 16) '0'])

/-! ### Helpers of the package that the contract functions call -/

/-- Modelled from the spec: `getCollectionName` is not among the sources.  The
private store is scoped to the submitter's group; the name is the one
`checkForHigherBid` builds, "_implicit_org_" followed by the org. -/
def getCollectionName (ctx : Ctx) : Option String :=
  match ctx.mspID with
  | none => none
  | some clientMSPID => some ("_implicit_org_" ++ clientMSPID)

/-- Modelled from the spec: `verifyClientOrgMatchesPeerOrg` is not among the
sources.  It fails when the calling identity's group does not match the peer
it is targeting. -/
def verifyClientOrgMatchesPeerOrg (ctx : Ctx) : Bool :=
  match ctx.mspID, ctx.peerMSPID with
  | some clientMSPID, some peerMSPID => decide (clientMSPID = peerMSPID)
  | _, _ => false

/-- Modelled from the spec: `contains` is not among the sources.  It tells
whether the group is already one of the participant groups. -/
def contains (sli : List String) (str : String) : Bool :=
  sli.any fun a => decide (a = str)

/-- Modelled from the spec: `setAssetStateBasedEndorsement` is not among the
sources.  It registers the seller's group as the endorser for the key. -/
def setAssetStateBasedEndorsement (ctx : Ctx) (w : World) (assetID orgToEndorse : String) :
    Option World :=
  if ctx.faults.endorsement then none
  else some { w with policy := w.policy.put assetID [orgToEndorse] }

/-- Modelled from the spec: `addAssetStateBasedEndorsement` is not among the
sources.  It extends the endorsement policy of the key to include the group. -/
def addAssetStateBasedEndorsement (ctx : Ctx) (w : World) (assetID orgToEndorse : String) :
    Option World :=
  if ctx.faults.endorsement then none
  else some { w with
    policy := w.policy.put assetID (((w.policy.get assetID).getD []) ++ [orgToEndorse]) }

/-- Stub call `PutState` of a marshalled shipping; `e` is the error the
caller returns when the call fails. -/
def PutState (ctx : Ctx) (w : World) (key : String) (s : Shipping) (e : Err) :
    Option Err × World :=
  if ctx.faults.putState then (some e, w)
  else (none, { w with ledger := w.ledger.put key s })

deriving instance DecidableEq for Except

/-! ## The contract -/

/-- QueryShipping allows all members of the channel to read a public shipping.
The ledger holds the records themselves, so the decoding step has no error
case here. -/
def QueryShipping (ctx : Ctx) (w : World) (shippingID : String) : Except QueryErr Shipping :=
  if ctx.faults.getState then .error .getState
  else
    match w.ledger.get shippingID with
    | none => .error .notExist
    | some shipping => .ok shipping

/-- CreateShipping creates a shipping on the public channel. The identity that
submits the transaction becomes the seller of the shipping. -/
def CreateShipping (ctx : Ctx) (w : World) (shippingID : String) (itemName itemDest : Bytes)
    (itemWeight itemDays : Int) : Option Err × World :=
  match ctx.clientID with
  | none => (some .clientIdentity, w)
  | some clientID =>
  match ctx.mspID with
  | none => (some .clientMSPID, w)
  | some clientOrgID =>
  -- the document put into state is json.Marshal(shipping): its strings are
  -- written as JSON text, which changes the item strings where they are not
  -- valid UTF-8; the identity and the org are text already
  let shipping : Shipping :=
    { ObjType := "shipping"
      ItemSold :=
        { Name := jsonText itemName, Dest := jsonText itemDest, Weight := itemWeight,
          Days := itemDays }
      Price := 100000000
      Seller := clientID
      Orgs := [clientOrgID]
      PrivateBids := []
      RevealedBids := []
      Winner := ""
      Status := "open" }
  -- json.Marshal of this record has no error case
  match PutState ctx w shippingID shipping .putShipping with
  | (some e, w1) => (some e, w1)
  | (none, w1) =>
  match setAssetStateBasedEndorsement ctx w1 shippingID clientOrgID with
  | none => (some .endorsement, w1)
  | some w2 => (none, w2)

/-- Bid is used to add a user's bid to the shipping. The bid is stored in the
private data collection on the peer of the bidder's organization. The function
returns the transaction ID. -/
def Bid (ctx : Ctx) (w : World) (shippingID : String) : Except Err String × World :=
  match ctx.transient with
  | none => (.error .getTransient, w)
  | some transientMap =>
  match transientMap.get "bid" with
  | none => (.error .bidKeyNotInTransient, w)
  | some BidJSON =>
  match getCollectionName ctx with
  | none => (.error .collectionName, w)
  | some collection =>
  if verifyClientOrgMatchesPeerOrg ctx = false then (.error .wrongPeerOrg, w)
  else
  let txID := ctx.txID
  match CreateCompositeKey bidKeyType [shippingID, txID] with
  | none => (.error .compositeKey, w)
  | some bidKey =>
  if ctx.faults.putPrivateData then (.error .putPrivate, w)
  else (.ok txID, { w with priv := w.priv.put (collection, bidKey) BidJSON })

/-- SubmitBid is used by the bidder to add the hash of that bid stored in
private data to the shipping. -/
def SubmitBid (env : Env) (ctx : Ctx) (w : World) (shippingID txID : String) :
    Option Err × World :=
  match ctx.mspID with
  | none => (some .clientMSPID, w)
  | some clientOrgID =>
  match QueryShipping ctx w shippingID with
  | .error e => (some (.query e), w)
  | .ok shipping =>
  if shipping.Status ≠ "open" then (some .notOpen, w)
  else
  match getCollectionName ctx with
  | none => (some .collectionName, w)
  | some collection =>
  match CreateCompositeKey bidKeyType [shippingID, txID] with
  | none => (some .compositeKey, w)
  | some bidKey =>
  match GetPrivateDataHash env ctx w collection bidKey with
  | none => (some .readBidHash, w)
  | some none => (some .bidHashMissing, w)
  | some (some bidHash) =>
  let NewHash : BidHash := { Org := clientOrgID, Hash := hexString bidHash }
  let shipping1 : Shipping :=
    { shipping with PrivateBids := shipping.PrivateBids.put bidKey NewHash }
  if contains shipping1.Orgs clientOrgID = false then
    let shipping2 : Shipping := { shipping1 with Orgs := shipping1.Orgs ++ [clientOrgID] }
    match addAssetStateBasedEndorsement ctx w shippingID clientOrgID with
    | none => (some .endorsement, w)
    | some w1 => PutState ctx w1 shippingID shipping2 .updateShipping
  else PutState ctx w shippingID shipping1 .updateShipping

/-- RevealBid is used by a bidder to reveal their bid after the shipping is closed. -/
def RevealBid (env : Env) (ctx : Ctx) (w : World) (shippingID txID : String) :
    Option Err × World :=
  match ctx.transient with
  | none => (some .getTransient, w)
  | some transientMap =>
  match transientMap.get "bid" with
  | none => (some .bidKeyNotInTransient, w)
  | some transientBidJSON =>
  match getCollectionName ctx with
  | none => (some .collectionName, w)
  | some collection =>
  match CreateCompositeKey bidKeyType [shippingID, txID] with
  | none => (some .compositeKey, w)
  | some bidKey =>
  match GetPrivateDataHash env ctx w collection bidKey with
  | none => (some .readBidHash, w)
  | some none => (some .bidHashMissing, w)
  | some (some bidHash) =>
  match QueryShipping ctx w shippingID with
  | .error e => (some (.query e), w)
  | .ok shipping =>
  -- check 1: the shipping is closed
  if shipping.Status ≠ "closed" then (some .notClosed, w)
  else
  -- check 2: hash of revealed bid matches hash of private bid
  let calculatedBidJSONHash := env.sha256 transientBidJSON
  if calculatedBidJSONHash ≠ bidHash then (some .hashMismatch, w)
  else
  -- check 3: hash of revealed bid matches the hash that was added earlier
  let bidders := shipping.PrivateBids
  let privateBidHashString := ((bidders.get bidKey).getD ⟨"", ""⟩).Hash
  let onChainBidHashString := hexString bidHash
  if privateBidHashString ≠ onChainBidHashString then (some .hashChanged, w)
  else
  match env.unmarshalBidInput transientBidJSON with
  | none => (some .unmarshal, w)
  | some bidInput =>
  match ctx.clientID with
  | none => (some .clientIdentity, w)
  | some clientID =>
  let NewBid : FullBid :=
    { ObjType := bidKeyType, Price := bidInput.Price, Org := bidInput.Org,
      Bidder := bidInput.Bidder }
  -- check 4: the transaction is submitted by the bidder
  if bidInput.Bidder ≠ clientID then (some .permissionDenied, w)
  else
  let shipping1 : Shipping :=
    { shipping with RevealedBids := shipping.RevealedBids.put bidKey NewBid }
  PutState ctx w shippingID shipping1 .updateShipping

/-- CloseShipping can be used by the seller to close the shipping. -/
def CloseShipping (ctx : Ctx) (w : World) (shippingID : String) : Option Err × World :=
  match QueryShipping ctx w shippingID with
  | .error e => (some (.query e), w)
  | .ok shipping =>
  match ctx.clientID with
  | none => (some .clientIdentity, w)
  | some clientID =>
  if shipping.Seller ≠ clientID then (some .notSeller, w)
  else
  if shipping.Status ≠ "open" then (some .closeNotOpen, w)
  else
  PutState ctx w shippingID { shipping with Status := "closed" } .closeShipping

/-- One turn of the loop over the private bids in `checkForHigherBid`:
`inl e` is an early `return` (for `nilBid` the panic that ends the run),
`inr error` the value of the variable `error` after the turn. -/
def checkBid (env : Env) (ctx : Ctx) (w : World) (shippingPrice : Int)
    (revealedBidders : KV String FullBid) (peerMSPID : String)
    (error : Option CheckErr) (entry : String × BidHash) : CheckErr ⊕ Option CheckErr :=
  let bidKey := entry.1
  let privateBid := entry.2
  if revealedBidders.has bidKey then .inr error
  else
    let collection := "_implicit_org_" ++ privateBid.Org
    if privateBid.Org = peerMSPID then
      match GetPrivateData ctx w collection bidKey with
      | none => .inl .getBid
      | some none => .inl .bidNotExist
      | some (some bidJSON) =>
        match env.unmarshalFullBid bidJSON with
        | none => .inl .unmarshal
        | some none => .inl .nilBid
        | some (some bid) =>
          if bid.Price > shippingPrice then .inr (some .higherPrice) else .inr error
    else
      match GetPrivateDataHash env ctx w collection bidKey with
      | none => .inl .readBidHash
      | some none => .inl .bidHashMissing
      | some (some _) => .inr error

/-- The loop of `checkForHigherBid` over the private bids in visiting order. -/
def checkLoop (env : Env) (ctx : Ctx) (w : World) (shippingPrice : Int)
    (revealedBidders : KV String FullBid) (peerMSPID : String) :
    List (String × BidHash) → Option CheckErr → Option CheckErr
  | [], error => error
  | entry :: rest, error =>
    match checkBid env ctx w shippingPrice revealedBidders peerMSPID error entry with
    | .inl e => some e
    | .inr error1 => checkLoop env ctx w shippingPrice revealedBidders peerMSPID rest error1

/-- The internal function checkForHigherBid is used to determine if a winning
bid has yet to be revealed. -/
def checkForHigherBid (env : Env) (ctx : Ctx) (w : World) (shippingPrice : Int)
    (revealedBidders : KV String FullBid) (bidders : KV String BidHash) : Option CheckErr :=
  match ctx.peerMSPID with
  | none => some .peerMSPID
  | some peerMSPID =>
    checkLoop env ctx w shippingPrice revealedBidders peerMSPID
      (rangeOrder ctx.rangeBidders bidders) none

/-- One turn of the loop of `EndShipping` over the revealed bids. -/
def betterBid (shipping : Shipping) (entry : String × FullBid) : Shipping :=
  if entry.2.Price < shipping.Price then
    { shipping with Winner := entry.2.Bidder, Price := entry.2.Price }
  else shipping

/-- The loop of `EndShipping` over the revealed bids in visiting order. -/
def selectWinner (bids : List (String × FullBid)) (shipping : Shipping) : Shipping :=
  bids.foldl betterBid shipping

/-- EndShipping both changes the shipping status and calculates the winner of
the shipping. -/
def EndShipping (env : Env) (ctx : Ctx) (w : World) (shippingID : String) :
    Option Err × World :=
  match QueryShipping ctx w shippingID with
  | .error e => (some (.query e), w)
  | .ok shipping =>
  match ctx.clientID with
  | none => (some .clientIdentity, w)
  | some clientID =>
  if shipping.Seller ≠ clientID then (some .notSeller, w)
  else
  if shipping.Status ≠ "closed" then (some .endNotClosed, w)
  else
  let revealedBidMap := shipping.RevealedBids
  if shipping.RevealedBids.length = 0 then (some .noBids, w)
  else
  let shipping1 := selectWinner (rangeOrder ctx.rangeRevealed revealedBidMap) shipping
  match checkForHigherBid env ctx w shipping1.Price shipping1.RevealedBids
      shipping1.PrivateBids with
  | some e => (some (.cannotEnd e), w)
  | none =>
  PutState ctx w shippingID { shipping1 with Status := "ended" } .endShipping

/-! ## Transactions and reachable states -/

/-- A transaction proposal: the contract function invoked and its arguments. -/
inductive Call where
  | CreateShipping (shippingID : String) (itemName itemDest : Bytes)
      (itemWeight itemDays : Int)
  | Bid (shippingID : String)
  | SubmitBid (shippingID txID : String)
  | RevealBid (shippingID txID : String)
  | CloseShipping (shippingID : String)
  | EndShipping (shippingID : String)
deriving DecidableEq, Repr

/-- World left behind by a call. -/
def exec (env : Env) (ctx : Ctx) (w : World) : Call → World
  | .CreateShipping shippingID itemName itemDest itemWeight itemDays =>
    (CreateShipping ctx w shippingID itemName itemDest itemWeight itemDays).2
  | .Bid shippingID => (Bid ctx w shippingID).2
  | .SubmitBid shippingID txID => (SubmitBid env ctx w shippingID txID).2
  | .RevealBid shippingID txID => (RevealBid env ctx w shippingID txID).2
  | .CloseShipping shippingID => (CloseShipping ctx w shippingID).2
  | .EndShipping shippingID => (EndShipping env ctx w shippingID).2

/-- States the platform can be in: the empty ledger, and whatever a call made
in any context leaves behind. -/
inductive Reachable (env : Env) : World → Prop where
  | genesis : Reachable env World.empty
  | call (ctx : Ctx) (c : Call) {w : World} (h : Reachable env w) :
      Reachable env (exec env ctx w c)

/-! ## A small platform instance for concrete runs -/

/-- A stand-in digest: the first 32 bytes of the input padded with zeros. -/
def demoHash (b : Bytes) : Bytes := (b ++ List.replicate 32 0).take 32

/-- A stand-in payload format: a bidder tag, an org tag, then the price in
decimal digits; the four bytes of the text null stand for themselves. -/
def demoBidder (t : Fin 256) : String :=
  if t = 0 then "alice" else if t = 1 then "bob" else "carol"

def demoOrg (t : Fin 256) : String := if t = 0 then "Org1MSP" else "Org2MSP"

def demoPrice (digits : Bytes) : Int :=
  Int.ofNat (digits.foldl (fun acc d => acc * 10 + d.val) 0)

/-- The payload `null`. -/
def nullPayload : Bytes := [110, 117, 108, 108]

/-- Decoding into the struct value of `RevealBid`: `null` leaves the zero
value. -/
def demoBidInput (payload : Bytes) : Option transientBidInput :=
  if payload = nullPayload then some ⟨0, "", ""⟩
  else
    match payload with
    | b :: o :: digits => some ⟨demoPrice digits, demoOrg o, demoBidder b⟩
    | _ => none

/-- Decoding into the pointer of `checkForHigherBid`: `null` leaves it nil. -/
def demoFullBid (payload : Bytes) : Option (Option FullBid) :=
  if payload = nullPayload then some none
  else
    match payload with
    | b :: o :: digits => some (some ⟨"", demoPrice digits, demoOrg o, demoBidder b⟩)
    | _ => none

def demoEnv : Env :=
  ⟨demoHash, by intro b; simp [demoHash, List.length_take], demoBidInput, demoFullBid⟩

/-- A context of a client of an org on a peer of an org, with an optional
payload in the transient field "bid". -/
def demoCtx (txID client org peer : String) (payload : Option Bytes) : Ctx :=
  { txID := txID, clientID := some client, mspID := some org, peerMSPID := some peer,
    transient := some (match payload with | none => [] | some p => [("bid", p)]),
    faults := noFaults, rangeRevealed := 0, rangeBidders := 0 }

/-- World after a sequence of calls, each made in its own context. -/
def run (env : Env) (w : World) (calls : List (Ctx × Call)) : World :=
  calls.foldl (fun w1 cc => exec env cc.1 w1 cc.2) w

/-- Status of the shipping stored under a key, when there is one. -/
def statusAt (w : World) (key : String) : Option String :=
  (w.ledger.get key).map Shipping.Status

/-- A status stays or moves one step along open, closed, ended. -/
def statusStep (before after : Option String) : Prop :=
  after = before ∨ (before = some "open" ∧ after = some "closed") ∨
    (before = some "closed" ∧ after = some "ended")

instance (before after : Option String) : Decidable (statusStep before after) :=
  inferInstanceAs
    (Decidable (after = before ∨ (before = some "open" ∧ after = some "closed") ∨
      (before = some "closed" ∧ after = some "ended")))

/-! ### Concrete runs

The seller sam and the bidders alice and bob all belong to Org1MSP and use a
peer of Org1MSP.  Payloads follow `demoBidInput`. -/

def demoSeller : Ctx := demoCtx "tx0" "sam" "Org1MSP" "Org1MSP" none

def demoAlice (txID : String) (payload : Option Bytes) : Ctx :=
  demoCtx txID "alice" "Org1MSP" "Org1MSP" payload

def demoBob (txID : String) (payload : Option Bytes) : Ctx :=
  demoCtx txID "bob" "Org1MSP" "Org1MSP" payload

/-- Payload of alice bidding 500. -/
def alice500 : Bytes := [0, 0, 5, 0, 0]

/-- Payload of alice bidding 300. -/
def alice300 : Bytes := [0, 0, 3, 0, 0]

/-- Payload of alice bidding 200000000. -/
def alice200000000 : Bytes := [0, 0, 2, 0, 0, 0, 0, 0, 0, 0, 0]

/-- Payload of bob bidding 500. -/
def bob500 : Bytes := [1, 0, 5, 0, 0]

/-- Payload of bob bidding 300. -/
def bob300 : Bytes := [1, 0, 3, 0, 0]

def createS1 : Ctx × Call :=
  (demoSeller, .CreateShipping "s1" (goBytes "box") (goBytes "oslo") 3 4)

/-- The shipping "s1" as `CreateShipping` stores it. -/
def demoShipping : Shipping :=
  { ObjType := "shipping", ItemSold := ⟨"box", "oslo", 3, 4⟩, Seller := "sam",
    Orgs := ["Org1MSP"], PrivateBids := [], RevealedBids := [], Winner := "",
    Price := 100000000, Status := "open" }

/-- The seller has created "s1". -/
def demoOpen : World := run demoEnv World.empty [createS1]

/-- Alice has committed 500 in transaction "tx1"; "s1" is still open. -/
def demoCommitted : World :=
  run demoEnv World.empty
    [createS1, (demoAlice "tx1" (some alice500), .Bid "s1"),
      (demoAlice "tx2" none, .SubmitBid "s1" "tx1")]

/-- Alice has committed 500 in transaction "tx1" and the seller has closed "s1". -/
def demoClosed : World := run demoEnv demoCommitted [(demoSeller, .CloseShipping "s1")]

/-- Alice has committed a payload that names bob as the bidder, and the
seller has closed "s1". -/
def demoProxy : World :=
  run demoEnv World.empty
    [createS1, (demoAlice "tx1" (some bob500), .Bid "s1"),
      (demoAlice "tx2" none, .SubmitBid "s1" "tx1"), (demoSeller, .CloseShipping "s1")]

/-- Alice has committed and revealed 200000000 on the closed "s1". -/
def demoDear : World :=
  run demoEnv World.empty
    [createS1, (demoAlice "tx1" (some alice200000000), .Bid "s1"),
      (demoAlice "tx2" none, .SubmitBid "s1" "tx1"), (demoSeller, .CloseShipping "s1"),
      (demoAlice "tx3" (some alice200000000), .RevealBid "s1" "tx1")]

/-- Alice has committed and revealed 500; bob has committed 300 in
transaction "tx4" and not revealed it; "s1" is closed. -/
def demoWithheld : World :=
  run demoEnv World.empty
    [createS1, (demoAlice "tx1" (some alice500), .Bid "s1"),
      (demoAlice "tx2" none, .SubmitBid "s1" "tx1"),
      (demoBob "tx4" (some bob300), .Bid "s1"),
      (demoBob "tx5" none, .SubmitBid "s1" "tx4"),
      (demoSeller, .CloseShipping "s1"),
      (demoAlice "tx3" (some alice500), .RevealBid "s1" "tx1")]

/-- Alice has committed and revealed 500 on the closed "s1". -/
def demoRevealed : World :=
  run demoEnv demoClosed [(demoAlice "tx3" (some alice500), .RevealBid "s1" "tx1")]

/-- Composite key of the bid that transaction "tx1" placed on "s1". -/
def demoKey : String := "\x00bid\x00s1\x00tx1\x00"

/-- Every key of the revealed bids is a key of the private bids. -/
def Shipping.revealedCommitted (s : Shipping) : Prop :=
  ∀ k, s.RevealedBids.has k = true → s.PrivateBids.has k = true

/-- The invariant on the public state. -/
def ledgerCommitted (l : KV String Shipping) : Prop :=
  ∀ shippingID s, l.get shippingID = some s → s.revealedCommitted

/-- Alice has committed and revealed 300; bob has committed 500 in
transaction "tx4" and not revealed it; "s1" is closed. -/
def demoOutbid : World :=
  run demoEnv World.empty
    [createS1, (demoAlice "tx1" (some alice300), .Bid "s1"),
      (demoAlice "tx2" none, .SubmitBid "s1" "tx1"),
      (demoBob "tx4" (some bob500), .Bid "s1"),
      (demoBob "tx5" none, .SubmitBid "s1" "tx4"),
      (demoSeller, .CloseShipping "s1"),
      (demoAlice "tx3" (some alice300), .RevealBid "s1" "tx1")]

/-- Price and winner of the shipping stored under a key, when there is one. -/
def priceWinnerAt (w : World) (key : String) : Option (Int × String) :=
  (w.ledger.get key).map fun s => (s.Price, s.Winner)

/-- The plaintext price of a private bid, as read and decoded from the
collection of the bid's org. -/
def storedPrice (env : Env) (w : World) (entry : String × BidHash) : Option Int :=
  ((w.priv.get ("_implicit_org_" ++ entry.2.Org, entry.1)).bind
    env.unmarshalFullBid).join.map FullBid.Price

/-- The read that `checkForHigherBid` makes for a private bid succeeds: for a
bid of the peer's org the plaintext is read and decoded to a bid (not to the
nil pointer), for a bid of another org the hash is read and exists. -/
def readOk (env : Env) (ctx : Ctx) (w : World) (peerMSPID : String)
    (entry : String × BidHash) : Bool :=
  if entry.2.Org = peerMSPID then
    !ctx.faults.getPrivateData && (storedPrice env w entry).isSome
  else
    !ctx.faults.getPrivateDataHash &&
      (w.priv.get ("_implicit_org_" ++ entry.2.Org, entry.1)).isSome

/-- The private bid is not revealed, belongs to the peer's org and its stored
plaintext price is above the given price. -/
def outbids (env : Env) (w : World) (shippingPrice : Int) (revealedBidders : KV String FullBid)
    (peerMSPID : String) (entry : String × BidHash) : Bool :=
  !revealedBidders.has entry.1 && decide (entry.2.Org = peerMSPID) &&
    match storedPrice env w entry with
    | some price => decide (price > shippingPrice)
    | none => false

/-- Bob as a member of Org2MSP on a peer of Org2MSP. -/
def demoBob2 (txID : String) (payload : Option Bytes) : Ctx :=
  demoCtx txID "bob" "Org2MSP" "Org2MSP" payload

/-- Payload of bob of Org2MSP bidding 300. -/
def bob300org2 : Bytes := [1, 1, 3, 0, 0]

/-- Composite key of the bid that transaction "tx4" placed on "s1". -/
def demoKey4 : String := "\x00bid\x00s1\x00tx4\x00"

/-- Alice has committed and revealed 500; bob of Org2MSP has committed 300 in
transaction "tx4" and not revealed it; "s1" is closed. -/
def demoForeign : World :=
  run demoEnv World.empty
    [createS1, (demoAlice "tx1" (some alice500), .Bid "s1"),
      (demoAlice "tx2" none, .SubmitBid "s1" "tx1"),
      (demoBob2 "tx4" (some bob300org2), .Bid "s1"),
      (demoBob2 "tx5" none, .SubmitBid "s1" "tx4"),
      (demoSeller, .CloseShipping "s1"),
      (demoAlice "tx3" (some alice500), .RevealBid "s1" "tx1")]

/-- The state `demoForeign` with another plaintext under bob's bid key. -/
def demoForeignOther : World :=
  { demoForeign with
    priv := demoForeign.priv.put ("_implicit_org_Org2MSP", demoKey4) [1, 1, 9, 0, 0] }

/-- Payload of alice bidding 100000000. -/
def alice100000000 : Bytes := [0, 0, 1, 0, 0, 0, 0, 0, 0, 0, 0]

/-- Alice has committed and revealed 100000000 on the closed "s1". -/
def demoPar : World :=
  run demoEnv World.empty
    [createS1, (demoAlice "tx1" (some alice100000000), .Bid "s1"),
      (demoAlice "tx2" none, .SubmitBid "s1" "tx1"), (demoSeller, .CloseShipping "s1"),
      (demoAlice "tx3" (some alice100000000), .RevealBid "s1" "tx1")]

/-- The private bid is not revealed, belongs to another org than the peer's,
and nothing is stored under its key, so that its hash does not exist. -/
def hashAbsent (w : World) (revealedBidders : KV String FullBid) (peerMSPID : String)
    (entry : String × BidHash) : Bool :=
  !revealedBidders.has entry.1 && !decide (entry.2.Org = peerMSPID) &&
    (w.priv.get ("_implicit_org_" ++ entry.2.Org, entry.1)).isNone

/-- The read that `checkForHigherBid` makes for a private bid succeeds and,
for a bid of the peer's org, `json.Unmarshal` reports no error; the decoded
pointer may be nil. -/
def readParses (env : Env) (ctx : Ctx) (w : World) (peerMSPID : String)
    (entry : String × BidHash) : Bool :=
  if entry.2.Org = peerMSPID then
    !ctx.faults.getPrivateData &&
      ((w.priv.get ("_implicit_org_" ++ entry.2.Org, entry.1)).bind env.unmarshalFullBid).isSome
  else
    !ctx.faults.getPrivateDataHash &&
      (w.priv.get ("_implicit_org_" ++ entry.2.Org, entry.1)).isSome

/-- Composite key of the bid that transaction "tx6" placed on "s1". -/
def demoKey6 : String := "\x00bid\x00s1\x00tx6\x00"

/-- Alice has committed and revealed 300; bob has committed 500 in
transaction "tx4" and the payload `null` in transaction "tx6" and revealed
neither; "s1" is closed. -/
def demoNull : World :=
  run demoEnv World.empty
    [createS1, (demoAlice "tx1" (some alice300), .Bid "s1"),
      (demoAlice "tx2" none, .SubmitBid "s1" "tx1"),
      (demoBob "tx4" (some bob500), .Bid "s1"),
      (demoBob "tx5" none, .SubmitBid "s1" "tx4"),
      (demoBob "tx6" (some nullPayload), .Bid "s1"),
      (demoBob "tx7" none, .SubmitBid "s1" "tx6"),
      (demoSeller, .CloseShipping "s1"),
      (demoAlice "tx3" (some alice300), .RevealBid "s1" "tx1")]

/-- The state `demoForeign` with nothing stored under bob's bid key. -/
def demoForeignGone : World :=
  { demoForeign with priv := demoForeign.priv.del ("_implicit_org_Org2MSP", demoKey4) }


/-- The shipping "s1" in the state `demoForeign`. -/
def demoForeignShipping : Shipping := (demoForeign.ledger.get "s1").getD demoShipping

/-! ## Properties -/

/-! ### JSON text -/

theorem byte_val (n : Nat) (h : n < 256) : (byte n).val = n := by
  simp [byte, Fin.ofNat, Nat.mod_eq_of_lt h]

theorem acceptRange_two (v : Nat) (h1 : 0x80 ≤ v) (h2 : v < 0x800) :
    acceptRange (0xC0 + v / 64) = some (2, 0x80, 0xBF) := by
  have : 0xC2 ≤ 0xC0 + v / 64 ∧ 0xC0 + v / 64 ≤ 0xDF := by omega
  simp [acceptRange, this]

theorem acceptRange_three (v : Nat) (h1 : 0x800 ≤ v) (h2 : v < 0x10000)
    (hv : v < 0xd800 ∨ 0xdfff < v) :
    ∃ lo hi, acceptRange (0xE0 + v / 4096) = some (3, lo, hi) ∧
      lo ≤ 0x80 + v / 64 % 64 ∧ 0x80 + v / 64 % 64 ≤ hi := by
  unfold acceptRange
  split_ifs <;> first
    | omega
    | (refine ⟨_, _, rfl, ?_, ?_⟩ <;> omega)

theorem acceptRange_four (v : Nat) (h1 : 0x10000 ≤ v) (h2 : v < 0x110000) :
    ∃ lo hi, acceptRange (0xF0 + v / 262144) = some (4, lo, hi) ∧
      lo ≤ 0x80 + v / 4096 % 64 ∧ 0x80 + v / 4096 % 64 ≤ hi := by
  unfold acceptRange
  split_ifs <;> first
    | omega
    | (refine ⟨_, _, rfl, ?_, ?_⟩ <;> omega)

/-- Decoding finds the character that was encoded, and its width. -/
theorem decode_encode (v : Nat) (hv : v < 0xd800 ∨ (0xdfff < v ∧ v < 0x110000))
    (rest : Bytes) :
    DecodeRune (encodeRune v ++ rest) = (v, (encodeRune v).length) := by
  unfold encodeRune
  by_cases h1 : v < 0x80
  · simp only [h1, if_true, List.singleton_append, DecodeRune, byte_val v (by omega),
      List.length_singleton]
  · by_cases h2 : v < 0x800
    · have hr := acceptRange_two v (by omega) h2
      have e0 := byte_val (0xC0 + v / 64) (by omega)
      have e1 := byte_val (0x80 + v % 64) (by omega)
      simp only [h1, h2, if_true, if_false, List.cons_append, List.nil_append, DecodeRune, e0, e1,
        hr, List.length_cons]
      rw [if_neg (by omega), if_neg (by omega), if_neg (by omega), if_pos (by omega)]
      simp only [List.length_nil, Prod.mk.injEq, and_true]
      omega
    · by_cases h3 : v < 0x10000
      · obtain ⟨lo, hi, hr, hlo, hhi⟩ := acceptRange_three v (by omega) h3 (by omega)
        have e0 := byte_val (0xE0 + v / 4096) (by omega)
        have e1 := byte_val (0x80 + v / 64 % 64) (by omega)
        have e2 := byte_val (0x80 + v % 64) (by omega)
        simp only [h1, h2, h3, if_true, if_false, List.cons_append, List.nil_append, DecodeRune,
          e0, e1, e2, hr, List.length_cons]
        rw [if_neg (by omega), if_neg (by omega), if_neg (by omega), if_neg (by omega),
          if_neg (by omega), if_pos (by omega)]
        simp only [List.length_nil, Prod.mk.injEq, and_true]
        omega
      · obtain ⟨lo, hi, hr, hlo, hhi⟩ := acceptRange_four v (by omega) (by omega)
        have e0 := byte_val (0xF0 + v / 262144) (by omega)
        have e1 := byte_val (0x80 + v / 4096 % 64) (by omega)
        have e2 := byte_val (0x80 + v / 64 % 64) (by omega)
        have e3 := byte_val (0x80 + v % 64) (by omega)
        simp only [h1, h2, h3, if_true, if_false, List.cons_append, List.nil_append, DecodeRune,
          e0, e1, e2, e3, hr, List.length_cons]
        rw [if_neg (by omega), if_neg (by omega), if_neg (by omega), if_neg (by omega),
          if_neg (by omega), if_neg (by omega), if_neg (by omega)]
        simp only [List.length_nil, Prod.mk.injEq, and_true]
        omega

theorem encodeRune_length_pos (v : Nat) : 0 < (encodeRune v).length := by
  unfold encodeRune
  split_ifs <;> simp

theorem coerceRunes_goBytes (l : List Char) (fuel : Nat)
    (h : (l.flatMap fun c => encodeRune c.val.toNat).length ≤ fuel) :
    coerceRunes fuel (l.flatMap fun c => encodeRune c.val.toNat) = l := by
  induction l generalizing fuel with
  | nil =>
    cases fuel <;> rfl
  | cons c l ih =>
    have hpos := encodeRune_length_pos c.val.toNat
    have hdec := decode_encode c.val.toNat c.valid (l.flatMap fun c => encodeRune c.val.toNat)
    simp only [List.flatMap_cons, List.length_append] at h ⊢
    cases hb : encodeRune c.val.toNat ++ (l.flatMap fun c => encodeRune c.val.toNat) with
    | nil =>
      have := congrArg List.length hb
      simp only [List.length_append, List.length_nil] at this
      omega
    | cons p0 tail =>
      cases fuel with
      | zero => omega
      | succ f =>
        rw [hb] at hdec
        simp only [coerceRunes, hdec]
        rw [← hb, List.drop_left, ih f (by omega)]
        congr 1
        exact Char.ofNat_toNat c

/-- Text survives the JSON encoder and decoder unchanged. -/
theorem jsonText_goBytes (s : String) : jsonText (goBytes s) = s := by
  unfold jsonText goBytes
  rw [coerceRunes_goBytes s.data _ (le_refl _)]

/-- A rune decoded from a Go string that is not empty takes at least one byte. -/
theorem DecodeRune_width_pos (p0 : Fin 256) (rest : Bytes) :
    1 ≤ (DecodeRune (p0 :: rest)).2 := by
  simp only [DecodeRune]
  repeat' split
  all_goals simp

/-- The bound on the number of runes does not cut the text short: every bound
from the length of the string on gives the same characters. -/
theorem coerceRunes_fuel (n : Nat) : ∀ (p : Bytes) (f1 f2 : Nat), p.length ≤ n →
    p.length ≤ f1 → p.length ≤ f2 → coerceRunes f1 p = coerceRunes f2 p := by
  induction n with
  | zero =>
    intro p f1 f2 hn _ _
    have hp : p = [] := List.length_eq_zero.1 (Nat.le_zero.1 hn)
    subst hp
    cases f1 <;> cases f2 <;> rfl
  | succ n ih =>
    intro p f1 f2 hn h1 h2
    cases p with
    | nil => cases f1 <;> cases f2 <;> rfl
    | cons p0 rest =>
      cases f1 with
      | zero => simp at h1
      | succ a =>
        cases f2 with
        | zero => simp at h2
        | succ b =>
          have hw := DecodeRune_width_pos p0 rest
          have hlen : ((p0 :: rest).drop (DecodeRune (p0 :: rest)).2).length ≤ rest.length := by
            rw [List.length_drop, List.length_cons]
            omega
          simp only [List.length_cons] at hn h1 h2
          simp only [coerceRunes]
          rw [ih _ a b (by omega) (by omega) (by omega)]

/-! ### Maps and visiting orders -/

namespace KV

variable {κ ν : Type} [DecidableEq κ]

theorem get_put_self (m : KV κ ν) (k : κ) (v : ν) : (m.put k v).get k = some v := by
  simp [put, get]

theorem get_del_of_ne (m : KV κ ν) (k k' : κ) (h : k ≠ k') :
    (m.del k).get k' = m.get k' := by
  induction m with
  | nil => rfl
  | cons e rest ih =>
    obtain ⟨a, b⟩ := e
    by_cases hak : a = k
    · subst hak
      simp [del, get, h, ih]
    · simp [del, get, hak, ih]

theorem get_put_of_ne (m : KV κ ν) (k k' : κ) (v : ν) (h : k ≠ k') :
    (m.put k v).get k' = m.get k' := by
  simp [put, get, h, get_del_of_ne m k k' h]

theorem mem_of_get {m : KV κ ν} {k : κ} {v : ν} (h : m.get k = some v) : (k, v) ∈ m := by
  induction m with
  | nil => simp [get] at h
  | cons e rest ih =>
    obtain ⟨a, b⟩ := e
    by_cases hak : a = k
    · subst hak
      simp [get] at h
      simp [h]
    · simp [get, hak] at h
      simp [ih h]

end KV

theorem rangeOrder_perm {α : Type} (seed : Nat) (l : List α) : (rangeOrder seed l).Perm l := by
  unfold rangeOrder
  by_cases h : seed < (l.permutations').length
  · have hmem : (l.permutations').getD seed l ∈ l.permutations' := by
      rw [List.getD_eq_getElem _ _ h]
      exact List.getElem_mem _
    exact (List.mem_permutations' ).1 hmem
  · rw [List.getD_eq_default _ _ (Nat.le_of_not_lt h)]

theorem mem_rangeOrder {α : Type} (seed : Nat) (l : List α) (a : α) :
    a ∈ rangeOrder seed l ↔ a ∈ l :=
  (rangeOrder_perm seed l).mem_iff

/-! ### Successful calls -/

theorem payload_eq {ctx : Ctx} {p : Bytes} (h : ctx.payload = some p) :
    ∃ transientMap, ctx.transient = some transientMap ∧ transientMap.get "bid" = some p := by
  unfold Ctx.payload at h
  cases ht : ctx.transient with
  | none => simp [ht] at h
  | some transientMap => exact ⟨transientMap, rfl, by simpa [ht] using h⟩

/-- Bid with a payload, on a peer of the client's org, stores the payload
under the bid key in the org's collection and returns the transaction ID. -/
theorem Bid_ok (ctx : Ctx) (w : World) (shippingID org bidKey : String) (p : Bytes)
    (hmsp : ctx.mspID = some org) (hpeer : ctx.peerMSPID = some org)
    (hpay : ctx.payload = some p)
    (hkey : CreateCompositeKey bidKeyType [shippingID, ctx.txID] = some bidKey)
    (hf : ctx.faults.putPrivateData = false) :
    Bid ctx w shippingID =
      (.ok ctx.txID, { w with priv := w.priv.put ("_implicit_org_" ++ org, bidKey) p }) := by
  obtain ⟨transientMap, ht, hb⟩ := payload_eq hpay
  simp [Bid, ht, hb, getCollectionName, hmsp, verifyClientOrgMatchesPeerOrg, hpeer, hkey, hf]

/-- SubmitBid on an open shipping whose bid is in the caller's collection. -/
theorem SubmitBid_ok (env : Env) (ctx : Ctx) (w : World) (shippingID txID org bidKey : String)
    (shipping : Shipping) (p : Bytes)
    (hmsp : ctx.mspID = some org) (hf : ctx.faults = noFaults)
    (hget : w.ledger.get shippingID = some shipping) (hopen : shipping.Status = "open")
    (hkey : CreateCompositeKey bidKeyType [shippingID, txID] = some bidKey)
    (hpriv : w.priv.get ("_implicit_org_" ++ org, bidKey) = some p) :
    SubmitBid env ctx w shippingID txID =
      (none,
        { ledger := w.ledger.put shippingID
            { shipping with
              PrivateBids := shipping.PrivateBids.put bidKey ⟨org, hexString (env.sha256 p)⟩
              Orgs := if contains shipping.Orgs org then shipping.Orgs
                      else shipping.Orgs ++ [org] }
          priv := w.priv
          policy := if contains shipping.Orgs org then w.policy
                    else w.policy.put shippingID (((w.policy.get shippingID).getD []) ++ [org]) }) := by
  by_cases hc : contains shipping.Orgs org = true
  · simp [SubmitBid, hmsp, QueryShipping, hf, noFaults, hget, hopen, getCollectionName, hkey,
      GetPrivateDataHash, hpriv, hc, PutState]
  · simp only [Bool.not_eq_true] at hc
    simp [SubmitBid, hmsp, QueryShipping, hf, noFaults, hget, hopen, getCollectionName, hkey,
      GetPrivateDataHash, hpriv, hc, PutState, addAssetStateBasedEndorsement]

/-- CloseShipping by the seller of an open shipping. -/
theorem CloseShipping_ok (ctx : Ctx) (w : World) (shippingID : String) (shipping : Shipping)
    (hget : w.ledger.get shippingID = some shipping) (hopen : shipping.Status = "open")
    (hclient : ctx.clientID = some shipping.Seller)
    (hg : ctx.faults.getState = false) (hp : ctx.faults.putState = false) :
    CloseShipping ctx w shippingID =
      (none, { w with ledger := w.ledger.put shippingID ({ shipping with Status := "closed" }) }) := by
  simp [CloseShipping, QueryShipping, hg, hget, hclient, hopen, PutState, hp]

/-- RevealBid of the committed payload by the client the payload names. -/
theorem RevealBid_ok (env : Env) (ctx : Ctx) (w : World) (shippingID txID org bidKey : String)
    (shipping : Shipping) (p : Bytes) (bid : transientBidInput) (commitment : BidHash)
    (hmsp : ctx.mspID = some org) (hf : ctx.faults = noFaults)
    (hpay : ctx.payload = some p)
    (hget : w.ledger.get shippingID = some shipping) (hclosed : shipping.Status = "closed")
    (hkey : CreateCompositeKey bidKeyType [shippingID, txID] = some bidKey)
    (hpriv : w.priv.get ("_implicit_org_" ++ org, bidKey) = some p)
    (hcommit : shipping.PrivateBids.get bidKey = some commitment)
    (hhash : commitment.Hash = hexString (env.sha256 p))
    (hparse : env.unmarshalBidInput p = some bid)
    (hclient : ctx.clientID = some bid.Bidder) :
    RevealBid env ctx w shippingID txID =
      (none,
        { w with ledger := w.ledger.put shippingID ({ shipping with
            RevealedBids := shipping.RevealedBids.put bidKey
              ⟨bidKeyType, bid.Price, bid.Org, bid.Bidder⟩ }) }) := by
  obtain ⟨transientMap, ht, hb⟩ := payload_eq hpay
  simp [RevealBid, ht, hb, getCollectionName, hmsp, hkey, GetPrivateDataHash, hf, noFaults,
    hpriv, QueryShipping, hget, hclosed, hcommit, hhash, hparse, hclient, PutState]

/-! ### Selection of the winner -/

theorem betterBid_frame (s : Shipping) (e : String × FullBid) :
    (betterBid s e).Status = s.Status ∧ (betterBid s e).RevealedBids = s.RevealedBids ∧
    (betterBid s e).PrivateBids = s.PrivateBids ∧ (betterBid s e).Seller = s.Seller ∧
    (betterBid s e).Orgs = s.Orgs ∧ (betterBid s e).ItemSold = s.ItemSold ∧
    (betterBid s e).ObjType = s.ObjType := by
  unfold betterBid
  split <;> simp

theorem selectWinner_frame (bids : List (String × FullBid)) (s : Shipping) :
    (selectWinner bids s).Status = s.Status ∧
    (selectWinner bids s).RevealedBids = s.RevealedBids ∧
    (selectWinner bids s).PrivateBids = s.PrivateBids ∧
    (selectWinner bids s).Seller = s.Seller ∧
    (selectWinner bids s).Orgs = s.Orgs ∧ (selectWinner bids s).ItemSold = s.ItemSold ∧
    (selectWinner bids s).ObjType = s.ObjType := by
  induction bids generalizing s with
  | nil => simp [selectWinner]
  | cons e rest ih =>
    have h := ih (betterBid s e)
    have hb := betterBid_frame s e
    simp only [selectWinner, List.foldl_cons] at h ⊢
    refine ⟨h.1.trans hb.1, h.2.1.trans hb.2.1, h.2.2.1.trans hb.2.2.1,
      h.2.2.2.1.trans hb.2.2.2.1, h.2.2.2.2.1.trans hb.2.2.2.2.1,
      h.2.2.2.2.2.1.trans hb.2.2.2.2.2.1, h.2.2.2.2.2.2.trans hb.2.2.2.2.2.2⟩

theorem betterBid_price_le (s : Shipping) (e : String × FullBid) :
    (betterBid s e).Price ≤ s.Price ∧ (betterBid s e).Price ≤ e.2.Price := by
  unfold betterBid
  split
  · simp; omega
  · simp; omega

theorem selectWinner_price_le (bids : List (String × FullBid)) (s : Shipping) :
    (selectWinner bids s).Price ≤ s.Price := by
  induction bids generalizing s with
  | nil => simp [selectWinner]
  | cons e rest ih =>
    have h := ih (betterBid s e)
    simp only [selectWinner, List.foldl_cons] at h ⊢
    exact le_trans h (betterBid_price_le s e).1

theorem selectWinner_price_le_bid (bids : List (String × FullBid)) (s : Shipping)
    (e : String × FullBid) (he : e ∈ bids) : (selectWinner bids s).Price ≤ e.2.Price := by
  induction bids generalizing s with
  | nil => simp at he
  | cons b rest ih =>
    rcases List.mem_cons.1 he with h | h
    · subst h
      have h1 := selectWinner_price_le rest (betterBid s e)
      simp only [selectWinner, List.foldl_cons] at h1 ⊢
      exact le_trans h1 (betterBid_price_le s e).2
    · have h1 := ih (betterBid s b) h
      simpa only [selectWinner, List.foldl_cons] using h1

/-- The loop keeps the stored price and winner, or ends with the price and
bidder of one of the bids, that price being below the stored one. -/
theorem selectWinner_attained (bids : List (String × FullBid)) (s : Shipping) :
    ((selectWinner bids s).Price = s.Price ∧ (selectWinner bids s).Winner = s.Winner) ∨
    ((selectWinner bids s).Price < s.Price ∧
      ∃ e ∈ bids, e.2.Price = (selectWinner bids s).Price ∧
        e.2.Bidder = (selectWinner bids s).Winner) := by
  induction bids generalizing s with
  | nil => simp [selectWinner]
  | cons b rest ih =>
    have h := ih (betterBid s b)
    simp only [selectWinner, List.foldl_cons] at h ⊢
    by_cases hlt : b.2.Price < s.Price
    · have hbP : (betterBid s b).Price = b.2.Price := by simp [betterBid, hlt]
      have hbW : (betterBid s b).Winner = b.2.Bidder := by simp [betterBid, hlt]
      rcases h with ⟨hp, hw⟩ | ⟨hp, e, he, hep, hew⟩
      · right
        exact ⟨by omega, b, List.mem_cons_self _ _, (hp.trans hbP).symm, (hw.trans hbW).symm⟩
      · right
        exact ⟨by omega, e, List.mem_cons_of_mem _ he, hep, hew⟩
    · have hb : betterBid s b = s := by simp [betterBid, hlt]
      rw [hb] at h ⊢
      rcases h with h | ⟨hp, e, he, hep, hew⟩
      · exact Or.inl h
      · exact Or.inr ⟨hp, e, List.mem_cons_of_mem _ he, hep, hew⟩

/-- What EndShipping does: an error and no write, or the write of the shipping
with the selected winner and status ended. -/
theorem EndShipping_cases (env : Env) (ctx : Ctx) (w : World) (shippingID : String) :
    (∃ e, EndShipping env ctx w shippingID = (some e, w)) ∨
    (∃ s, w.ledger.get shippingID = some s ∧ s.Status = "closed" ∧
      ctx.clientID = some s.Seller ∧ s.RevealedBids ≠ [] ∧
      checkForHigherBid env ctx w
        (selectWinner (rangeOrder ctx.rangeRevealed s.RevealedBids) s).Price
        s.RevealedBids s.PrivateBids = none ∧
      EndShipping env ctx w shippingID =
        (none, { w with ledger := w.ledger.put shippingID ({
          (selectWinner (rangeOrder ctx.rangeRevealed s.RevealedBids) s) with
            Status := "ended" }) })) := by
  unfold EndShipping QueryShipping PutState
  by_cases hg : ctx.faults.getState = true
  · simp [hg]
  · simp only [hg]
    cases hget : w.ledger.get shippingID with
    | none => simp
    | some s =>
      cases hc : ctx.clientID with
      | none => simp
      | some clientID =>
        by_cases hs : s.Seller = clientID
        · by_cases hst : s.Status = "closed"
          · by_cases hl : s.RevealedBids = []
            · simp [hs, hst, hl]
            · have hf := selectWinner_frame (rangeOrder ctx.rangeRevealed s.RevealedBids) s
              cases hchk : checkForHigherBid env ctx w
                  (selectWinner (rangeOrder ctx.rangeRevealed s.RevealedBids) s).Price
                  s.RevealedBids s.PrivateBids with
              | some e => simp [hs, hst, hl, hf.2.1, hf.2.2.1, hchk]
              | none =>
                by_cases hp : ctx.faults.putState = true
                · simp [hs, hst, hl, hf.2.1, hf.2.2.1, hchk, hp]
                · right
                  refine ⟨s, rfl, hst, by rw [hs], hl, hchk, ?_⟩
                  simp [hs, hst, hl, hf.2.1, hf.2.2.1, hchk, hp]
          · simp [hs, hst]
        · simp [hs]

/-! ### What each call does -/

/-- What CloseShipping does: an error and no write, or the write of the
shipping with status closed. -/
theorem CloseShipping_cases (ctx : Ctx) (w : World) (shippingID : String) :
    (∃ e, CloseShipping ctx w shippingID = (some e, w)) ∨
    (∃ s, w.ledger.get shippingID = some s ∧ s.Status = "open" ∧
      ctx.clientID = some s.Seller ∧
      CloseShipping ctx w shippingID =
        (none, { w with ledger := w.ledger.put shippingID ({ s with Status := "closed" }) })) := by
  unfold CloseShipping QueryShipping PutState
  by_cases hg : ctx.faults.getState = true
  · simp [hg]
  · simp only [hg]
    cases hget : w.ledger.get shippingID with
    | none => simp
    | some s =>
      cases hc : ctx.clientID with
      | none => simp
      | some clientID =>
        by_cases hs : s.Seller = clientID
        · by_cases hst : s.Status = "open"
          · by_cases hp : ctx.faults.putState = true
            · simp [hs, hst, hp]
            · right
              exact ⟨s, rfl, hst, by rw [hs], by simp [hs, hst, hp]⟩
          · simp [hs, hst]
        · simp [hs]

/-- What RevealBid does: an error and no write, or the write of the shipping
with the revealed bid added, which takes a closed shipping, a payload whose
digest is the stored hash and is registered under the bid key, and a caller
named by the payload. -/
theorem RevealBid_cases (env : Env) (ctx : Ctx) (w : World) (shippingID txID : String) :
    (∃ e, RevealBid env ctx w shippingID txID = (some e, w)) ∨
    (∃ s bidKey p bid, w.ledger.get shippingID = some s ∧ s.Status = "closed" ∧
      CreateCompositeKey bidKeyType [shippingID, txID] = some bidKey ∧
      ctx.payload = some p ∧
      ((s.PrivateBids.get bidKey).getD ⟨"", ""⟩).Hash = hexString (env.sha256 p) ∧
      env.unmarshalBidInput p = some bid ∧ ctx.clientID = some bid.Bidder ∧
      RevealBid env ctx w shippingID txID =
        (none, { w with ledger := w.ledger.put shippingID ({ s with
          RevealedBids := s.RevealedBids.put bidKey
            ⟨bidKeyType, bid.Price, bid.Org, bid.Bidder⟩ }) })) := by
  unfold RevealBid
  cases ht : ctx.transient with
  | none => simp
  | some transientMap =>
  cases hb : transientMap.get "bid" with
  | none => simp [hb]
  | some p =>
  cases hcoll : getCollectionName ctx with
  | none => simp [hb, hcoll]
  | some collection =>
  cases hkey : CreateCompositeKey bidKeyType [shippingID, txID] with
  | none => simp [hb, hcoll, hkey]
  | some bidKey =>
  cases hh : GetPrivateDataHash env ctx w collection bidKey with
  | none => simp [hb, hcoll, hkey, hh]
  | some oh =>
  cases oh with
  | none => simp [hb, hcoll, hkey, hh]
  | some bidHash =>
  cases hq : QueryShipping ctx w shippingID with
  | error e => simp [hb, hcoll, hkey, hh, hq]
  | ok s =>
  have hget : w.ledger.get shippingID = some s := by
    unfold QueryShipping at hq
    split at hq
    · simp at hq
    · split at hq
      · simp at hq
      · next s' hs' => simp at hq; rw [hs', hq]
  by_cases hst : s.Status = "closed"
  · by_cases hd : env.sha256 p = bidHash
    · by_cases hc3 : ((s.PrivateBids.get bidKey).getD ⟨"", ""⟩).Hash = hexString bidHash
      · cases hparse : env.unmarshalBidInput p with
        | none => simp [hb, hcoll, hkey, hh, hq, hst, hd, hc3, hparse]
        | some bid =>
          cases hc : ctx.clientID with
          | none => simp [hb, hcoll, hkey, hh, hq, hst, hd, hc3, hparse, hc]
          | some clientID =>
            by_cases hb4 : bid.Bidder = clientID
            · by_cases hp : ctx.faults.putState = true
              · simp [hb, hcoll, hkey, hh, hq, hst, hd, hc3, hparse, hc, hb4, PutState, hp]
              · right
                refine ⟨s, bidKey, p, bid, hget, hst, rfl, ?_, ?_, hparse, by rw [hb4], ?_⟩
                · simp [Ctx.payload, ht, hb]
                · rw [hd]; exact hc3
                · simp [hb, hcoll, hkey, hh, hq, hst, hd, hc3, hparse, hc, hb4, PutState, hp]
            · simp [hb, hcoll, hkey, hh, hq, hst, hd, hc3, hparse, hc, hb4]
      · simp [hb, hcoll, hkey, hh, hq, hst, hd, hc3]
    · simp [hb, hcoll, hkey, hh, hq, hst, hd]
  · simp [hb, hcoll, hkey, hh, hq, hst]

/-- What SubmitBid does: an error and no write to the ledger or the private
store, or the write of the shipping with the commitment added. -/
theorem SubmitBid_cases (env : Env) (ctx : Ctx) (w : World) (shippingID txID : String) :
    ((SubmitBid env ctx w shippingID txID).1 ≠ none ∧
      (SubmitBid env ctx w shippingID txID).2.ledger = w.ledger ∧
      (SubmitBid env ctx w shippingID txID).2.priv = w.priv) ∨
    (∃ s org bidKey p, w.ledger.get shippingID = some s ∧ s.Status = "open" ∧
      ctx.mspID = some org ∧
      CreateCompositeKey bidKeyType [shippingID, txID] = some bidKey ∧
      w.priv.get ("_implicit_org_" ++ org, bidKey) = some p ∧
      (SubmitBid env ctx w shippingID txID).1 = none ∧
      (SubmitBid env ctx w shippingID txID).2.ledger = w.ledger.put shippingID ({ s with
        PrivateBids := s.PrivateBids.put bidKey ⟨org, hexString (env.sha256 p)⟩
        Orgs := if contains s.Orgs org then s.Orgs else s.Orgs ++ [org] }) ∧
      (SubmitBid env ctx w shippingID txID).2.priv = w.priv) := by
  cases hmsp : ctx.mspID with
  | none => simp [SubmitBid, hmsp]
  | some org =>
  cases hq : QueryShipping ctx w shippingID with
  | error e => simp [SubmitBid, hmsp, hq]
  | ok s =>
  have hget : w.ledger.get shippingID = some s := by
    unfold QueryShipping at hq
    split at hq
    · simp at hq
    · split at hq
      · simp at hq
      · next s' hs' => simp at hq; rw [hs', hq]
  by_cases hst : s.Status = "open"
  · cases hkey : CreateCompositeKey bidKeyType [shippingID, txID] with
    | none => simp [SubmitBid, hmsp, hq, hst, getCollectionName, hkey]
    | some bidKey =>
      by_cases hf : ctx.faults.getPrivateDataHash = true
      · simp [SubmitBid, hmsp, hq, hst, getCollectionName, hkey, GetPrivateDataHash, hf]
      · cases hpriv : w.priv.get ("_implicit_org_" ++ org, bidKey) with
        | none =>
          simp [SubmitBid, hmsp, hq, hst, getCollectionName, hkey, GetPrivateDataHash, hf, hpriv]
        | some p =>
          by_cases hp : ctx.faults.putState = true
          · by_cases hc : contains s.Orgs org = true
            · simp [SubmitBid, hmsp, hq, hst, getCollectionName, hkey, GetPrivateDataHash, hf,
                hpriv, hc, PutState, hp]
            · by_cases he : ctx.faults.endorsement = true
              · simp [SubmitBid, hmsp, hq, hst, getCollectionName, hkey, GetPrivateDataHash, hf,
                  hpriv, hc, PutState, hp, addAssetStateBasedEndorsement, he]
              · simp [SubmitBid, hmsp, hq, hst, getCollectionName, hkey, GetPrivateDataHash, hf,
                  hpriv, hc, PutState, hp, addAssetStateBasedEndorsement, he]
          · by_cases hc : contains s.Orgs org = true
            · right
              refine ⟨s, org, bidKey, p, hget, hst, rfl, rfl, hpriv, ?_⟩
              simp [SubmitBid, hmsp, hq, hst, getCollectionName, hkey, GetPrivateDataHash, hf,
                hpriv, hc, PutState, hp]
            · by_cases he : ctx.faults.endorsement = true
              · simp [SubmitBid, hmsp, hq, hst, getCollectionName, hkey, GetPrivateDataHash, hf,
                  hpriv, hc, PutState, hp, addAssetStateBasedEndorsement, he]
              · right
                refine ⟨s, org, bidKey, p, hget, hst, rfl, rfl, hpriv, ?_⟩
                simp [SubmitBid, hmsp, hq, hst, getCollectionName, hkey, GetPrivateDataHash, hf,
                  hpriv, hc, PutState, hp, addAssetStateBasedEndorsement, he]
  · simp [SubmitBid, hmsp, hq, hst]

/-- What CreateShipping does to the ledger: nothing, or the write of a new
open shipping under the given ID. -/
theorem CreateShipping_ledger (ctx : Ctx) (w : World) (shippingID : String)
    (itemName itemDest : Bytes) (itemWeight itemDays : Int) :
    (CreateShipping ctx w shippingID itemName itemDest itemWeight itemDays).2.ledger = w.ledger ∨
    ∃ clientID clientOrgID,
      (CreateShipping ctx w shippingID itemName itemDest itemWeight itemDays).2.ledger =
        w.ledger.put shippingID
          { ObjType := "shipping",
            ItemSold := ⟨jsonText itemName, jsonText itemDest, itemWeight, itemDays⟩,
            Seller := clientID, Orgs := [clientOrgID], PrivateBids := [], RevealedBids := [],
            Winner := "", Price := 100000000, Status := "open" } := by
  unfold CreateShipping PutState setAssetStateBasedEndorsement
  cases hc : ctx.clientID with
  | none => simp
  | some clientID =>
    cases hm : ctx.mspID with
    | none => simp
    | some org =>
      by_cases hp : ctx.faults.putState = true
      · simp [hp]
      · by_cases he : ctx.faults.endorsement = true
        · right; exact ⟨clientID, org, by simp [hp, he]⟩
        · right; exact ⟨clientID, org, by simp [hp, he]⟩

theorem Bid_ledger (ctx : Ctx) (w : World) (shippingID : String) :
    (Bid ctx w shippingID).2.ledger = w.ledger := by
  unfold Bid
  repeat' (first | rfl | split)
  all_goals (dsimp only; split <;> rfl)

/-! ### Commit and reveal -/

/-- C1: commit/reveal round trip.  On an open shipping, when a client runs Bid
with a payload that parses as a bid naming the client as bidder, then
SubmitBid with the returned transaction ID, the seller runs CloseShipping, and
the client runs RevealBid with the same payload, every call succeeds and the
revealed bid stored under the bid key has the price of the payload. -/
theorem commit_reveal_roundtrip (env : Env) (w : World) (shippingID client org bidKey : String)
    (shipping : Shipping) (p : Bytes) (bid : transientBidInput)
    (cBid cSubmit cClose cReveal : Ctx)
    (hget : w.ledger.get shippingID = some shipping) (hopen : shipping.Status = "open")
    (hparse : env.unmarshalBidInput p = some bid) (hbidder : bid.Bidder = client)
    (hkey : CreateCompositeKey bidKeyType [shippingID, cBid.txID] = some bidKey)
    (hBid : cBid.invokedBy client org) (hpeer : cBid.peerMSPID = some org)
    (hpay : cBid.payload = some p)
    (hSubmit : cSubmit.invokedBy client org)
    (hClose : cClose.clientID = some shipping.Seller) (hCloseF : cClose.faults = noFaults)
    (hReveal : cReveal.invokedBy client org) (hpay' : cReveal.payload = some p) :
    ∃ w1 w2 w3 w4 shipping4,
      Bid cBid w shippingID = (.ok cBid.txID, w1) ∧
      SubmitBid env cSubmit w1 shippingID cBid.txID = (none, w2) ∧
      CloseShipping cClose w2 shippingID = (none, w3) ∧
      RevealBid env cReveal w3 shippingID cBid.txID = (none, w4) ∧
      w4.ledger.get shippingID = some shipping4 ∧
      (shipping4.RevealedBids.get bidKey).map FullBid.Price = some bid.Price := by
  obtain ⟨-, hmsp1, hf1⟩ := hBid
  obtain ⟨-, hmsp2, hf2⟩ := hSubmit
  obtain ⟨hcl4, hmsp4, hf4⟩ := hReveal
  let w1 : World := { w with priv := w.priv.put ("_implicit_org_" ++ org, bidKey) p }
  let s2 : Shipping :=
    { shipping with
      PrivateBids := shipping.PrivateBids.put bidKey ⟨org, hexString (env.sha256 p)⟩
      Orgs := if contains shipping.Orgs org then shipping.Orgs else shipping.Orgs ++ [org] }
  let w2 : World :=
    { ledger := w1.ledger.put shippingID s2
      priv := w1.priv
      policy := if contains shipping.Orgs org then w1.policy
                else w1.policy.put shippingID (((w1.policy.get shippingID).getD []) ++ [org]) }
  let s3 : Shipping := { s2 with Status := "closed" }
  let w3 : World := { w2 with ledger := w2.ledger.put shippingID s3 }
  let s4 : Shipping :=
    { s3 with RevealedBids := s3.RevealedBids.put bidKey ⟨bidKeyType, bid.Price, bid.Org, bid.Bidder⟩ }
  let w4 : World := { w3 with ledger := w3.ledger.put shippingID s4 }
  have h1 : Bid cBid w shippingID = (.ok cBid.txID, w1) :=
    Bid_ok cBid w shippingID org bidKey p hmsp1 hpeer hpay hkey (by simp [hf1, noFaults])
  have h2 : SubmitBid env cSubmit w1 shippingID cBid.txID = (none, w2) :=
    SubmitBid_ok env cSubmit w1 shippingID cBid.txID org bidKey shipping p hmsp2 hf2 hget hopen
      hkey (KV.get_put_self _ _ _)
  have h3 : CloseShipping cClose w2 shippingID = (none, w3) :=
    CloseShipping_ok cClose w2 shippingID s2 (KV.get_put_self _ _ _) hopen hClose
      (by simp [hCloseF, noFaults]) (by simp [hCloseF, noFaults])
  have h4 : RevealBid env cReveal w3 shippingID cBid.txID = (none, w4) :=
    RevealBid_ok env cReveal w3 shippingID cBid.txID org bidKey s3 p bid
      ⟨org, hexString (env.sha256 p)⟩ hmsp4 hf4 hpay' (KV.get_put_self _ _ _) rfl hkey
      (KV.get_put_self _ _ _) (KV.get_put_self _ _ _) rfl hparse (by rw [hcl4, hbidder])
  exact ⟨w1, w2, w3, w4, s4, h1, h2, h3, h4, KV.get_put_self _ _ _, by simp [s4, KV.get_put_self]⟩


/-- C1, at a concrete run: alice commits 500 on "s1", the seller closes, alice
reveals. -/
theorem commit_reveal_roundtrip_witness :
    ∃ w1 w2 w3 w4 shipping4,
      Bid (demoAlice "tx1" (some alice500)) demoOpen "s1" = (.ok "tx1", w1) ∧
      SubmitBid demoEnv (demoAlice "tx2" none) w1 "s1" "tx1" = (none, w2) ∧
      CloseShipping demoSeller w2 "s1" = (none, w3) ∧
      RevealBid demoEnv (demoAlice "tx3" (some alice500)) w3 "s1" "tx1" = (none, w4) ∧
      w4.ledger.get "s1" = some shipping4 ∧
      (shipping4.RevealedBids.get demoKey).map FullBid.Price = some 500 :=
  commit_reveal_roundtrip demoEnv demoOpen "s1" "alice" "Org1MSP" demoKey demoShipping alice500
    ⟨500, "Org1MSP", "alice"⟩ (demoAlice "tx1" (some alice500)) (demoAlice "tx2" none)
    demoSeller (demoAlice "tx3" (some alice500)) (by decide) (by decide) (by decide) (by decide)
    (by decide) (by decide) (by decide) (by decide) (by decide) (by decide) (by decide)
    (by decide) (by decide)

/-- C2 as stated fails on an open shipping: alice committed 500 under the bid
key, the payload supplied to RevealBid differs from it and so does its digest,
yet the error is the status error, not the hash mismatch. -/
theorem reveal_altered_payload_open_shipping :
    demoCommitted.priv.get ("_implicit_org_Org1MSP", demoKey) = some alice500 ∧
    alice300 ≠ alice500 ∧ demoEnv.sha256 alice300 ≠ demoEnv.sha256 alice500 ∧
    statusAt demoCommitted "s1" = some "open" ∧
    RevealBid demoEnv (demoAlice "tx9" (some alice300)) demoCommitted "s1" "tx1" =
      (some Err.notClosed, demoCommitted) := by
  decide

/-- C2, amended: RevealBid with a payload whose SHA-256 digest differs from the
digest of the payload committed under the bid key fails with the hash mismatch
when the shipping is closed and with the status error otherwise; nothing is
written. -/
theorem reveal_altered_payload_fails (env : Env) (ctx : Ctx) (w : World)
    (shippingID txID collection bidKey : String) (shipping : Shipping)
    (committed supplied : Bytes)
    (hpay : ctx.payload = some supplied)
    (hcoll : getCollectionName ctx = some collection)
    (hkey : CreateCompositeKey bidKeyType [shippingID, txID] = some bidKey)
    (hread : ctx.faults.getPrivateDataHash = false) (hstate : ctx.faults.getState = false)
    (hpriv : w.priv.get (collection, bidKey) = some committed)
    (hget : w.ledger.get shippingID = some shipping)
    (hdigest : env.sha256 supplied ≠ env.sha256 committed) :
    RevealBid env ctx w shippingID txID =
      (some (if shipping.Status = "closed" then Err.hashMismatch else Err.notClosed), w) := by
  obtain ⟨transientMap, ht, hb⟩ := payload_eq hpay
  by_cases hs : shipping.Status = "closed"
  · simp [RevealBid, ht, hb, hcoll, hkey, GetPrivateDataHash, hread, hpriv, QueryShipping,
      hstate, hget, hs, hdigest]
  · simp [RevealBid, ht, hb, hcoll, hkey, GetPrivateDataHash, hread, hpriv, QueryShipping,
      hstate, hget, hs]

/-- C2, amended, at a concrete run: on the closed "s1" alice supplies 300
where 500 is committed. -/
theorem reveal_altered_payload_fails_witness :
    RevealBid demoEnv (demoAlice "tx9" (some alice300)) demoClosed "s1" "tx1" =
      (some Err.hashMismatch, demoClosed) :=
  reveal_altered_payload_fails demoEnv (demoAlice "tx9" (some alice300)) demoClosed "s1" "tx1"
    "_implicit_org_Org1MSP" demoKey { demoShipping with
      PrivateBids := [(demoKey, ⟨"Org1MSP", hexString (demoHash alice500)⟩)], Status := "closed" }
    alice500 alice300 (by decide) (by decide) (by decide) (by decide) (by decide) (by decide)
    (by decide) (by decide)

/-- C3 as stated fails: alice ran Bid and SubmitBid with a payload that names
bob as the bidder; after the close bob, who is not the submitter, reveals it
with success, and alice, the submitter, is refused. -/
theorem reveal_by_non_submitter_succeeds :
    (Bid (demoAlice "tx1" (some bob500)) demoOpen "s1").1 = .ok "tx1" ∧
    demoProxy =
      run demoEnv (Bid (demoAlice "tx1" (some bob500)) demoOpen "s1").2
        [(demoAlice "tx2" none, .SubmitBid "s1" "tx1"), (demoSeller, .CloseShipping "s1")] ∧
    statusAt demoProxy "s1" = some "closed" ∧
    (RevealBid demoEnv (demoBob "tx3" (some bob500)) demoProxy "s1" "tx1").1 = none ∧
    (RevealBid demoEnv (demoAlice "tx3" (some bob500)) demoProxy "s1" "tx1").1 =
      some Err.permissionDenied := by
  decide

/-- C3, amended: on a closed shipping, RevealBid of exactly the committed
payload by a client whose identity differs from the bidder field of that
payload fails with the permission-denied error and writes nothing. -/
theorem reveal_by_other_identity_denied (env : Env) (ctx : Ctx) (w : World)
    (shippingID txID org bidKey client : String) (shipping : Shipping) (p : Bytes)
    (bid : transientBidInput) (commitment : BidHash)
    (hmsp : ctx.mspID = some org) (hf : ctx.faults = noFaults)
    (hpay : ctx.payload = some p)
    (hget : w.ledger.get shippingID = some shipping) (hclosed : shipping.Status = "closed")
    (hkey : CreateCompositeKey bidKeyType [shippingID, txID] = some bidKey)
    (hpriv : w.priv.get ("_implicit_org_" ++ org, bidKey) = some p)
    (hcommit : shipping.PrivateBids.get bidKey = some commitment)
    (hhash : commitment.Hash = hexString (env.sha256 p))
    (hparse : env.unmarshalBidInput p = some bid)
    (hclient : ctx.clientID = some client) (hother : client ≠ bid.Bidder) :
    RevealBid env ctx w shippingID txID = (some Err.permissionDenied, w) := by
  obtain ⟨transientMap, ht, hb⟩ := payload_eq hpay
  have hne : ¬ bid.Bidder = client := fun h => hother h.symm
  simp [RevealBid, ht, hb, getCollectionName, hmsp, hkey, GetPrivateDataHash, hf, noFaults,
    hpriv, QueryShipping, hget, hclosed, hcommit, hhash, hparse, hclient, hne]

/-- C3, amended, at a concrete run: bob tries to reveal the 500 alice committed
in her own name. -/
theorem reveal_by_other_identity_denied_witness :
    RevealBid demoEnv (demoBob "tx3" (some alice500)) demoClosed "s1" "tx1" =
      (some Err.permissionDenied, demoClosed) :=
  reveal_by_other_identity_denied demoEnv (demoBob "tx3" (some alice500)) demoClosed "s1" "tx1"
    "Org1MSP" demoKey "bob" { demoShipping with
      PrivateBids := [(demoKey, ⟨"Org1MSP", hexString (demoHash alice500)⟩)], Status := "closed" }
    alice500 ⟨500, "Org1MSP", "alice"⟩ ⟨"Org1MSP", hexString (demoHash alice500)⟩
    (by decide) (by decide) (by decide) (by decide) (by decide) (by decide) (by decide)
    (by decide) (by decide) (by decide) (by decide) (by decide)

/-! ### Ending a shipping -/

/-- C4 as stated fails when no revealed price is below the stored price: the
only revealed bid on "s1" is alice's 200000000, EndShipping succeeds, and the
persisted price is the initial 100000000 with an empty winner. -/
theorem endShipping_bid_above_initial_price :
    (demoDear.ledger.get "s1").map (fun s => s.RevealedBids.map fun e => (e.2.Price, e.2.Bidder))
      = some [(200000000, "alice")] ∧
    (EndShipping demoEnv demoSeller demoDear "s1").1 = none ∧
    ((EndShipping demoEnv demoSeller demoDear "s1").2.ledger.get "s1").map
      (fun s => (s.Price, s.Winner, s.Status)) = some (100000000, "", "ended") := by
  decide

/-- C4, amended: when EndShipping succeeds, the persisted price is the minimum
of the price stored before the call and the prices of all revealed bids; when
some revealed price is below the stored price, the persisted winner is the
bidder of a revealed bid with that minimum price; when none is, the stored
price and winner are persisted as they were. -/
theorem endShipping_price_and_winner (env : Env) (ctx : Ctx) (w w' : World)
    (shippingID : String) (s : Shipping)
    (hget : w.ledger.get shippingID = some s)
    (hend : EndShipping env ctx w shippingID = (none, w')) :
    ∃ s', w'.ledger.get shippingID = some s' ∧ s'.Status = "ended" ∧
      s'.Price ≤ s.Price ∧ (∀ e ∈ s.RevealedBids, s'.Price ≤ e.2.Price) ∧
      ((∃ e ∈ s.RevealedBids, e.2.Price < s.Price) →
        ∃ e ∈ s.RevealedBids, e.2.Price = s'.Price ∧ e.2.Bidder = s'.Winner) ∧
      ((∀ e ∈ s.RevealedBids, s.Price ≤ e.2.Price) →
        s'.Price = s.Price ∧ s'.Winner = s.Winner) := by
  rcases EndShipping_cases env ctx w shippingID with ⟨e, he⟩ | ⟨s0, hget0, -, -, -, -, hok⟩
  · rw [he] at hend
    simp at hend
  · have hs : s0 = s := by
      rw [hget] at hget0
      exact (Option.some.inj hget0).symm
    subst hs
    rw [hok] at hend
    have hw : w' = { w with ledger := w.ledger.put shippingID ({
        (selectWinner (rangeOrder ctx.rangeRevealed s0.RevealedBids) s0) with
          Status := "ended" }) } := (Prod.mk.inj hend).2.symm
    subst hw
    have hle := selectWinner_price_le (rangeOrder ctx.rangeRevealed s0.RevealedBids) s0
    have hbid := selectWinner_price_le_bid (rangeOrder ctx.rangeRevealed s0.RevealedBids) s0
    have hatt := selectWinner_attained (rangeOrder ctx.rangeRevealed s0.RevealedBids) s0
    refine ⟨_, KV.get_put_self _ _ _, rfl, hle, ?_, ?_, ?_⟩
    · intro e he
      exact hbid e ((mem_rangeOrder _ _ _).2 he)
    · rintro ⟨e, he, hlt⟩
      have h1 := hbid e ((mem_rangeOrder _ _ _).2 he)
      rcases hatt with ⟨hp, -⟩ | ⟨-, b, hb, hbp, hbw⟩
      · omega
      · exact ⟨b, (mem_rangeOrder _ _ _).1 hb, hbp, hbw⟩
    · intro hall
      rcases hatt with h | ⟨hp, b, hb, hbp, -⟩
      · exact h
      · have := hall b ((mem_rangeOrder _ _ _).1 hb)
        omega

/-- C4, amended, at a concrete run: alice revealed 500 on "s1" and the seller
ends it. -/
theorem endShipping_price_and_winner_witness :
    ∃ s', (EndShipping demoEnv demoSeller demoRevealed "s1").2.ledger.get "s1" = some s' ∧
      s'.Status = "ended" ∧ s'.Price ≤ 100000000 ∧
      (∀ e ∈ [(demoKey, (⟨"bid", 500, "Org1MSP", "alice"⟩ : FullBid))], s'.Price ≤ e.2.Price) ∧
      ((∃ e ∈ [(demoKey, (⟨"bid", 500, "Org1MSP", "alice"⟩ : FullBid))],
          e.2.Price < 100000000) →
        ∃ e ∈ [(demoKey, (⟨"bid", 500, "Org1MSP", "alice"⟩ : FullBid))],
          e.2.Price = s'.Price ∧ e.2.Bidder = s'.Winner) ∧
      ((∀ e ∈ [(demoKey, (⟨"bid", 500, "Org1MSP", "alice"⟩ : FullBid))],
          (100000000 : Int) ≤ e.2.Price) →
        s'.Price = 100000000 ∧ s'.Winner = "") :=
  endShipping_price_and_winner demoEnv demoSeller demoRevealed
    (EndShipping demoEnv demoSeller demoRevealed "s1").2 "s1"
    { demoShipping with
      PrivateBids := [(demoKey, ⟨"Org1MSP", hexString (demoHash alice500)⟩)]
      RevealedBids := [(demoKey, ⟨"bid", 500, "Org1MSP", "alice"⟩)]
      Status := "closed" }
    (by decide) (by decide)

/-- C5: what the code does with a withheld cheaper bid.  On the closed "s1"
alice's 500 is revealed and bob's commitment, of the peer's own org and with
plaintext price 300 in the local collection, is not; EndShipping by the
seller succeeds and persists status ended with alice winning at 500. -/
theorem endShipping_ignores_withheld_cheaper_bid :
    statusAt demoWithheld "s1" = some "closed" ∧
    (demoWithheld.ledger.get "s1").map (fun s => s.RevealedBids.map fun e => (e.1, e.2.Price))
      = some [(demoKey, 500)] ∧
    (demoWithheld.ledger.get "s1").map (fun s => s.PrivateBids.map fun e => (e.1, e.2.Org))
      = some [("\x00bid\x00s1\x00tx4\x00", "Org1MSP"), (demoKey, "Org1MSP")] ∧
    demoSeller.peerMSPID = some "Org1MSP" ∧
    ((demoWithheld.priv.get ("_implicit_org_Org1MSP", "\x00bid\x00s1\x00tx4\x00")).bind
      demoEnv.unmarshalFullBid).join.map FullBid.Price = some 300 ∧
    (EndShipping demoEnv demoSeller demoWithheld "s1").1 = none ∧
    ((EndShipping demoEnv demoSeller demoWithheld "s1").2.ledger.get "s1").map
      (fun s => (s.Price, s.Winner, s.Status)) = some (500, "alice", "ended") := by
  decide

/-! ### Status -/

theorem statusAt_congr {w w' : World} (h : w'.ledger = w.ledger) (key : String) :
    statusAt w' key = statusAt w key := by
  simp [statusAt, h]

theorem statusAt_put {w w' : World} {shippingID : String} {s' : Shipping}
    (h : w'.ledger = w.ledger.put shippingID s') (key : String) :
    statusAt w' key = if shippingID = key then some s'.Status else statusAt w key := by
  by_cases hk : shippingID = key
  · subst hk
    simp [statusAt, h, KV.get_put_self]
  · simp [statusAt, h, KV.get_put_of_ne _ _ _ _ hk, hk]

theorem statusStep_refl (a : Option String) : statusStep a a := Or.inl rfl

/-- A write of a shipping whose status stays or moves one step keeps the
status of every key moving forward. -/
theorem statusStep_put {w w' : World} {shippingID : String} {s s' : Shipping}
    (hget : w.ledger.get shippingID = some s)
    (h : w'.ledger = w.ledger.put shippingID s')
    (hs : statusStep (some s.Status) (some s'.Status)) (key : String) :
    statusStep (statusAt w key) (statusAt w' key) := by
  rw [statusAt_put h key]
  by_cases hk : shippingID = key
  · subst hk
    simpa [statusAt, hget] using hs
  · simp [hk, statusStep_refl]

/-- C6 as stated fails for CreateShipping: called with the ID of the closed
"s1" it succeeds and the stored status is open again. -/
theorem createShipping_reopens_closed_shipping :
    statusAt demoClosed "s1" = some "closed" ∧
    (CreateShipping demoSeller demoClosed "s1" (goBytes "box") (goBytes "oslo") 3 4).1 = none ∧
    statusAt (CreateShipping demoSeller demoClosed "s1" (goBytes "box") (goBytes "oslo") 3 4).2
      "s1" = some "open" ∧
    ¬ statusStep (some "closed") (some "open") := by
  decide

/-- C6, amended: for every key, after SubmitBid, RevealBid, CloseShipping or
EndShipping on any world the status stored under the key is the status before
or its successor in open, closed, ended (Bid writes no status).  CreateShipping
leaves the status as it was or stores open, whatever was stored before. -/
theorem status_moves_forward (env : Env) (ctx : Ctx) (w : World)
    (shippingID txID key : String) :
    statusStep (statusAt w key) (statusAt (SubmitBid env ctx w shippingID txID).2 key) ∧
    statusStep (statusAt w key) (statusAt (RevealBid env ctx w shippingID txID).2 key) ∧
    statusStep (statusAt w key) (statusAt (CloseShipping ctx w shippingID).2 key) ∧
    statusStep (statusAt w key) (statusAt (EndShipping env ctx w shippingID).2 key) ∧
    statusAt (Bid ctx w shippingID).2 key = statusAt w key ∧
    ∀ itemName itemDest itemWeight itemDays,
      statusAt (CreateShipping ctx w shippingID itemName itemDest itemWeight itemDays).2 key
          = statusAt w key ∨
      statusAt (CreateShipping ctx w shippingID itemName itemDest itemWeight itemDays).2 key
          = some "open" := by
  refine ⟨?_, ?_, ?_, ?_, statusAt_congr (Bid_ledger ctx w shippingID) key, ?_⟩
  · rcases SubmitBid_cases env ctx w shippingID txID with ⟨-, hl, -⟩ | ⟨s, org, bidKey, p, hget, -, -, -, -, -, hl, -⟩
    · rw [statusAt_congr hl]; exact statusStep_refl _
    · exact statusStep_put hget hl (Or.inl rfl) key
  · rcases RevealBid_cases env ctx w shippingID txID with ⟨e, he⟩ | ⟨s, bidKey, p, bid, hget, -, -, -, -, -, -, hok⟩
    · rw [he]; exact statusStep_refl _
    · have hl := congrArg (fun r => r.2.ledger) hok
      exact statusStep_put hget hl (Or.inl rfl) key
  · rcases CloseShipping_cases ctx w shippingID with ⟨e, he⟩ | ⟨s, hget, hst, -, hok⟩
    · rw [he]; exact statusStep_refl _
    · have hl := congrArg (fun r => r.2.ledger) hok
      refine statusStep_put hget hl (Or.inr (Or.inl ?_)) key
      simp [hst]
  · rcases EndShipping_cases env ctx w shippingID with ⟨e, he⟩ | ⟨s, hget, hst, -, -, -, hok⟩
    · rw [he]; exact statusStep_refl _
    · have hl := congrArg (fun r => r.2.ledger) hok
      refine statusStep_put hget hl (Or.inr (Or.inr ?_)) key
      simp [hst]
  · intro itemName itemDest itemWeight itemDays
    rcases CreateShipping_ledger ctx w shippingID itemName itemDest itemWeight itemDays with
      hl | ⟨clientID, org, hl⟩
    · exact Or.inl (statusAt_congr hl key)
    · rw [statusAt_put hl key]
      by_cases hk : shippingID = key
      · right; simp [hk]
      · left; simp [hk]

/-! ### Revealed bids are committed bids -/

theorem KV.has_put {κ ν : Type} [DecidableEq κ] (m : KV κ ν) (k k' : κ) (v : ν) :
    (m.put k v).has k' = (decide (k = k') || m.has k') := by
  by_cases h : k = k'
  · subst h
    simp [KV.has, KV.get_put_self]
  · simp [KV.has, KV.get_put_of_ne _ _ _ _ h, h]

theorem hexString_ne_empty (b : Bytes) (h : b.length = 32) : hexString b ≠ "" := by
  cases b with
  | nil => simp at h
  | cons x xs =>
    intro hx
    have := congrArg String.length hx
    simp [hexString, hexChars] at this

theorem ledgerCommitted_put {l : KV String Shipping} (h : ledgerCommitted l)
    (shippingID : String) (s' : Shipping) (hs : s'.revealedCommitted) :
    ledgerCommitted (l.put shippingID s') := by
  intro key s hget
  by_cases hk : shippingID = key
  · subst hk
    rw [KV.get_put_self] at hget
    cases hget
    exact hs
  · rw [KV.get_put_of_ne _ _ _ _ hk] at hget
    exact h key s hget

theorem exec_ledgerCommitted (env : Env) (ctx : Ctx) (w : World) (c : Call)
    (h : ledgerCommitted w.ledger) : ledgerCommitted (exec env ctx w c).ledger := by
  cases c with
  | CreateShipping shippingID itemName itemDest itemWeight itemDays =>
    rcases CreateShipping_ledger ctx w shippingID itemName itemDest itemWeight itemDays with
      hl | ⟨clientID, org, hl⟩
    · simp only [exec, hl]; exact h
    · simp only [exec, hl]
      refine ledgerCommitted_put h _ _ ?_
      intro k hk
      simp [KV.has, KV.get] at hk
  | Bid shippingID =>
    simp only [exec, Bid_ledger]; exact h
  | SubmitBid shippingID txID =>
    rcases SubmitBid_cases env ctx w shippingID txID with
      ⟨-, hl, -⟩ | ⟨s, org, bidKey, p, hget, -, -, -, -, -, hl, -⟩
    · simp only [exec, hl]; exact h
    · simp only [exec, hl]
      refine ledgerCommitted_put h _ _ ?_
      intro k hk
      have := h shippingID s hget k hk
      simp [KV.has_put, this]
  | RevealBid shippingID txID =>
    rcases RevealBid_cases env ctx w shippingID txID with
      ⟨e, he⟩ | ⟨s, bidKey, p, bid, hget, -, -, -, hhash, -, -, hok⟩
    · simp only [exec, he]; exact h
    · simp only [exec, hok]
      refine ledgerCommitted_put h _ _ ?_
      intro k hk
      simp only [KV.has_put, Bool.or_eq_true, decide_eq_true_eq] at hk
      rcases hk with hk | hk
      · subst hk
        cases hpb : s.PrivateBids.get bidKey with
        | none =>
          rw [hpb] at hhash
          exact absurd hhash.symm (hexString_ne_empty _ (env.sha256_size p))
        | some v => simp [KV.has, hpb]
      · exact h shippingID s hget k hk
  | CloseShipping shippingID =>
    rcases CloseShipping_cases ctx w shippingID with ⟨e, he⟩ | ⟨s, hget, -, -, hok⟩
    · simp only [exec, he]; exact h
    · simp only [exec, hok]
      exact ledgerCommitted_put h _ _ (h shippingID s hget)
  | EndShipping shippingID =>
    rcases EndShipping_cases env ctx w shippingID with ⟨e, he⟩ | ⟨s, hget, -, -, -, -, hok⟩
    · simp only [exec, he]; exact h
    · simp only [exec, hok]
      refine ledgerCommitted_put h _ _ ?_
      have hf := selectWinner_frame (rangeOrder ctx.rangeRevealed s.RevealedBids) s
      intro k hk
      simp only [hf.2.1, hf.2.2.1] at hk ⊢
      exact h shippingID s hget k hk

theorem reachable_ledgerCommitted (env : Env) (w : World) (h : Reachable env w) :
    ledgerCommitted w.ledger := by
  induction h with
  | genesis =>
    intro key s hget
    simp [World.empty, KV.get] at hget
  | call ctx c _ ih => exact exec_ledgerCommitted env ctx _ c ih

/-- C7: in every reachable state the keys of RevealedBids of every stored
shipping are keys of its PrivateBids, and RevealBid for a bid key that has no
entry in PrivateBids fails and writes nothing. -/
theorem revealed_keys_are_committed (env : Env) :
    (∀ w, Reachable env w → ∀ shippingID s, w.ledger.get shippingID = some s →
      ∀ k, s.RevealedBids.has k = true → s.PrivateBids.has k = true) ∧
    (∀ ctx w shippingID txID s bidKey, w.ledger.get shippingID = some s →
      CreateCompositeKey bidKeyType [shippingID, txID] = some bidKey →
      s.PrivateBids.get bidKey = none →
      ∃ e, RevealBid env ctx w shippingID txID = (some e, w)) := by
  refine ⟨fun w hw => reachable_ledgerCommitted env w hw, ?_⟩
  intro ctx w shippingID txID s bidKey hget hkey hnone
  rcases RevealBid_cases env ctx w shippingID txID with
    he | ⟨s0, bidKey0, p, bid, hget0, -, hkey0, -, hhash, -, -, -⟩
  · exact he
  · rw [hget] at hget0
    cases hget0
    rw [hkey] at hkey0
    cases hkey0
    rw [hnone] at hhash
    exact absurd hhash.symm (hexString_ne_empty _ (env.sha256_size p))

theorem run_reachable (env : Env) (calls : List (Ctx × Call)) (w : World)
    (h : Reachable env w) : Reachable env (run env w calls) := by
  induction calls generalizing w with
  | nil => exact h
  | cons cc rest ih => exact ih _ (Reachable.call cc.1 cc.2 h)

/-- C7 at a concrete run: the state after alice's reveal, and a reveal under
the key of a transaction "tx7" that committed nothing. -/
theorem revealed_keys_are_committed_witness :
    (∀ shippingID s, demoRevealed.ledger.get shippingID = some s →
      ∀ k, s.RevealedBids.has k = true → s.PrivateBids.has k = true) ∧
    ∃ e, RevealBid demoEnv (demoAlice "tx8" (some alice500)) demoClosed "s1" "tx7" =
      (some e, demoClosed) :=
  ⟨(revealed_keys_are_committed demoEnv).1 demoRevealed
      (run_reachable demoEnv _ _ (run_reachable demoEnv _ _
        (run_reachable demoEnv _ _ Reachable.genesis))),
    (revealed_keys_are_committed demoEnv).2 (demoAlice "tx8" (some alice500)) demoClosed "s1"
      "tx7" _ "\x00bid\x00s1\x00tx7\x00" (show demoClosed.ledger.get "s1" = some
        { demoShipping with
          PrivateBids := [(demoKey, ⟨"Org1MSP", hexString (demoHash alice500)⟩)]
          Status := "closed" } by decide) (by decide) (by decide)⟩

/-! ### Guards and failures -/

/-- C8: status guards.  For a stored shipping, CloseShipping fails when the
status is not open, SubmitBid fails when the status is closed or ended, and
RevealBid fails when the status is open, each time leaving the world as it
was; so after a successful CloseShipping a second one fails. -/
theorem status_guards (env : Env) (ctx : Ctx) (w : World) (shippingID txID : String)
    (s : Shipping) (hget : w.ledger.get shippingID = some s) :
    (s.Status ≠ "open" → ∃ e, CloseShipping ctx w shippingID = (some e, w)) ∧
    (s.Status = "closed" ∨ s.Status = "ended" →
      ∃ e, SubmitBid env ctx w shippingID txID = (some e, w)) ∧
    (s.Status = "open" → ∃ e, RevealBid env ctx w shippingID txID = (some e, w)) ∧
    (∀ w', CloseShipping ctx w shippingID = (none, w') →
      ∀ ctx', ∃ e, CloseShipping ctx' w' shippingID = (some e, w')) := by
  refine ⟨?_, ?_, ?_, ?_⟩
  · intro hst
    rcases CloseShipping_cases ctx w shippingID with he | ⟨s0, hget0, hst0, -, -⟩
    · exact he
    · rw [hget] at hget0
      cases hget0
      exact absurd hst0 hst
  · intro hst
    have hne : s.Status ≠ "open" := by
      rcases hst with h | h <;> rw [h] <;> decide
    cases hmsp : ctx.mspID with
    | none => exact ⟨Err.clientMSPID, by simp [SubmitBid, hmsp]⟩
    | some org =>
      by_cases hg : ctx.faults.getState = true
      · exact ⟨Err.query QueryErr.getState, by simp [SubmitBid, hmsp, QueryShipping, hg]⟩
      · exact ⟨Err.notOpen, by simp [SubmitBid, hmsp, QueryShipping, hg, hget, hne]⟩
  · intro hst
    rcases RevealBid_cases env ctx w shippingID txID with
      he | ⟨s0, bidKey, p, bid, hget0, hst0, -, -, -, -, -, -⟩
    · exact he
    · rw [hget] at hget0
      cases hget0
      rw [hst] at hst0
      exact absurd hst0 (by decide)
  · intro w' hok ctx'
    rcases CloseShipping_cases ctx w shippingID with ⟨e, he⟩ | ⟨s0, hget0, -, -, hok0⟩
    · rw [he] at hok
      simp at hok
    · rw [hok0] at hok
      have hw' := (Prod.mk.inj hok).2
      subst hw'
      rcases CloseShipping_cases ctx' _ shippingID with he | ⟨s1, hget1, hst1, -, -⟩
      · exact he
      · simp only [KV.get_put_self] at hget1
        cases hget1
        simp at hst1

/-- C8 at a concrete run: on the closed "s1" a second close, a submit and, on
the open one, a reveal. -/
theorem status_guards_witness :
    ((∃ e, CloseShipping demoSeller demoClosed "s1" = (some e, demoClosed)) ∧
      ∃ e, SubmitBid demoEnv (demoAlice "tx2" none) demoClosed "s1" "tx1" =
        (some e, demoClosed)) ∧
    ∃ e, RevealBid demoEnv (demoAlice "tx3" (some alice500)) demoCommitted "s1" "tx1" =
      (some e, demoCommitted) :=
  ⟨⟨(status_guards demoEnv demoSeller demoClosed "s1" "tx1"
        { demoShipping with
          PrivateBids := [(demoKey, ⟨"Org1MSP", hexString (demoHash alice500)⟩)]
          Status := "closed" } (by decide)).1 (by decide),
      (status_guards demoEnv (demoAlice "tx2" none) demoClosed "s1" "tx1"
        { demoShipping with
          PrivateBids := [(demoKey, ⟨"Org1MSP", hexString (demoHash alice500)⟩)]
          Status := "closed" } (by decide)).2.1 (Or.inl rfl)⟩,
    (status_guards demoEnv (demoAlice "tx3" (some alice500)) demoCommitted "s1" "tx1"
      { demoShipping with
        PrivateBids := [(demoKey, ⟨"Org1MSP", hexString (demoHash alice500)⟩)] }
      (by decide)).2.2.1 rfl⟩

/-- C9: on a closed shipping with no revealed bid, EndShipping called by the
seller fails with the no-bids error and writes nothing, whatever the private
bids are. -/
theorem endShipping_without_revealed_bids (env : Env) (ctx : Ctx) (w : World)
    (shippingID : String) (s : Shipping)
    (hget : w.ledger.get shippingID = some s) (hread : ctx.faults.getState = false)
    (hseller : ctx.clientID = some s.Seller) (hclosed : s.Status = "closed")
    (hempty : s.RevealedBids = []) :
    EndShipping env ctx w shippingID = (some Err.noBids, w) := by
  simp [EndShipping, QueryShipping, hread, hget, hseller, hclosed, hempty]

/-- C9 at a concrete run: "s1" is closed with alice's commitment and nothing
revealed. -/
theorem endShipping_without_revealed_bids_witness :
    EndShipping demoEnv demoSeller demoClosed "s1" = (some Err.noBids, demoClosed) :=
  endShipping_without_revealed_bids demoEnv demoSeller demoClosed "s1"
    { demoShipping with
      PrivateBids := [(demoKey, ⟨"Org1MSP", hexString (demoHash alice500)⟩)]
      Status := "closed" }
    (by decide) (by decide) (by decide) (by decide) (by decide)

/-- C10: atomicity on failure.  When SubmitBid, RevealBid, CloseShipping or
EndShipping returns an error, the public state is the one before the call; in
particular, when the check for an outstanding bid fails, EndShipping returns
that error and the selected winner and price are not written. -/
theorem failure_writes_nothing (env : Env) (ctx : Ctx) (w : World)
    (shippingID txID : String) :
    ((SubmitBid env ctx w shippingID txID).1 ≠ none →
      (SubmitBid env ctx w shippingID txID).2.ledger = w.ledger) ∧
    ((RevealBid env ctx w shippingID txID).1 ≠ none →
      (RevealBid env ctx w shippingID txID).2.ledger = w.ledger) ∧
    ((CloseShipping ctx w shippingID).1 ≠ none →
      (CloseShipping ctx w shippingID).2.ledger = w.ledger) ∧
    ((EndShipping env ctx w shippingID).1 ≠ none →
      (EndShipping env ctx w shippingID).2.ledger = w.ledger) ∧
    (∀ s e, w.ledger.get shippingID = some s → ctx.faults.getState = false →
      ctx.clientID = some s.Seller → s.Status = "closed" → s.RevealedBids ≠ [] →
      checkForHigherBid env ctx w
        (selectWinner (rangeOrder ctx.rangeRevealed s.RevealedBids) s).Price
        s.RevealedBids s.PrivateBids = some e →
      EndShipping env ctx w shippingID = (some (Err.cannotEnd e), w)) := by
  refine ⟨?_, ?_, ?_, ?_, ?_⟩
  · intro herr
    rcases SubmitBid_cases env ctx w shippingID txID with
      ⟨-, hl, -⟩ | ⟨s, org, bidKey, p, -, -, -, -, -, hok, -, -⟩
    · exact hl
    · exact absurd hok herr
  · intro herr
    rcases RevealBid_cases env ctx w shippingID txID with
      ⟨e, he⟩ | ⟨s, bidKey, p, bid, -, -, -, -, -, -, -, hok⟩
    · rw [he]
    · rw [hok] at herr
      exact absurd rfl herr
  · intro herr
    rcases CloseShipping_cases ctx w shippingID with ⟨e, he⟩ | ⟨s, -, -, -, hok⟩
    · rw [he]
    · rw [hok] at herr
      exact absurd rfl herr
  · intro herr
    rcases EndShipping_cases env ctx w shippingID with ⟨e, he⟩ | ⟨s, -, -, -, -, -, hok⟩
    · rw [he]
    · rw [hok] at herr
      exact absurd rfl herr
  · intro s e hget hread hseller hclosed hne hchk
    have hf := selectWinner_frame (rangeOrder ctx.rangeRevealed s.RevealedBids) s
    simp [EndShipping, QueryShipping, hread, hget, hseller, hclosed, hne, hf.2.1, hf.2.2.1, hchk]

/-- C10 at a concrete run: alice's 300 is revealed and bob's 500, of the
peer's own org, is not; EndShipping by the seller returns an error, the public
state is unchanged, and the error is the one of the failed check. -/
theorem failure_writes_nothing_witness :
    (EndShipping demoEnv demoSeller demoOutbid "s1").2.ledger = demoOutbid.ledger ∧
    EndShipping demoEnv demoSeller demoOutbid "s1" =
      (some (Err.cannotEnd CheckErr.higherPrice), demoOutbid) :=
  ⟨(failure_writes_nothing demoEnv demoSeller demoOutbid "s1" "tx1").2.2.2.1 (by decide),
    (failure_writes_nothing demoEnv demoSeller demoOutbid "s1" "tx1").2.2.2.2
      { demoShipping with
        PrivateBids := [("\x00bid\x00s1\x00tx4\x00", ⟨"Org1MSP", hexString (demoHash bob500)⟩),
          (demoKey, ⟨"Org1MSP", hexString (demoHash alice300)⟩)]
        RevealedBids := [(demoKey, ⟨"bid", 300, "Org1MSP", "alice"⟩)]
        Status := "closed" }
      CheckErr.higherPrice (by decide) (by decide) (by decide) (by decide) (by decide)
      (by decide)⟩

/-! ### Induction over the reachable states -/

/-- A property of stored shippings that holds of every new record and is kept
by each of the four writes holds of every shipping in a reachable state. -/
theorem reachable_shipping_induction (env : Env) (P : Shipping → Prop)
    (hcreate : ∀ itemName itemDest itemWeight itemDays clientID clientOrgID,
      P { ObjType := "shipping", ItemSold := ⟨itemName, itemDest, itemWeight, itemDays⟩,
          Seller := clientID, Orgs := [clientOrgID], PrivateBids := [], RevealedBids := [],
          Winner := "", Price := 100000000, Status := "open" })
    (hsubmit : ∀ s org bidKey hash, P s → s.Status = "open" →
      P { s with
          PrivateBids := s.PrivateBids.put bidKey ⟨org, hash⟩
          Orgs := if contains s.Orgs org then s.Orgs else s.Orgs ++ [org] })
    (hreveal : ∀ s bidKey bid, P s → s.Status = "closed" →
      P { s with RevealedBids := s.RevealedBids.put bidKey bid })
    (hclose : ∀ s, P s → s.Status = "open" → P { s with Status := "closed" })
    (hend : ∀ s bids, P s → s.Status = "closed" →
      P { (selectWinner bids s) with Status := "ended" })
    (w : World) (h : Reachable env w) :
    ∀ shippingID s, w.ledger.get shippingID = some s → P s := by
  have hput : ∀ (l : KV String Shipping) (key : String) (s' : Shipping),
      (∀ k s, l.get k = some s → P s) → P s' →
      ∀ k s, (l.put key s').get k = some s → P s := by
    intro l key s' hl hs' k s hget
    by_cases hk : key = k
    · subst hk
      rw [KV.get_put_self] at hget
      cases hget
      exact hs'
    · rw [KV.get_put_of_ne _ _ _ _ hk] at hget
      exact hl k s hget
  induction h with
  | genesis =>
    intro key s hget
    simp [World.empty, KV.get] at hget
  | @call ctx c w0 _ ih =>
    cases c with
    | CreateShipping shippingID itemName itemDest itemWeight itemDays =>
      rcases CreateShipping_ledger ctx w0 shippingID itemName itemDest itemWeight itemDays with
        hl | ⟨clientID, org, hl⟩
      · simp only [exec, hl]; exact ih
      · simp only [exec, hl]
        exact hput _ _ _ ih (hcreate _ _ _ _ _ _)
    | Bid shippingID =>
      simp only [exec, Bid_ledger]; exact ih
    | SubmitBid shippingID txID =>
      rcases SubmitBid_cases env ctx w0 shippingID txID with
        ⟨-, hl, -⟩ | ⟨s, org, bidKey, p, hget, hst, -, -, -, -, hl, -⟩
      · simp only [exec, hl]; exact ih
      · simp only [exec, hl]
        exact hput _ _ _ ih (hsubmit s org bidKey _ (ih _ _ hget) hst)
    | RevealBid shippingID txID =>
      rcases RevealBid_cases env ctx w0 shippingID txID with
        ⟨e, he⟩ | ⟨s, bidKey, p, bid, hget, hst, -, -, -, -, -, hok⟩
      · simp only [exec, he]; exact ih
      · simp only [exec, hok]
        exact hput _ _ _ ih (hreveal s bidKey _ (ih _ _ hget) hst)
    | CloseShipping shippingID =>
      rcases CloseShipping_cases ctx w0 shippingID with ⟨e, he⟩ | ⟨s, hget, hst, -, hok⟩
      · simp only [exec, he]; exact ih
      · simp only [exec, hok]
        exact hput _ _ _ ih (hclose s (ih _ _ hget) hst)
    | EndShipping shippingID =>
      rcases EndShipping_cases env ctx w0 shippingID with
        ⟨e, he⟩ | ⟨s, hget, hst, -, -, -, hok⟩
      · simp only [exec, he]; exact ih
      · simp only [exec, hok]
        exact hput _ _ _ ih (hend s _ (ih _ _ hget) hst)

/-! ### Participating organizations -/

theorem contains_iff (sli : List String) (str : String) : contains sli str = true ↔ str ∈ sli := by
  simp only [contains, List.any_eq_true, decide_eq_true_eq]
  constructor
  · rintro ⟨a, ha, rfl⟩
    exact ha
  · intro h
    exact ⟨str, h, rfl⟩

theorem KV.mem_del {κ ν : Type} [DecidableEq κ] (m : KV κ ν) (k : κ) (e : κ × ν)
    (h : e ∈ m.del k) : e ∈ m := by
  induction m with
  | nil => simp [KV.del] at h
  | cons b rest ih =>
    obtain ⟨a, v⟩ := b
    by_cases hak : a = k
    · simp only [KV.del, hak, if_true] at h
      exact List.mem_cons_of_mem _ (ih h)
    · simp only [KV.del, hak, if_false, List.mem_cons] at h
      rcases h with h | h
      · simp [h]
      · exact List.mem_cons_of_mem _ (ih h)

/-- A successful SubmitBid: the world it leaves behind. -/
theorem SubmitBid_success (env : Env) (ctx : Ctx) (w : World) (shippingID txID : String) :
    (SubmitBid env ctx w shippingID txID).1 ≠ none ∨
    (∃ s org bidKey p, w.ledger.get shippingID = some s ∧ s.Status = "open" ∧
      ctx.mspID = some org ∧
      CreateCompositeKey bidKeyType [shippingID, txID] = some bidKey ∧
      GetPrivateDataHash env ctx w ("_implicit_org_" ++ org) bidKey = some (some (env.sha256 p)) ∧
      SubmitBid env ctx w shippingID txID =
        (none,
          { ledger := w.ledger.put shippingID ({ s with
              PrivateBids := s.PrivateBids.put bidKey ⟨org, hexString (env.sha256 p)⟩
              Orgs := if contains s.Orgs org then s.Orgs else s.Orgs ++ [org] })
            priv := w.priv
            policy := if contains s.Orgs org then w.policy
              else w.policy.put shippingID (((w.policy.get shippingID).getD []) ++ [org]) })) := by
  cases hmsp : ctx.mspID with
  | none => simp [SubmitBid, hmsp]
  | some org =>
  cases hq : QueryShipping ctx w shippingID with
  | error e => simp [SubmitBid, hmsp, hq]
  | ok s =>
  have hget : w.ledger.get shippingID = some s := by
    unfold QueryShipping at hq
    split at hq
    · simp at hq
    · split at hq
      · simp at hq
      · next s' hs' => simp at hq; rw [hs', hq]
  by_cases hst : s.Status = "open"
  · cases hkey : CreateCompositeKey bidKeyType [shippingID, txID] with
    | none => simp [SubmitBid, hmsp, hq, hst, getCollectionName, hkey]
    | some bidKey =>
      by_cases hf : ctx.faults.getPrivateDataHash = true
      · simp [SubmitBid, hmsp, hq, hst, getCollectionName, hkey, GetPrivateDataHash, hf]
      · cases hpriv : w.priv.get ("_implicit_org_" ++ org, bidKey) with
        | none =>
          simp [SubmitBid, hmsp, hq, hst, getCollectionName, hkey, GetPrivateDataHash, hf, hpriv]
        | some p =>
          by_cases hp : ctx.faults.putState = true
          · by_cases hc : contains s.Orgs org = true
            · simp [SubmitBid, hmsp, hq, hst, getCollectionName, hkey, GetPrivateDataHash, hf,
                hpriv, hc, PutState, hp]
            · by_cases he : ctx.faults.endorsement = true
              · simp [SubmitBid, hmsp, hq, hst, getCollectionName, hkey, GetPrivateDataHash, hf,
                  hpriv, hc, PutState, hp, addAssetStateBasedEndorsement, he]
              · simp [SubmitBid, hmsp, hq, hst, getCollectionName, hkey, GetPrivateDataHash, hf,
                  hpriv, hc, PutState, hp, addAssetStateBasedEndorsement, he]
          · by_cases hc : contains s.Orgs org = true
            · right
              refine ⟨s, org, bidKey, p, hget, hst, rfl, rfl, ?_, ?_⟩
              · simp [GetPrivateDataHash, hf, hpriv]
              · simp [SubmitBid, hmsp, hq, hst, getCollectionName, hkey, GetPrivateDataHash, hf,
                  hpriv, hc, PutState, hp]
            · by_cases he : ctx.faults.endorsement = true
              · simp [SubmitBid, hmsp, hq, hst, getCollectionName, hkey, GetPrivateDataHash, hf,
                  hpriv, hc, PutState, hp, addAssetStateBasedEndorsement, he]
              · right
                refine ⟨s, org, bidKey, p, hget, hst, rfl, rfl, ?_, ?_⟩
                · simp [GetPrivateDataHash, hf, hpriv]
                · simp [SubmitBid, hmsp, hq, hst, getCollectionName, hkey, GetPrivateDataHash, hf,
                    hpriv, hc, PutState, hp, addAssetStateBasedEndorsement, he]
  · simp [SubmitBid, hmsp, hq, hst]

/-- C11: in every reachable state the orgs of a stored shipping hold the org of
every private bid and no org twice; a successful SubmitBid appends the
caller's org and extends the endorsement list of the shipping exactly when
the org was not among the orgs, and leaves both as they were otherwise. -/
theorem orgs_cover_private_bids (env : Env) :
    (∀ w, Reachable env w → ∀ shippingID s, w.ledger.get shippingID = some s →
      (∀ e ∈ s.PrivateBids, e.2.Org ∈ s.Orgs) ∧ s.Orgs.Nodup) ∧
    (∀ ctx w w' shippingID txID s org,
      SubmitBid env ctx w shippingID txID = (none, w') →
      w.ledger.get shippingID = some s → ctx.mspID = some org →
      ∃ s', w'.ledger.get shippingID = some s' ∧
        ((s'.Orgs = s.Orgs ++ [org] ∧
          w'.policy = w.policy.put shippingID (((w.policy.get shippingID).getD []) ++ [org]))
            ↔ org ∉ s.Orgs) ∧
        ((s'.Orgs = s.Orgs ∧ w'.policy = w.policy) ↔ org ∈ s.Orgs)) := by
  constructor
  · intro w hw
    refine reachable_shipping_induction env
      (fun s => (∀ e ∈ s.PrivateBids, e.2.Org ∈ s.Orgs) ∧ s.Orgs.Nodup) ?_ ?_ ?_ ?_ ?_ w hw
    · intro _ _ _ _ _ clientOrgID
      simp
    · intro s org bidKey hash ⟨hcover, hnodup⟩ _
      by_cases hc : contains s.Orgs org = true
      · have hmem := (contains_iff _ _).1 hc
        refine ⟨?_, by simpa [hc] using hnodup⟩
        intro e he
        simp only [hc, if_true]
        rcases List.mem_cons.1 he with h | h
        · rw [h]; exact hmem
        · exact hcover e (KV.mem_del _ _ _ h)
      · have hmem : org ∉ s.Orgs := fun h => hc ((contains_iff _ _).2 h)
        refine ⟨?_, ?_⟩
        · intro e he
          simp only [hc]
          rcases List.mem_cons.1 he with h | h
          · rw [h]; simp
          · exact List.mem_append_left _ (hcover e (KV.mem_del _ _ _ h))
        · simp only [hc]
          exact List.Nodup.append hnodup (List.nodup_singleton _) (by simpa using hmem)
    · intro s bidKey bid hs _
      exact hs
    · intro s hs _
      exact hs
    · intro s bids hs _
      have hf := selectWinner_frame bids s
      simpa [hf.2.2.1, hf.2.2.2.2.1] using hs
  · intro ctx w w' shippingID txID s org hok hget hmsp
    rcases SubmitBid_success env ctx w shippingID txID with
      herr | ⟨s0, org0, bidKey, p, hget0, -, hmsp0, -, -, heq⟩
    · rw [hok] at herr
      exact absurd rfl herr
    · rw [hget] at hget0
      cases hget0
      rw [hmsp] at hmsp0
      cases hmsp0
      rw [heq] at hok
      have hw' := (Prod.mk.inj hok).2
      subst hw'
      refine ⟨_, KV.get_put_self _ _ _, ?_, ?_⟩
      · by_cases hc : contains s.Orgs org = true
        · have hmem := (contains_iff _ _).1 hc
          simp only [hc, if_true]
          constructor
          · rintro ⟨h1, -⟩
            have := congrArg List.length h1
            simp at this
          · intro h
            exact absurd hmem h
        · have hmem : org ∉ s.Orgs := fun h => hc ((contains_iff _ _).2 h)
          simp [hc, hmem]
      · by_cases hc : contains s.Orgs org = true
        · have hmem := (contains_iff _ _).1 hc
          simp [hc, hmem]
        · have hmem : org ∉ s.Orgs := fun h => hc ((contains_iff _ _).2 h)
          simp only [hc]
          constructor
          · rintro ⟨h1, -⟩
            have := congrArg List.length h1
            simp at this
          · intro h
            exact absurd h hmem

/-! ### Effects of the single calls -/

/-- C12: CloseShipping fails, writing nothing, when no record is stored under
the ID, when the caller is not the seller, or when the status is not open;
otherwise, the read and the write of the ledger succeeding, it succeeds and
stores the record as it was with status closed. -/
theorem closeShipping_effect (ctx : Ctx) (w : World) (shippingID : String) :
    (w.ledger.get shippingID = none → ∃ e, CloseShipping ctx w shippingID = (some e, w)) ∧
    (∀ s, w.ledger.get shippingID = some s →
      (ctx.clientID ≠ some s.Seller → ∃ e, CloseShipping ctx w shippingID = (some e, w)) ∧
      (s.Status ≠ "open" → ∃ e, CloseShipping ctx w shippingID = (some e, w)) ∧
      (ctx.clientID = some s.Seller → s.Status = "open" → ctx.faults.getState = false →
        ctx.faults.putState = false →
        (CloseShipping ctx w shippingID).1 = none ∧
        (CloseShipping ctx w shippingID).2.priv = w.priv ∧
        (CloseShipping ctx w shippingID).2.policy = w.policy ∧
        (CloseShipping ctx w shippingID).2.ledger.get shippingID =
          some { ObjType := s.ObjType, ItemSold := s.ItemSold, Seller := s.Seller,
                 Orgs := s.Orgs, PrivateBids := s.PrivateBids,
                 RevealedBids := s.RevealedBids, Winner := s.Winner, Price := s.Price,
                 Status := "closed" } ∧
        ∀ key, key ≠ shippingID →
          (CloseShipping ctx w shippingID).2.ledger.get key = w.ledger.get key)) := by
  refine ⟨?_, ?_⟩
  · intro hnone
    rcases CloseShipping_cases ctx w shippingID with he | ⟨s, hget, -, -, -⟩
    · exact he
    · rw [hnone] at hget
      cases hget
  · intro s hget
    refine ⟨?_, ?_, ?_⟩
    · intro hne
      rcases CloseShipping_cases ctx w shippingID with he | ⟨s0, hget0, -, hcl, -⟩
      · exact he
      · rw [hget] at hget0
        cases hget0
        exact absurd hcl hne
    · intro hne
      rcases CloseShipping_cases ctx w shippingID with he | ⟨s0, hget0, hst, -, -⟩
      · exact he
      · rw [hget] at hget0
        cases hget0
        exact absurd hst hne
    · intro hcl hst hread hwrite
      rw [CloseShipping_ok ctx w shippingID s hget hst hcl hread hwrite]
      refine ⟨rfl, rfl, rfl, KV.get_put_self _ _ _, ?_⟩
      intro key hk
      exact KV.get_put_of_ne _ _ _ _ (fun h => hk h.symm)

/-- C12 at a concrete run: the seller closes "s1", on which alice has
committed 500. -/
theorem closeShipping_effect_witness :
    (CloseShipping demoSeller demoCommitted "s1").1 = none ∧
    (CloseShipping demoSeller demoCommitted "s1").2.priv = demoCommitted.priv ∧
    (CloseShipping demoSeller demoCommitted "s1").2.policy = demoCommitted.policy ∧
    (CloseShipping demoSeller demoCommitted "s1").2.ledger.get "s1" =
      some { ObjType := "shipping", ItemSold := ⟨"box", "oslo", 3, 4⟩, Seller := "sam",
             Orgs := ["Org1MSP"],
             PrivateBids := [(demoKey, ⟨"Org1MSP", hexString (demoHash alice500)⟩)],
             RevealedBids := [], Winner := "", Price := 100000000, Status := "closed" } ∧
    ∀ key, key ≠ "s1" →
      (CloseShipping demoSeller demoCommitted "s1").2.ledger.get key =
        demoCommitted.ledger.get key :=
  ((closeShipping_effect demoSeller demoCommitted "s1").2
    { demoShipping with
      PrivateBids := [(demoKey, ⟨"Org1MSP", hexString (demoHash alice500)⟩)] }
    (by decide)).2.2 (by decide) (by decide) (by decide) (by decide)

theorem hexDigit_lower (n : Nat) (h : n < 16) : hexDigit n ∈ "0123456789abcdef".data := by
  interval_cases n <;> decide

theorem hexChars_lower (b : Bytes) : ∀ c ∈ hexChars b, c ∈ "0123456789abcdef".data := by
  induction b with
  | nil => simp [hexChars]
  | cons x xs ih =>
    intro c hc
    simp only [hexChars, List.mem_cons] at hc
    rcases hc with h | h | h
    · rw [h]
      exact hexDigit_lower _ (Nat.div_lt_of_lt_mul (by have := x.isLt; omega))
    · rw [h]
      exact hexDigit_lower _ (Nat.mod_lt _ (by decide))
    · exact ih c h

theorem hexDigit_table (n : Nat) (h : n < 16) :
    hexDigit n = "0123456789abcdef".data.getD n '0' := by
  interval_cases n <;> rfl

/-- The formatting the code uses is lowercase hexadecimal: two digits for
every byte, high four bits first. -/
theorem hexString_eq_specLowerHex (b : Bytes) : hexString b = specLowerHex b := by
  unfold hexString specLowerHex
  congr 1
  induction b with
  | nil => rfl
  | cons x xs ih =>
    have h1 : x.val / 16 < 16 := Nat.div_lt_of_lt_mul (by have := x.isLt; omega)
    have h2 : x.val % 16 < 16 := Nat.mod_lt _ (by decide)
    simp only [hexChars, List.flatMap_cons, List.cons_append, List.nil_append, ih,
      hexDigit_table _ h1, hexDigit_table _ h2]

/-- C13: when SubmitBid succeeds, the stored private bids are the previous
ones with the bid key bound to the caller's org and the lowercase hex of the
hash the private store returns, which is the SHA-256 digest of the payload
stored under the bid key in the private collection of the caller's org; the
hex string is the digest written byte by byte as two of the digits 0-9, a-f;
every other binding and the item, seller, revealed bids, winner, price and
status are as before, and the orgs are as before or extended by the caller's
org. -/
theorem submitBid_effect (env : Env) (ctx : Ctx) (w w' : World) (shippingID txID : String)
    (hok : SubmitBid env ctx w shippingID txID = (none, w')) :
    ∃ s s' org bidKey hash, w.ledger.get shippingID = some s ∧ ctx.mspID = some org ∧
      CreateCompositeKey bidKeyType [shippingID, txID] = some bidKey ∧
      GetPrivateDataHash env ctx w ("_implicit_org_" ++ org) bidKey = some (some hash) ∧
      (∃ p, w.priv.get ("_implicit_org_" ++ org, bidKey) = some p ∧ hash = env.sha256 p) ∧
      w'.ledger.get shippingID = some s' ∧
      s'.PrivateBids = s.PrivateBids.put bidKey ⟨org, hexString hash⟩ ∧
      s'.PrivateBids.get bidKey = some ⟨org, hexString hash⟩ ∧
      (∀ c ∈ (hexString hash).data, c ∈ "0123456789abcdef".data) ∧
      hexString hash = specLowerHex hash ∧
      (∀ k, k ≠ bidKey → s'.PrivateBids.get k = s.PrivateBids.get k) ∧
      s'.ObjType = s.ObjType ∧ s'.ItemSold = s.ItemSold ∧ s'.Seller = s.Seller ∧
      s'.RevealedBids = s.RevealedBids ∧ s'.Winner = s.Winner ∧ s'.Price = s.Price ∧
      s'.Status = s.Status ∧
      (s'.Orgs = s.Orgs ∨ s'.Orgs = s.Orgs ++ [org]) := by
  rcases SubmitBid_success env ctx w shippingID txID with
    herr | ⟨s, org, bidKey, p, hget, -, hmsp, hkey, hhash, heq⟩
  · rw [hok] at herr
    exact absurd rfl herr
  · rw [heq] at hok
    have hw' := (Prod.mk.inj hok).2
    subst hw'
    refine ⟨s, _, org, bidKey, env.sha256 p, hget, hmsp, hkey, hhash, ?_,
      KV.get_put_self _ _ _, rfl, KV.get_put_self _ _ _, hexChars_lower _,
      hexString_eq_specLowerHex _, ?_, rfl, rfl, rfl, rfl, rfl, rfl, rfl, ?_⟩
    · unfold GetPrivateDataHash at hhash
      split at hhash
      · simp at hhash
      · cases hpriv : w.priv.get ("_implicit_org_" ++ org, bidKey) with
        | none => simp [hpriv] at hhash
        | some q =>
          simp [hpriv] at hhash
          exact ⟨q, rfl, hhash.symm⟩
    · intro k hk
      exact KV.get_put_of_ne _ _ _ _ (fun h => hk h.symm)
    · by_cases hc : contains s.Orgs org = true
      · left; simp [hc]
      · right; simp [hc]

/-- C14, counterexample: CreateShipping called with the one-byte item name ff,
which is not valid UTF-8, succeeds, and the item name of the stored record is
the character U+FFFD, whose bytes ef bf bd are not the argument. -/
theorem createShipping_item_name_not_argument :
    (CreateShipping demoSeller World.empty "s1" [0xff] (goBytes "oslo") 3 4).1 = none ∧
    ((CreateShipping demoSeller World.empty "s1" [0xff] (goBytes "oslo") 3 4).2.ledger.get
        "s1").map (fun s => s.ItemSold.Name) = some (String.mk [Char.ofNat 0xfffd]) ∧
    ((CreateShipping demoSeller World.empty "s1" [0xff] (goBytes "oslo") 3 4).2.ledger.get
        "s1").map (fun s => goBytes s.ItemSold.Name) = some [0xef, 0xbf, 0xbd] ∧
    ((CreateShipping demoSeller World.empty "s1" [0xff] (goBytes "oslo") 3 4).2.ledger.get
        "s1").map (fun s => goBytes s.ItemSold.Name) ≠ some [0xff] := by
  decide

/-- C14, amended: when CreateShipping succeeds, the record stored under the
shipping ID has status open, price 100000000, no winner, no private and no
revealed bids, the submitting client as seller, the client's org as the only
org, the weight and days as given, and as item name and destination the JSON
text of the arguments; the stored string has the bytes of the argument exactly
when the argument is valid UTF-8, that is, the bytes of some text. -/
theorem createShipping_record (ctx : Ctx) (w w' : World) (shippingID : String)
    (itemName itemDest : Bytes) (itemWeight itemDays : Int)
    (hok : CreateShipping ctx w shippingID itemName itemDest itemWeight itemDays = (none, w')) :
    ∃ clientID clientOrgID, ctx.clientID = some clientID ∧ ctx.mspID = some clientOrgID ∧
      w'.ledger.get shippingID =
        some { ObjType := "shipping",
               ItemSold := ⟨jsonText itemName, jsonText itemDest, itemWeight, itemDays⟩,
               Seller := clientID, Orgs := [clientOrgID], PrivateBids := [],
               RevealedBids := [], Winner := "", Price := 100000000, Status := "open" } ∧
      (goBytes (jsonText itemName) = itemName ↔ ∃ name, itemName = goBytes name) ∧
      (goBytes (jsonText itemDest) = itemDest ↔ ∃ dest, itemDest = goBytes dest) := by
  have valid : ∀ p : Bytes, goBytes (jsonText p) = p ↔ ∃ t, p = goBytes t := by
    intro p
    constructor
    · intro h
      exact ⟨jsonText p, h.symm⟩
    · rintro ⟨t, rfl⟩
      rw [jsonText_goBytes]
  unfold CreateShipping PutState setAssetStateBasedEndorsement at hok
  cases hc : ctx.clientID with
  | none => simp [hc] at hok
  | some clientID =>
    cases hm : ctx.mspID with
    | none => simp [hc, hm] at hok
    | some org =>
      by_cases hp : ctx.faults.putState = true
      · simp [hc, hm, hp] at hok
      · by_cases he : ctx.faults.endorsement = true
        · simp [hc, hm, hp, he] at hok
        · simp [hc, hm, hp, he] at hok
          subst hok
          exact ⟨clientID, org, rfl, rfl, KV.get_put_self _ _ _, valid _, valid _⟩

/-- A successful Bid: what it returns and the world it leaves behind. -/
theorem Bid_success (ctx : Ctx) (w w' : World) (shippingID v : String)
    (hok : Bid ctx w shippingID = (.ok v, w')) :
    v = ctx.txID ∧
    ∃ bidKey collection p, CreateCompositeKey bidKeyType [shippingID, ctx.txID] = some bidKey ∧
      getCollectionName ctx = some collection ∧ ctx.payload = some p ∧
      verifyClientOrgMatchesPeerOrg ctx = true ∧
      w' = { w with priv := w.priv.put (collection, bidKey) p } := by
  unfold Bid at hok
  cases ht : ctx.transient with
  | none => simp [ht] at hok
  | some transientMap =>
  cases hb : transientMap.get "bid" with
  | none => simp [ht, hb] at hok
  | some p =>
  cases hcoll : getCollectionName ctx with
  | none => simp [ht, hb, hcoll] at hok
  | some collection =>
  by_cases hv : verifyClientOrgMatchesPeerOrg ctx = true
  · cases hkey : CreateCompositeKey bidKeyType [shippingID, ctx.txID] with
    | none => simp [ht, hb, hcoll, hv, hkey] at hok
    | some bidKey =>
      by_cases hf : ctx.faults.putPrivateData = true
      · simp [ht, hb, hcoll, hv, hkey, hf] at hok
      · simp [ht, hb, hcoll, hv, hkey, hf] at hok
        refine ⟨hok.1.symm, bidKey, collection, p, rfl, rfl, ?_, hv, hok.2.symm⟩
        simp [Ctx.payload, ht, hb]
  · simp [ht, hb, hcoll, hv] at hok

/-- A composite key is never one of its own attributes: it starts with
U+0000, which no attribute holds. -/
theorem compositeKey_ne_attribute (objectType a b bidKey : String)
    (hkey : CreateCompositeKey objectType [a, b] = some bidKey) : b ≠ bidKey := by
  unfold CreateCompositeKey at hkey
  split at hkey
  · next hvalid =>
    simp only [Option.some.injEq] at hkey
    intro hb
    simp only [List.all_cons, List.all_nil, Bool.and_true, Bool.and_eq_true] at hvalid
    have hvb := hvalid.2.2
    unfold validateCompositeKeyAttribute at hvb
    rw [List.all_eq_true] at hvb
    have hmem : minUnicodeRuneValue ∈ b.data := by
      rw [hb, ← hkey]
      exact List.mem_cons_self _ _
    have := hvb _ hmem
    simp at this
  · simp at hkey

/-- C15 as stated fails: Bid by alice in transaction "tx1" returns "tx1",
which is not the bid key under which the payload is stored and under which
SubmitBid records the commitment. -/
theorem bid_returns_no_bid_key :
    (Bid (demoAlice "tx1" (some alice500)) demoOpen "s1").1 = .ok "tx1" ∧
    CreateCompositeKey bidKeyType ["s1", "tx1"] = some demoKey ∧ "tx1" ≠ demoKey ∧
    (Bid (demoAlice "tx1" (some alice500)) demoOpen "s1").2.priv.get
      ("_implicit_org_Org1MSP", demoKey) = some alice500 ∧
    (Bid (demoAlice "tx1" (some alice500)) demoOpen "s1").2.priv.get
      ("_implicit_org_Org1MSP", "tx1") = none ∧
    (demoCommitted.ledger.get "s1").map (fun s => s.PrivateBids.map Prod.fst) =
      some [demoKey] := by
  decide

/-- C15, amended: when Bid succeeds, the value it returns is the transaction
ID, which differs from the bid key; the bid key is the composite key of the
tag "bid", the shipping ID and that transaction ID, the payload is stored
under it in the collection of the caller's org, and a successful SubmitBid
called with the returned value records the commitment under it. -/
theorem bid_returns_transaction_id (ctx : Ctx) (w w' : World) (shippingID v : String)
    (hok : Bid ctx w shippingID = (.ok v, w')) :
    v = ctx.txID ∧
    ∃ bidKey collection p, CreateCompositeKey bidKeyType [shippingID, v] = some bidKey ∧
      v ≠ bidKey ∧ getCollectionName ctx = some collection ∧ ctx.payload = some p ∧
      w'.priv.get (collection, bidKey) = some p ∧
      ∀ env ctx2 w2 w3, SubmitBid env ctx2 w2 shippingID v = (none, w3) →
        ∃ s', w3.ledger.get shippingID = some s' ∧ (s'.PrivateBids.get bidKey).isSome = true := by
  obtain ⟨hv, bidKey, collection, p, hkey, hcoll, hpay, -, hw'⟩ :=
    Bid_success ctx w w' shippingID v hok
  subst hv
  refine ⟨rfl, bidKey, collection, p, hkey, compositeKey_ne_attribute _ _ _ _ hkey, hcoll, hpay,
    ?_, ?_⟩
  · rw [hw']
    exact KV.get_put_self _ _ _
  · intro env ctx2 w2 w3 hsub
    rcases SubmitBid_success env ctx2 w2 shippingID ctx.txID with
      herr | ⟨s, org, bidKey2, p2, -, -, -, hkey2, -, heq⟩
    · rw [hsub] at herr
      exact absurd rfl herr
    · rw [hkey] at hkey2
      cases hkey2
      rw [heq] at hsub
      have h3 := (Prod.mk.inj hsub).2
      subst h3
      exact ⟨_, KV.get_put_self _ _ _, by simp [KV.get_put_self]⟩

/-- C15, amended, at a concrete run: alice's Bid on "s1" in transaction "tx1". -/
theorem bid_returns_transaction_id_witness :
    "tx1" = (demoAlice "tx1" (some alice500)).txID ∧
    ∃ bidKey collection p, CreateCompositeKey bidKeyType ["s1", "tx1"] = some bidKey ∧
      "tx1" ≠ bidKey ∧ getCollectionName (demoAlice "tx1" (some alice500)) = some collection ∧
      (demoAlice "tx1" (some alice500)).payload = some p ∧
      (Bid (demoAlice "tx1" (some alice500)) demoOpen "s1").2.priv.get (collection, bidKey)
        = some p ∧
      ∀ env ctx2 w2 w3, SubmitBid env ctx2 w2 "s1" "tx1" = (none, w3) →
        ∃ s', w3.ledger.get "s1" = some s' ∧ (s'.PrivateBids.get bidKey).isSome = true :=
  bid_returns_transaction_id (demoAlice "tx1" (some alice500)) demoOpen
    (Bid (demoAlice "tx1" (some alice500)) demoOpen "s1").2 "s1" "tx1" (by decide)

/-- C13 at a concrete run: alice registers the hash of the 500 she stored in
transaction "tx1". -/
theorem submitBid_effect_witness :
    ∃ s s' org bidKey hash,
      (run demoEnv demoOpen [(demoAlice "tx1" (some alice500), .Bid "s1")]).ledger.get "s1"
        = some s ∧
      (demoAlice "tx2" none).mspID = some org ∧
      CreateCompositeKey bidKeyType ["s1", "tx1"] = some bidKey ∧
      GetPrivateDataHash demoEnv (demoAlice "tx2" none)
        (run demoEnv demoOpen [(demoAlice "tx1" (some alice500), .Bid "s1")])
        ("_implicit_org_" ++ org) bidKey = some (some hash) ∧
      (∃ p, (run demoEnv demoOpen [(demoAlice "tx1" (some alice500), .Bid "s1")]).priv.get
          ("_implicit_org_" ++ org, bidKey) = some p ∧ hash = demoEnv.sha256 p) ∧
      demoCommitted.ledger.get "s1" = some s' ∧
      s'.PrivateBids = s.PrivateBids.put bidKey ⟨org, hexString hash⟩ ∧
      s'.PrivateBids.get bidKey = some ⟨org, hexString hash⟩ ∧
      (∀ c ∈ (hexString hash).data, c ∈ "0123456789abcdef".data) ∧
      hexString hash = specLowerHex hash ∧
      (∀ k, k ≠ bidKey → s'.PrivateBids.get k = s.PrivateBids.get k) ∧
      s'.ObjType = s.ObjType ∧ s'.ItemSold = s.ItemSold ∧ s'.Seller = s.Seller ∧
      s'.RevealedBids = s.RevealedBids ∧ s'.Winner = s.Winner ∧ s'.Price = s.Price ∧
      s'.Status = s.Status ∧
      (s'.Orgs = s.Orgs ∨ s'.Orgs = s.Orgs ++ [org]) :=
  submitBid_effect demoEnv (demoAlice "tx2" none)
    (run demoEnv demoOpen [(demoAlice "tx1" (some alice500), .Bid "s1")]) demoCommitted
    "s1" "tx1" (by decide)

/-- C14 at a concrete run: the seller creates "s1" with the item name "box"
and the destination "oslo", both valid UTF-8. -/
theorem createShipping_record_witness :
    ∃ clientID clientOrgID, demoSeller.clientID = some clientID ∧
      demoSeller.mspID = some clientOrgID ∧
      demoOpen.ledger.get "s1" =
        some { ObjType := "shipping",
               ItemSold := ⟨jsonText (goBytes "box"), jsonText (goBytes "oslo"), 3, 4⟩,
               Seller := clientID, Orgs := [clientOrgID], PrivateBids := [],
               RevealedBids := [], Winner := "", Price := 100000000, Status := "open" } ∧
      (goBytes (jsonText (goBytes "box")) = goBytes "box" ↔
        ∃ name, goBytes "box" = goBytes name) ∧
      (goBytes (jsonText (goBytes "oslo")) = goBytes "oslo" ↔
        ∃ dest, goBytes "oslo" = goBytes dest) :=
  createShipping_record demoSeller World.empty demoOpen "s1" (goBytes "box") (goBytes "oslo")
    3 4 (by decide)

/-! ### The check for an outstanding bid -/

/-- One turn of the loop when the read it needs succeeds: the error variable
is set for a flagged bid and kept otherwise. -/
theorem checkBid_of_readOk (env : Env) (ctx : Ctx) (w : World) (shippingPrice : Int)
    (revealedBidders : KV String FullBid) (peerMSPID : String) (error : Option CheckErr)
    (entry : String × BidHash)
    (hread : revealedBidders.has entry.1 = false → readOk env ctx w peerMSPID entry = true) :
    checkBid env ctx w shippingPrice revealedBidders peerMSPID error entry =
      .inr (bif outbids env w shippingPrice revealedBidders peerMSPID entry
        then some CheckErr.higherPrice else error) := by
  by_cases hrev : revealedBidders.has entry.1 = true
  · simp [checkBid, outbids, hrev]
  · simp only [Bool.not_eq_true] at hrev
    have hr := hread hrev
    by_cases horg : entry.2.Org = peerMSPID
    · simp only [readOk, horg, if_true, Bool.and_eq_true, Bool.not_eq_true'] at hr
      obtain ⟨hf, hsome⟩ := hr
      cases hp : w.priv.get ("_implicit_org_" ++ entry.2.Org, entry.1) with
      | none => simp [storedPrice, hp] at hsome
      | some bidJSON =>
        cases hu : env.unmarshalFullBid bidJSON with
        | none => simp [storedPrice, hp, hu] at hsome
        | some decoded =>
          cases decoded with
          | none => simp [storedPrice, hp, hu] at hsome
          | some bid =>
            rw [horg] at hp
            by_cases hgt : bid.Price > shippingPrice
            · simp [checkBid, outbids, hrev, horg, GetPrivateData, hf, hp, hu, storedPrice, hgt]
            · simp [checkBid, outbids, hrev, horg, GetPrivateData, hf, hp, hu, storedPrice, hgt]
    · simp only [readOk, horg, if_false, Bool.and_eq_true, Bool.not_eq_true'] at hr
      obtain ⟨hf, hsome⟩ := hr
      cases hp : w.priv.get ("_implicit_org_" ++ entry.2.Org, entry.1) with
      | none => simp [hp] at hsome
      | some b =>
        simp [checkBid, outbids, hrev, horg, GetPrivateDataHash, hf, hp]

/-- The loop when every read it needs succeeds. -/
theorem checkLoop_of_readOk (env : Env) (ctx : Ctx) (w : World) (shippingPrice : Int)
    (revealedBidders : KV String FullBid) (peerMSPID : String)
    (order : List (String × BidHash)) (error : Option CheckErr)
    (hread : ∀ e ∈ order, revealedBidders.has e.1 = false →
      readOk env ctx w peerMSPID e = true) :
    checkLoop env ctx w shippingPrice revealedBidders peerMSPID order error =
      bif order.any (outbids env w shippingPrice revealedBidders peerMSPID)
        then some CheckErr.higherPrice else error := by
  induction order generalizing error with
  | nil => simp [checkLoop]
  | cons e rest ih =>
    have h1 := checkBid_of_readOk env ctx w shippingPrice revealedBidders peerMSPID error e
      (hread e (List.mem_cons_self _ _))
    have h2 := fun err => ih err (fun x hx => hread x (List.mem_cons_of_mem _ hx))
    simp only [checkLoop, h1, h2, List.any_cons]
    cases outbids env w shippingPrice revealedBidders peerMSPID e <;> simp

theorem any_perm {α : Type} (f : α → Bool) {l l' : List α} (h : l.Perm l') :
    l.any f = l'.any f := by
  rw [Bool.eq_iff_iff]
  simp only [List.any_eq_true]
  constructor
  · rintro ⟨a, ha, hf⟩
    exact ⟨a, h.mem_iff.1 ha, hf⟩
  · rintro ⟨a, ha, hf⟩
    exact ⟨a, h.mem_iff.2 ha, hf⟩

/-- C16, counterexample: on "s1" alice's 300 is revealed; bob, of the peer's
org, has committed 500 in one bid and the payload null in another and has
revealed neither.  Every read the check needs succeeds, json.Unmarshal
reports no error for any plaintext, and the 500 is above the shipping price
300; yet checkForHigherBid returns no error: decoding null leaves the pointer
nil and the run ends in the panic at bid.Price, in every visiting order of
the private bids, and so does EndShipping. -/
theorem checkForHigherBid_null_plaintext :
    (demoNull.ledger.get "s1").map
        (fun s => (s.RevealedBids.map fun e => (e.1, e.2.Price),
          s.PrivateBids.map fun e => (e.1, e.2.Org))) =
      some ([(demoKey, 300)],
        [(demoKey6, "Org1MSP"), (demoKey4, "Org1MSP"), (demoKey, "Org1MSP")]) ∧
    demoSeller.peerMSPID = some "Org1MSP" ∧
    demoNull.priv.get ("_implicit_org_Org1MSP", demoKey6) = some nullPayload ∧
    demoEnv.unmarshalFullBid nullPayload = some none ∧
    (demoNull.ledger.get "s1").map
        (fun s => s.PrivateBids.all (readParses demoEnv demoSeller demoNull "Org1MSP")) =
      some true ∧
    storedPrice demoEnv demoNull (demoKey4, ⟨"Org1MSP", ""⟩) = some 500 ∧
    (demoNull.ledger.get "s1").map
        (fun s => checkForHigherBid demoEnv demoSeller demoNull 300 s.RevealedBids
          s.PrivateBids) = some (some CheckErr.nilBid) ∧
    (demoNull.ledger.get "s1").map
        (fun s => (s.PrivateBids.permutations').all fun order =>
          decide (checkLoop demoEnv demoSeller demoNull 300 s.RevealedBids "Org1MSP" order none
            = some CheckErr.nilBid)) = some true ∧
    (EndShipping demoEnv demoSeller demoNull "s1").1 = some (.cannotEnd .nilBid) := by
  decide

/-- C16, amended: when the peer's org is known and every private-store read
that the check needs succeeds, the plaintext of every unrevealed bid of the
peer's org decoding to a bid and not to the nil pointer that the plaintext
null gives, checkForHigherBid returns an error exactly when some private bid
that is not revealed has the peer's org and a stored plaintext price strictly
above the shipping price; that error is the higher-price error, and the
result is the same for every visiting order of the private bids. -/
theorem checkForHigherBid_flags_higher_local_bid (env : Env) (ctx : Ctx) (w : World)
    (shippingPrice : Int) (revealedBidders : KV String FullBid) (bidders : KV String BidHash)
    (peerMSPID : String) (hpeer : ctx.peerMSPID = some peerMSPID)
    (hread : ∀ e ∈ bidders, revealedBidders.has e.1 = false →
      readOk env ctx w peerMSPID e = true) :
    (checkForHigherBid env ctx w shippingPrice revealedBidders bidders ≠ none ↔
      ∃ e ∈ bidders, revealedBidders.has e.1 = false ∧ e.2.Org = peerMSPID ∧
        ∃ price, storedPrice env w e = some price ∧ price > shippingPrice) ∧
    (checkForHigherBid env ctx w shippingPrice revealedBidders bidders ≠ none →
      checkForHigherBid env ctx w shippingPrice revealedBidders bidders =
        some CheckErr.higherPrice) ∧
    (∀ order, order.Perm bidders →
      checkLoop env ctx w shippingPrice revealedBidders peerMSPID order none =
        checkForHigherBid env ctx w shippingPrice revealedBidders bidders) := by
  have hperm := rangeOrder_perm ctx.rangeBidders bidders
  have hloop : ∀ order : List (String × BidHash), order.Perm bidders →
      checkLoop env ctx w shippingPrice revealedBidders peerMSPID order none =
        bif bidders.any (outbids env w shippingPrice revealedBidders peerMSPID)
          then some CheckErr.higherPrice else none := by
    intro order ho
    rw [checkLoop_of_readOk env ctx w shippingPrice revealedBidders peerMSPID order none
      (fun e he => hread e (ho.mem_iff.1 he)), any_perm _ ho]
  have hval : checkForHigherBid env ctx w shippingPrice revealedBidders bidders =
      bif bidders.any (outbids env w shippingPrice revealedBidders peerMSPID)
        then some CheckErr.higherPrice else none := by
    simp only [checkForHigherBid, hpeer]
    exact hloop _ hperm
  refine ⟨?_, ?_, ?_⟩
  · rw [hval]
    constructor
    · intro h
      by_cases hany : bidders.any (outbids env w shippingPrice revealedBidders peerMSPID) = true
      · obtain ⟨e, he, ho⟩ := List.any_eq_true.1 hany
        refine ⟨e, he, ?_⟩
        simp only [outbids, Bool.and_eq_true, Bool.not_eq_true', decide_eq_true_eq] at ho
        obtain ⟨⟨hrev, horg⟩, hprice⟩ := ho
        refine ⟨hrev, horg, ?_⟩
        cases hs : storedPrice env w e with
        | none => simp [hs] at hprice
        | some price =>
          simp only [hs, decide_eq_true_eq] at hprice
          exact ⟨price, rfl, hprice⟩
      · simp [hany] at h
    · rintro ⟨e, he, hrev, horg, price, hs, hgt⟩
      have hany : bidders.any (outbids env w shippingPrice revealedBidders peerMSPID) = true := by
        refine List.any_eq_true.2 ⟨e, he, ?_⟩
        simp [outbids, hrev, horg, hs, hgt]
      simp [hany]
  · rw [hval]
    intro h
    by_cases hany : bidders.any (outbids env w shippingPrice revealedBidders peerMSPID) = true
    · simp [hany]
    · simp [hany] at h
  · intro order ho
    rw [hval]
    exact hloop order ho

/-- C16 at a concrete run: on "s1" alice's 300 is revealed and bob's 500, of
the peer's org, is not. -/
theorem checkForHigherBid_flags_higher_local_bid_witness :
    (checkForHigherBid demoEnv demoSeller demoOutbid 300
        [(demoKey, ⟨"bid", 300, "Org1MSP", "alice"⟩)]
        [(demoKey4, ⟨"Org1MSP", ""⟩), (demoKey, ⟨"Org1MSP", ""⟩)] ≠ none ↔
      ∃ e ∈ [(demoKey4, (⟨"Org1MSP", ""⟩ : BidHash)), (demoKey, ⟨"Org1MSP", ""⟩)],
        KV.has [(demoKey, (⟨"bid", 300, "Org1MSP", "alice"⟩ : FullBid))] e.1 = false ∧
        e.2.Org = "Org1MSP" ∧
        ∃ price, storedPrice demoEnv demoOutbid e = some price ∧ price > 300) ∧
    checkForHigherBid demoEnv demoSeller demoOutbid 300
        [(demoKey, ⟨"bid", 300, "Org1MSP", "alice"⟩)]
        [(demoKey4, ⟨"Org1MSP", ""⟩), (demoKey, ⟨"Org1MSP", ""⟩)] =
      some CheckErr.higherPrice :=
  ⟨(checkForHigherBid_flags_higher_local_bid demoEnv demoSeller demoOutbid 300
      [(demoKey, ⟨"bid", 300, "Org1MSP", "alice"⟩)]
      [(demoKey4, ⟨"Org1MSP", ""⟩), (demoKey, ⟨"Org1MSP", ""⟩)] "Org1MSP" (by decide)
      (by decide)).1,
    (checkForHigherBid_flags_higher_local_bid demoEnv demoSeller demoOutbid 300
      [(demoKey, ⟨"bid", 300, "Org1MSP", "alice"⟩)]
      [(demoKey4, ⟨"Org1MSP", ""⟩), (demoKey, ⟨"Org1MSP", ""⟩)] "Org1MSP" (by decide)
      (by decide)).2.1 (by decide)⟩

/-! ### Bids of other organizations -/

/-- One turn of the loop gives the same result on two private stores that
agree on the peer's own collection and on which keys hold a value. -/
theorem checkBid_congr (env : Env) (ctx : Ctx) (w1 w2 : World) (peerMSPID : String)
    (hlocal : ∀ key, w1.priv.get ("_implicit_org_" ++ peerMSPID, key) =
      w2.priv.get ("_implicit_org_" ++ peerMSPID, key))
    (hpresent : ∀ collection key, (w1.priv.get (collection, key)).isSome =
      (w2.priv.get (collection, key)).isSome)
    (shippingPrice : Int) (revealedBidders : KV String FullBid) (error : Option CheckErr)
    (entry : String × BidHash) :
    checkBid env ctx w1 shippingPrice revealedBidders peerMSPID error entry =
      checkBid env ctx w2 shippingPrice revealedBidders peerMSPID error entry := by
  by_cases hrev : revealedBidders.has entry.1 = true
  · simp [checkBid, hrev]
  · by_cases horg : entry.2.Org = peerMSPID
    · simp [checkBid, hrev, horg, GetPrivateData, hlocal]
    · have hp := hpresent ("_implicit_org_" ++ entry.2.Org) entry.1
      by_cases hf : ctx.faults.getPrivateDataHash = true
      · simp [checkBid, hrev, horg, GetPrivateDataHash, hf]
      · cases h1 : w1.priv.get ("_implicit_org_" ++ entry.2.Org, entry.1) with
        | none =>
          cases h2 : w2.priv.get ("_implicit_org_" ++ entry.2.Org, entry.1) with
          | none => simp [checkBid, hrev, horg, GetPrivateDataHash, hf, h1, h2]
          | some b => simp [h1, h2] at hp
        | some a =>
          cases h2 : w2.priv.get ("_implicit_org_" ++ entry.2.Org, entry.1) with
          | none => simp [h1, h2] at hp
          | some b => simp [checkBid, hrev, horg, GetPrivateDataHash, hf, h1, h2]

theorem checkLoop_congr (env : Env) (ctx : Ctx) (w1 w2 : World) (peerMSPID : String)
    (hlocal : ∀ key, w1.priv.get ("_implicit_org_" ++ peerMSPID, key) =
      w2.priv.get ("_implicit_org_" ++ peerMSPID, key))
    (hpresent : ∀ collection key, (w1.priv.get (collection, key)).isSome =
      (w2.priv.get (collection, key)).isSome)
    (shippingPrice : Int) (revealedBidders : KV String FullBid)
    (order : List (String × BidHash)) (error : Option CheckErr) :
    checkLoop env ctx w1 shippingPrice revealedBidders peerMSPID order error =
      checkLoop env ctx w2 shippingPrice revealedBidders peerMSPID order error := by
  induction order generalizing error with
  | nil => rfl
  | cons e rest ih =>
    simp only [checkLoop, checkBid_congr env ctx w1 w2 peerMSPID hlocal hpresent, ih]

theorem checkForHigherBid_congr (env : Env) (ctx : Ctx) (w1 w2 : World) (peerMSPID : String)
    (hpeer : ctx.peerMSPID = some peerMSPID)
    (hlocal : ∀ key, w1.priv.get ("_implicit_org_" ++ peerMSPID, key) =
      w2.priv.get ("_implicit_org_" ++ peerMSPID, key))
    (hpresent : ∀ collection key, (w1.priv.get (collection, key)).isSome =
      (w2.priv.get (collection, key)).isSome)
    (shippingPrice : Int) (revealedBidders : KV String FullBid) (bidders : KV String BidHash) :
    checkForHigherBid env ctx w1 shippingPrice revealedBidders bidders =
      checkForHigherBid env ctx w2 shippingPrice revealedBidders bidders := by
  simp only [checkForHigherBid, hpeer]
  exact checkLoop_congr env ctx w1 w2 peerMSPID hlocal hpresent _ _ _ _

/-- One turn of the loop for a bid of another org that is not revealed, the
hash read itself succeeding. -/
theorem checkBid_foreign (env : Env) (ctx : Ctx) (w : World) (shippingPrice : Int)
    (revealedBidders : KV String FullBid) (peerMSPID : String) (error : Option CheckErr)
    (entry : String × BidHash) (hrev : revealedBidders.has entry.1 = false)
    (horg : entry.2.Org ≠ peerMSPID) (hf : ctx.faults.getPrivateDataHash = false) :
    checkBid env ctx w shippingPrice revealedBidders peerMSPID error entry =
      bif (w.priv.get ("_implicit_org_" ++ entry.2.Org, entry.1)).isSome
        then .inr error else .inl CheckErr.bidHashMissing := by
  cases h1 : w.priv.get ("_implicit_org_" ++ entry.2.Org, entry.1) with
  | none => simp [checkBid, hrev, horg, GetPrivateDataHash, hf, h1]
  | some a => simp [checkBid, hrev, horg, GetPrivateDataHash, hf, h1]

/-- The loop when the hash read succeeds and every plaintext read it needs
for a bid of the peer's org succeeds and decodes to a bid: a missing hash of
a bid of another org ends the loop with its error, wherever it stands in the
visiting order. -/
theorem checkLoop_of_localOk (env : Env) (ctx : Ctx) (w : World) (shippingPrice : Int)
    (revealedBidders : KV String FullBid) (peerMSPID : String)
    (hf : ctx.faults.getPrivateDataHash = false)
    (order : List (String × BidHash)) (error : Option CheckErr)
    (hread : ∀ e ∈ order, revealedBidders.has e.1 = false → e.2.Org = peerMSPID →
      readOk env ctx w peerMSPID e = true) :
    checkLoop env ctx w shippingPrice revealedBidders peerMSPID order error =
      bif order.any (hashAbsent w revealedBidders peerMSPID) then some CheckErr.bidHashMissing
      else bif order.any (outbids env w shippingPrice revealedBidders peerMSPID)
        then some CheckErr.higherPrice else error := by
  induction order generalizing error with
  | nil => simp [checkLoop]
  | cons e rest ih =>
    have h2 := fun err => ih err (fun x hx => hread x (List.mem_cons_of_mem _ hx))
    by_cases hlocal : revealedBidders.has e.1 = false → e.2.Org = peerMSPID
    · have h1 := checkBid_of_readOk env ctx w shippingPrice revealedBidders peerMSPID error e
        (fun hrev => hread e (List.mem_cons_self _ _) hrev (hlocal hrev))
      have ha : hashAbsent w revealedBidders peerMSPID e = false := by
        by_cases hrev : revealedBidders.has e.1 = false
        · simp [hashAbsent, hlocal hrev]
        · simp [hashAbsent, hrev]
      simp only [checkLoop, h1, h2, List.any_cons, ha, Bool.false_or]
      cases outbids env w shippingPrice revealedBidders peerMSPID e <;>
        cases rest.any (hashAbsent w revealedBidders peerMSPID) <;> simp
    · simp only [Classical.not_imp] at hlocal
      obtain ⟨hrev, horg⟩ := hlocal
      have h1 := checkBid_foreign env ctx w shippingPrice revealedBidders peerMSPID error e
        hrev horg hf
      have ho : outbids env w shippingPrice revealedBidders peerMSPID e = false := by
        simp [outbids, horg]
      cases hp : w.priv.get ("_implicit_org_" ++ e.2.Org, e.1) with
      | none =>
        have ha : hashAbsent w revealedBidders peerMSPID e = true := by
          simp [hashAbsent, hrev, horg, hp]
        simp [checkLoop, h1, hp, ha]
      | some b =>
        have ha : hashAbsent w revealedBidders peerMSPID e = false := by
          simp [hashAbsent, hp]
        simp [checkLoop, h1, hp, ha, ho, h2]

/-- The function `checkForHigherBid` under the conditions of `checkLoop_of_localOk`. -/
theorem checkForHigherBid_of_localOk (env : Env) (ctx : Ctx) (w : World) (shippingPrice : Int)
    (revealedBidders : KV String FullBid) (bidders : KV String BidHash) (peerMSPID : String)
    (hpeer : ctx.peerMSPID = some peerMSPID) (hf : ctx.faults.getPrivateDataHash = false)
    (hread : ∀ e ∈ bidders, revealedBidders.has e.1 = false → e.2.Org = peerMSPID →
      readOk env ctx w peerMSPID e = true) :
    checkForHigherBid env ctx w shippingPrice revealedBidders bidders =
      bif bidders.any (hashAbsent w revealedBidders peerMSPID) then some CheckErr.bidHashMissing
      else bif bidders.any (outbids env w shippingPrice revealedBidders peerMSPID)
        then some CheckErr.higherPrice else none := by
  have hperm := rangeOrder_perm ctx.rangeBidders bidders
  simp only [checkForHigherBid, hpeer]
  rw [checkLoop_of_localOk env ctx w shippingPrice revealedBidders peerMSPID hf _ none
    (fun e he => hread e (hperm.mem_iff.1 he)), any_perm _ hperm, any_perm _ hperm]

/-- EndShipping once its guards are passed: the result of the check for an
outstanding bid decides between the error and the write. -/
theorem EndShipping_of_guards (env : Env) (ctx : Ctx) (w : World) (shippingID : String)
    (s : Shipping) (hg : ctx.faults.getState = false) (hget : w.ledger.get shippingID = some s)
    (hc : ctx.clientID = some s.Seller) (hst : s.Status = "closed")
    (hl : s.RevealedBids ≠ []) :
    EndShipping env ctx w shippingID =
      match checkForHigherBid env ctx w
          (selectWinner (rangeOrder ctx.rangeRevealed s.RevealedBids) s).Price
          s.RevealedBids s.PrivateBids with
      | some e => (some (.cannotEnd e), w)
      | none =>
        PutState ctx w shippingID
          { (selectWinner (rangeOrder ctx.rangeRevealed s.RevealedBids) s) with
            Status := "ended" } .endShipping := by
  have hfr := selectWinner_frame (rangeOrder ctx.rangeRevealed s.RevealedBids) s
  unfold EndShipping QueryShipping
  cases hchk : checkForHigherBid env ctx w
      (selectWinner (rangeOrder ctx.rangeRevealed s.RevealedBids) s).Price
      s.RevealedBids s.PrivateBids with
  | some e => simp [hg, hget, hc, hst, hl, hfr.2.1, hfr.2.2.1, hchk]
  | none => simp [hg, hget, hc, hst, hl, hfr.2.1, hfr.2.2.1, hchk]

/-- The check when every private bid that is not revealed belongs to another
org than the peer's: only the existence of the hashes counts. -/
theorem checkForHigherBid_of_foreign (env : Env) (ctx : Ctx) (w : World) (shippingPrice : Int)
    (revealedBidders : KV String FullBid) (bidders : KV String BidHash) (peerMSPID : String)
    (hpeer : ctx.peerMSPID = some peerMSPID) (hf : ctx.faults.getPrivateDataHash = false)
    (hall : ∀ e ∈ bidders, revealedBidders.has e.1 = false → e.2.Org ≠ peerMSPID) :
    checkForHigherBid env ctx w shippingPrice revealedBidders bidders =
      bif bidders.any (hashAbsent w revealedBidders peerMSPID) then some CheckErr.bidHashMissing
      else none := by
  have hno : bidders.any (outbids env w shippingPrice revealedBidders peerMSPID) = false := by
    rw [List.any_eq_false]
    intro e he
    by_cases hrev : revealedBidders.has e.1 = false
    · simp [outbids, hall e he hrev]
    · simp [outbids, hrev]
  rw [checkForHigherBid_of_localOk env ctx w shippingPrice revealedBidders bidders peerMSPID
    hpeer hf (fun e he hrev horg => absurd horg (hall e he hrev)), hno]
  rfl

theorem any_hashAbsent_iff (w : World) (revealedBidders : KV String FullBid)
    (bidders : KV String BidHash) (peerMSPID : String)
    (hall : ∀ e ∈ bidders, revealedBidders.has e.1 = false → e.2.Org ≠ peerMSPID) :
    bidders.any (hashAbsent w revealedBidders peerMSPID) = true ↔
      ∃ e ∈ bidders, revealedBidders.has e.1 = false ∧
        w.priv.get ("_implicit_org_" ++ e.2.Org, e.1) = none := by
  rw [List.any_eq_true]
  constructor
  · rintro ⟨e, he, ha⟩
    simp only [hashAbsent, Bool.and_eq_true, Bool.not_eq_true', decide_eq_false_iff_not,
      Option.isNone_iff_eq_none] at ha
    exact ⟨e, he, ha.1.1, ha.2⟩
  · rintro ⟨e, he, hrev, hnone⟩
    refine ⟨e, he, ?_⟩
    simp [hashAbsent, hrev, hall e he hrev, hnone]

/-- C17: verification asymmetry.  On two worlds with the same public state
whose private stores agree on the peer's own collection and on which keys
hold a value, so that they differ at most in the plaintexts held for other
orgs, checkForHigherBid and EndShipping give the same result and the same
public state.  The turn of the check for an unrevealed bid of another org,
its hash being readable, fails exactly when nothing is stored under the bid
key and otherwise leaves the error variable as it was.  For the whole check,
the hash read succeeding and the plaintexts of the peer's own org being read
and decoded: it returns the missing-hash error when the hash of some
unrevealed bid of another org is absent, wherever that bid stands in the
visiting order, and otherwise the result that the bids of the peer's org
give.  When every unrevealed bid belongs to another org, the check fails
exactly when the hash of one of them is absent, and so does EndShipping once
its guards are passed: it returns the missing-hash error and writes nothing,
or else it stores the selected winner and price with status ended.  So on
"s1", with alice's 500 revealed and the 300 of bob of Org2MSP not revealed,
EndShipping on a peer of Org1MSP succeeds with price 500, and with nothing
stored under bob's key it fails. -/
theorem foreign_plaintext_is_not_checked (env : Env) (ctx : Ctx) (w1 w2 : World)
    (peerMSPID : String) (hpeer : ctx.peerMSPID = some peerMSPID)
    (hledger : w1.ledger = w2.ledger)
    (hlocal : ∀ key, w1.priv.get ("_implicit_org_" ++ peerMSPID, key) =
      w2.priv.get ("_implicit_org_" ++ peerMSPID, key))
    (hpresent : ∀ collection key, (w1.priv.get (collection, key)).isSome =
      (w2.priv.get (collection, key)).isSome) :
    (∀ shippingPrice revealedBidders bidders,
      checkForHigherBid env ctx w1 shippingPrice revealedBidders bidders =
        checkForHigherBid env ctx w2 shippingPrice revealedBidders bidders) ∧
    (∀ shippingID,
      (EndShipping env ctx w1 shippingID).1 = (EndShipping env ctx w2 shippingID).1 ∧
      (EndShipping env ctx w1 shippingID).2.ledger =
        (EndShipping env ctx w2 shippingID).2.ledger) ∧
    (∀ shippingPrice revealedBidders error entry,
      revealedBidders.has entry.1 = false → entry.2.Org ≠ peerMSPID →
      ctx.faults.getPrivateDataHash = false →
      checkBid env ctx w1 shippingPrice revealedBidders peerMSPID error entry =
        bif (w1.priv.get ("_implicit_org_" ++ entry.2.Org, entry.1)).isSome
          then .inr error else .inl CheckErr.bidHashMissing) ∧
    (∀ shippingPrice revealedBidders bidders,
      ctx.faults.getPrivateDataHash = false →
      (∀ e ∈ bidders, revealedBidders.has e.1 = false → e.2.Org = peerMSPID →
        readOk env ctx w1 peerMSPID e = true) →
      checkForHigherBid env ctx w1 shippingPrice revealedBidders bidders =
        bif bidders.any (hashAbsent w1 revealedBidders peerMSPID)
          then some CheckErr.bidHashMissing
        else bif bidders.any (outbids env w1 shippingPrice revealedBidders peerMSPID)
          then some CheckErr.higherPrice else none) ∧
    (∀ shippingPrice revealedBidders bidders,
      ctx.faults.getPrivateDataHash = false →
      (∀ e ∈ bidders, revealedBidders.has e.1 = false → e.2.Org ≠ peerMSPID) →
      (checkForHigherBid env ctx w1 shippingPrice revealedBidders bidders ≠ none ↔
        ∃ e ∈ bidders, revealedBidders.has e.1 = false ∧
          w1.priv.get ("_implicit_org_" ++ e.2.Org, e.1) = none) ∧
      (checkForHigherBid env ctx w1 shippingPrice revealedBidders bidders ≠ none →
        checkForHigherBid env ctx w1 shippingPrice revealedBidders bidders =
          some CheckErr.bidHashMissing)) ∧
    (∀ shippingID s, w1.ledger.get shippingID = some s →
      ctx.faults.getState = false → ctx.faults.putState = false →
      ctx.faults.getPrivateDataHash = false →
      ctx.clientID = some s.Seller → s.Status = "closed" → s.RevealedBids ≠ [] →
      (∀ e ∈ s.PrivateBids, s.RevealedBids.has e.1 = false → e.2.Org ≠ peerMSPID) →
      ((EndShipping env ctx w1 shippingID).1 ≠ none ↔
        ∃ e ∈ s.PrivateBids, s.RevealedBids.has e.1 = false ∧
          w1.priv.get ("_implicit_org_" ++ e.2.Org, e.1) = none) ∧
      ((EndShipping env ctx w1 shippingID).1 ≠ none →
        EndShipping env ctx w1 shippingID = (some (.cannotEnd .bidHashMissing), w1)) ∧
      ((EndShipping env ctx w1 shippingID).1 = none →
        EndShipping env ctx w1 shippingID =
          (none, { w1 with ledger := w1.ledger.put shippingID ({
            (selectWinner (rangeOrder ctx.rangeRevealed s.RevealedBids) s) with
              Status := "ended" }) }))) ∧
    ((demoForeign.ledger.get "s1").map
        (fun s => (s.RevealedBids.map fun e => (e.1, e.2.Price),
          s.PrivateBids.map fun e => (e.1, e.2.Org))) =
        some ([(demoKey, 500)], [(demoKey4, "Org2MSP"), (demoKey, "Org1MSP")]) ∧
      storedPrice demoEnv demoForeign (demoKey4, ⟨"Org2MSP", ""⟩) = some 300 ∧
      demoSeller.peerMSPID = some "Org1MSP" ∧
      (EndShipping demoEnv demoSeller demoForeign "s1").1 = none ∧
      ((EndShipping demoEnv demoSeller demoForeign "s1").2.ledger.get "s1").map
        (fun s => (s.Price, s.Winner, s.Status)) = some (500, "alice", "ended") ∧
      demoForeignGone.ledger = demoForeign.ledger ∧
      demoForeignGone.priv.get ("_implicit_org_Org2MSP", demoKey4) = none ∧
      (EndShipping demoEnv demoSeller demoForeignGone "s1").1 =
        some (.cannotEnd .bidHashMissing) ∧
      (EndShipping demoEnv demoSeller demoForeignGone "s1").2 = demoForeignGone) := by
  have hchk := checkForHigherBid_congr env ctx w1 w2 peerMSPID hpeer hlocal hpresent
  have hforeign : ∀ (shippingPrice : Int) (revealedBidders : KV String FullBid)
      (bidders : KV String BidHash), ctx.faults.getPrivateDataHash = false →
      (∀ e ∈ bidders, revealedBidders.has e.1 = false → e.2.Org ≠ peerMSPID) →
      (checkForHigherBid env ctx w1 shippingPrice revealedBidders bidders ≠ none ↔
        ∃ e ∈ bidders, revealedBidders.has e.1 = false ∧
          w1.priv.get ("_implicit_org_" ++ e.2.Org, e.1) = none) ∧
      (checkForHigherBid env ctx w1 shippingPrice revealedBidders bidders ≠ none →
        checkForHigherBid env ctx w1 shippingPrice revealedBidders bidders =
          some CheckErr.bidHashMissing) := by
    intro shippingPrice revealedBidders bidders hf hall
    have hval := checkForHigherBid_of_foreign env ctx w1 shippingPrice revealedBidders bidders
      peerMSPID hpeer hf hall
    have hiff := any_hashAbsent_iff w1 revealedBidders bidders peerMSPID hall
    by_cases hany : bidders.any (hashAbsent w1 revealedBidders peerMSPID) = true
    · rw [hany] at hval
      refine ⟨⟨fun _ => hiff.1 hany, fun _ => ?_⟩, fun _ => hval⟩
      rw [hval]
      simp
    · have hval' : checkForHigherBid env ctx w1 shippingPrice revealedBidders bidders = none := by
        rw [hval]
        simp only [Bool.not_eq_true] at hany
        rw [hany]
        rfl
      refine ⟨⟨fun h => absurd hval' h, fun h => absurd (hiff.2 h) hany⟩, fun h => absurd hval' h⟩
  refine ⟨hchk, ?_, ?_, ?_, hforeign, ?_, by decide⟩
  · intro shippingID
    unfold EndShipping QueryShipping PutState
    rw [hledger]
    simp only [hchk]
    by_cases hg : ctx.faults.getState = true
    · simp [hledger, hg]
    · cases hget : w2.ledger.get shippingID with
      | none => simp [hledger, hg]
      | some s =>
        cases hc : ctx.clientID with
        | none => simp [hledger, hg]
        | some clientID =>
          by_cases hs : s.Seller = clientID
          · by_cases hst : s.Status = "closed"
            · by_cases hl : s.RevealedBids = []
              · simp [hledger, hg, hs, hst, hl]
              · cases hk : checkForHigherBid env ctx w2
                    (selectWinner (rangeOrder ctx.rangeRevealed s.RevealedBids) s).Price
                    (selectWinner (rangeOrder ctx.rangeRevealed s.RevealedBids) s).RevealedBids
                    (selectWinner (rangeOrder ctx.rangeRevealed s.RevealedBids) s).PrivateBids with
                | some e => simp [hledger, hg, hs, hst, hl, hk]
                | none =>
                  by_cases hp : ctx.faults.putState = true
                  · simp [hledger, hg, hs, hst, hl, hk, hp]
                  · simp [hledger, hg, hs, hst, hl, hk, hp]
            · simp [hledger, hg, hs, hst]
          · simp [hledger, hg, hs]
  · intro shippingPrice revealedBidders error entry hrev horg hf
    exact checkBid_foreign env ctx w1 shippingPrice revealedBidders peerMSPID error entry
      hrev horg hf
  · intro shippingPrice revealedBidders bidders hf hread
    exact checkForHigherBid_of_localOk env ctx w1 shippingPrice revealedBidders bidders
      peerMSPID hpeer hf hread
  · intro shippingID s hget hg hp hf hc hst hl hall
    have hend := EndShipping_of_guards env ctx w1 shippingID s hg hget hc hst hl
    obtain ⟨hiff, hval⟩ := hforeign
      (selectWinner (rangeOrder ctx.rangeRevealed s.RevealedBids) s).Price
      s.RevealedBids s.PrivateBids hf hall
    cases hk : checkForHigherBid env ctx w1
        (selectWinner (rangeOrder ctx.rangeRevealed s.RevealedBids) s).Price
        s.RevealedBids s.PrivateBids with
    | none =>
      rw [hk] at hend hiff
      have hres : EndShipping env ctx w1 shippingID =
          (none, { w1 with ledger := w1.ledger.put shippingID ({
            (selectWinner (rangeOrder ctx.rangeRevealed s.RevealedBids) s) with
              Status := "ended" }) }) := by
        rw [hend]
        simp [PutState, hp]
      refine ⟨⟨fun h => ?_, fun h => ?_⟩, fun h => ?_, fun _ => hres⟩
      · rw [hres] at h
        exact absurd rfl h
      · exact absurd rfl (hiff.2 h)
      · rw [hres] at h
        exact absurd rfl h
    | some e =>
      have he : e = CheckErr.bidHashMissing := by
        have := hval (by rw [hk]; simp)
        rw [hk] at this
        exact Option.some.inj this
      subst he
      rw [hk] at hend hiff
      have hres : EndShipping env ctx w1 shippingID =
          (some (.cannotEnd .bidHashMissing), w1) := hend
      refine ⟨⟨fun _ => hiff.1 (by simp), fun _ => ?_⟩, fun _ => hres, fun h => ?_⟩
      · rw [hres]
        simp
      · rw [hres] at h
        simp at h

/-- C17 at a concrete run: the plaintext under bob's bid key in the collection
of Org2MSP is 300 in one world and 900 in the other; the seller's EndShipping
on a peer of Org1MSP gives the same result and the same public state, and it
fails exactly when the hash of an unrevealed bid is absent. -/
theorem foreign_plaintext_is_not_checked_witness :
    storedPrice demoEnv demoForeign (demoKey4, ⟨"Org2MSP", ""⟩) = some 300 ∧
    storedPrice demoEnv demoForeignOther (demoKey4, ⟨"Org2MSP", ""⟩) = some 900 ∧
    (EndShipping demoEnv demoSeller demoForeign "s1").1 =
      (EndShipping demoEnv demoSeller demoForeignOther "s1").1 ∧
    (EndShipping demoEnv demoSeller demoForeign "s1").2.ledger =
      (EndShipping demoEnv demoSeller demoForeignOther "s1").2.ledger ∧
    ((EndShipping demoEnv demoSeller demoForeign "s1").1 ≠ none ↔
      ∃ e ∈ demoForeignShipping.PrivateBids, demoForeignShipping.RevealedBids.has e.1 = false ∧
        demoForeign.priv.get ("_implicit_org_" ++ e.2.Org, e.1) = none) := by
  have hlocal : ∀ key, demoForeign.priv.get ("_implicit_org_" ++ "Org1MSP", key) =
      demoForeignOther.priv.get ("_implicit_org_" ++ "Org1MSP", key) := by
    intro key
    refine (KV.get_put_of_ne _ _ _ _ ?_).symm
    intro h
    have h1 : "_implicit_org_Org2MSP" = "_implicit_org_" ++ "Org1MSP" := congrArg Prod.fst h
    exact absurd h1 (by decide)
  have hpresent : ∀ collection key, (demoForeign.priv.get (collection, key)).isSome =
      (demoForeignOther.priv.get (collection, key)).isSome := by
    intro collection key
    by_cases hk : (("_implicit_org_Org2MSP", demoKey4) : String × String) = (collection, key)
    · rw [← hk]
      have h1 : demoForeign.priv.get ("_implicit_org_Org2MSP", demoKey4) = some bob300org2 := by
        decide
      have h2 : demoForeignOther.priv.get ("_implicit_org_Org2MSP", demoKey4) =
          some [1, 1, 9, 0, 0] := KV.get_put_self _ _ _
      rw [h1, h2]
      rfl
    · have h2 : demoForeignOther.priv.get (collection, key) =
          demoForeign.priv.get (collection, key) := KV.get_put_of_ne _ _ _ _ hk
      rw [h2]
  exact ⟨by decide, by decide,
    ((foreign_plaintext_is_not_checked demoEnv demoSeller demoForeign demoForeignOther
      "Org1MSP" (by decide) (by decide) hlocal hpresent).2.1 "s1").1,
    ((foreign_plaintext_is_not_checked demoEnv demoSeller demoForeign demoForeignOther
      "Org1MSP" (by decide) (by decide) hlocal hpresent).2.1 "s1").2,
    ((foreign_plaintext_is_not_checked demoEnv demoSeller demoForeign demoForeignOther
      "Org1MSP" (by decide) (by decide) hlocal hpresent).2.2.2.2.2.1 "s1" demoForeignShipping
      (by decide) (by decide) (by decide) (by decide) (by decide) (by decide) (by decide)
      (by decide)).1⟩

/-! ### Order of the revealed bids -/

theorem selectWinner_cons (b : String × FullBid) (rest : List (String × FullBid))
    (s : Shipping) : selectWinner (b :: rest) s = selectWinner rest (betterBid s b) := rfl

/-- The loop changes nothing when no bid is below the stored price. -/
theorem selectWinner_unchanged (bids : List (String × FullBid)) (s : Shipping)
    (h : ∀ e ∈ bids, s.Price ≤ e.2.Price) : selectWinner bids s = s := by
  induction bids generalizing s with
  | nil => rfl
  | cons b rest ih =>
    have hb : betterBid s b = s := by
      have := h b (List.mem_cons_self _ _)
      simp [betterBid, not_lt.2 this]
    rw [selectWinner_cons, hb]
    exact ih s (fun e he => h e (List.mem_cons_of_mem _ he))

/-- When some bid is below the stored price, the winner is the bidder of the
first bid in visiting order that has the final price. -/
theorem selectWinner_first (bids : List (String × FullBid)) (s : Shipping)
    (h : ∃ e ∈ bids, e.2.Price < s.Price) :
    (bids.find? (fun e => decide (e.2.Price = (selectWinner bids s).Price))).map
      (fun e => e.2.Bidder) = some (selectWinner bids s).Winner := by
  induction bids generalizing s with
  | nil =>
    obtain ⟨e, he, -⟩ := h
    simp at he
  | cons b rest ih =>
    rw [selectWinner_cons]
    by_cases hlt : b.2.Price < s.Price
    · have hbP : (betterBid s b).Price = b.2.Price := by simp [betterBid, hlt]
      have hbW : (betterBid s b).Winner = b.2.Bidder := by simp [betterBid, hlt]
      by_cases hrest : ∃ e ∈ rest, e.2.Price < (betterBid s b).Price
      · obtain ⟨e, he, hep⟩ := hrest
        have hfin := selectWinner_price_le_bid rest (betterBid s b) e he
        have hne : ¬ b.2.Price = (selectWinner rest (betterBid s b)).Price := by omega
        rw [List.find?_cons_of_neg _ (by simpa using hne)]
        exact ih (betterBid s b) ⟨e, he, hep⟩
      · have hall : ∀ e ∈ rest, (betterBid s b).Price ≤ e.2.Price := by
          intro e he
          by_contra hc
          exact hrest ⟨e, he, not_le.1 hc⟩
        rw [selectWinner_unchanged rest (betterBid s b) hall, hbP, hbW]
        simp
    · have hb : betterBid s b = s := by simp [betterBid, hlt]
      obtain ⟨e, he, hep⟩ := h
      have he' : e ∈ rest := by
        rcases List.mem_cons.1 he with h1 | h1
        · subst h1
          exact absurd hep hlt
        · exact h1
      rw [hb]
      have hfin := selectWinner_price_le_bid rest s e he'
      have hne : ¬ b.2.Price = (selectWinner rest s).Price := by omega
      rw [List.find?_cons_of_neg _ (by simpa using hne)]
      exact ih s ⟨e, he', hep⟩

/-- The final price is the same for every visiting order. -/
theorem selectWinner_price_perm (bids bids' : List (String × FullBid)) (s : Shipping)
    (hperm : bids'.Perm bids) : (selectWinner bids' s).Price = (selectWinner bids s).Price := by
  have key : ∀ l l' : List (String × FullBid), l'.Perm l →
      (selectWinner l' s).Price ≤ (selectWinner l s).Price := by
    intro l l' hp
    rcases selectWinner_attained l s with ⟨h, -⟩ | ⟨-, e, he, hep, -⟩
    · rw [h]
      exact selectWinner_price_le l' s
    · rw [← hep]
      exact selectWinner_price_le_bid l' s e (hp.mem_iff.2 he)
  exact le_antisymm (key bids bids' hperm) (key bids' bids hperm.symm)

/-- C18 as stated fails when no bid is below the stored price: the only
revealed bid, alice's, has exactly the stored price 100000000; the final
price is 100000000, alice's bid is the first with that price, and the winner
stays empty, in the loop and in the record EndShipping stores. -/
theorem first_bid_at_stored_price_does_not_win :
    (selectWinner [(demoKey, ⟨"bid", 100000000, "Org1MSP", "alice"⟩)] demoShipping).Price
      = 100000000 ∧
    ([(demoKey, (⟨"bid", 100000000, "Org1MSP", "alice"⟩ : FullBid))].find?
      (fun e => decide (e.2.Price = 100000000))).map (fun e => e.2.Bidder) = some "alice" ∧
    (selectWinner [(demoKey, ⟨"bid", 100000000, "Org1MSP", "alice"⟩)] demoShipping).Winner
      = "" ∧
    (demoPar.ledger.get "s1").map (fun s => s.RevealedBids.map fun e => (e.2.Price, e.2.Bidder))
      = some [(100000000, "alice")] ∧
    (EndShipping demoEnv demoSeller demoPar "s1").1 = none ∧
    ((EndShipping demoEnv demoSeller demoPar "s1").2.ledger.get "s1").map
      (fun s => (s.Price, s.Winner)) = some (100000000, "") := by
  decide

/-- C18, amended: the loop of EndShipping over the revealed bids, started from
the stored record, ends with the same price for every visiting order; when
some bid is below the stored price, the winner is the bidder of the first bid
in visiting order whose price equals the final price; when none is, the
stored price and winner are kept.  EndShipping stores the result of the loop
over one visiting order of the revealed bids. -/
theorem winner_is_first_lowest_bid (bids bids' : List (String × FullBid)) (s : Shipping)
    (hperm : bids'.Perm bids) :
    (selectWinner bids' s).Price = (selectWinner bids s).Price ∧
    ((∃ e ∈ bids, e.2.Price < s.Price) →
      (bids.find? (fun e => decide (e.2.Price = (selectWinner bids s).Price))).map
        (fun e => e.2.Bidder) = some (selectWinner bids s).Winner) ∧
    ((∀ e ∈ bids, s.Price ≤ e.2.Price) →
      (selectWinner bids s).Price = s.Price ∧ (selectWinner bids s).Winner = s.Winner) ∧
    (∀ env ctx w w' shippingID, w.ledger.get shippingID = some s →
      EndShipping env ctx w shippingID = (none, w') →
      (rangeOrder ctx.rangeRevealed s.RevealedBids).Perm s.RevealedBids ∧
      w'.ledger.get shippingID =
        some { (selectWinner (rangeOrder ctx.rangeRevealed s.RevealedBids) s) with
          Status := "ended" }) := by
  refine ⟨selectWinner_price_perm bids bids' s hperm, selectWinner_first bids s, ?_, ?_⟩
  · intro h
    rw [selectWinner_unchanged bids s h]
    exact ⟨rfl, rfl⟩
  · intro env ctx w w' shippingID hget hok
    refine ⟨rangeOrder_perm _ _, ?_⟩
    rcases EndShipping_cases env ctx w shippingID with ⟨e, he⟩ | ⟨s0, hget0, -, -, -, -, heq⟩
    · rw [he] at hok
      simp at hok
    · rw [hget] at hget0
      cases hget0
      rw [heq] at hok
      have hw' := (Prod.mk.inj hok).2
      subst hw'
      exact KV.get_put_self _ _ _

/-- C18, amended, at a concrete run: two bids of 300 and one of 500 below the
stored 100000000, visited in two orders. -/
theorem winner_is_first_lowest_bid_witness :
    (selectWinner
        [("k2", ⟨"bid", 500, "Org1MSP", "carol"⟩), ("k3", ⟨"bid", 300, "Org1MSP", "bob"⟩),
          ("k1", ⟨"bid", 300, "Org1MSP", "alice"⟩)] demoShipping).Price =
      (selectWinner
        [("k1", ⟨"bid", 300, "Org1MSP", "alice"⟩), ("k2", ⟨"bid", 500, "Org1MSP", "carol"⟩),
          ("k3", ⟨"bid", 300, "Org1MSP", "bob"⟩)] demoShipping).Price ∧
    (selectWinner
        [("k1", ⟨"bid", 300, "Org1MSP", "alice"⟩), ("k2", ⟨"bid", 500, "Org1MSP", "carol"⟩),
          ("k3", ⟨"bid", 300, "Org1MSP", "bob"⟩)] demoShipping).Winner = "alice" ∧
    (selectWinner
        [("k2", ⟨"bid", 500, "Org1MSP", "carol"⟩), ("k3", ⟨"bid", 300, "Org1MSP", "bob"⟩),
          ("k1", ⟨"bid", 300, "Org1MSP", "alice"⟩)] demoShipping).Winner = "bob" :=
  ⟨(winner_is_first_lowest_bid
      [("k1", ⟨"bid", 300, "Org1MSP", "alice"⟩), ("k2", ⟨"bid", 500, "Org1MSP", "carol"⟩),
        ("k3", ⟨"bid", 300, "Org1MSP", "bob"⟩)]
      [("k2", ⟨"bid", 500, "Org1MSP", "carol"⟩), ("k3", ⟨"bid", 300, "Org1MSP", "bob"⟩),
        ("k1", ⟨"bid", 300, "Org1MSP", "alice"⟩)] demoShipping (by decide)).1,
    by decide, by decide⟩

/-! ### Price and winner before the end -/

theorem priceWinner_congr {w w' : World} (h : w'.ledger = w.ledger) (key : String) :
    priceWinnerAt w' key = priceWinnerAt w key := by
  simp [priceWinnerAt, h]

theorem priceWinner_put {w w' : World} {shippingID : String} {s s' : Shipping}
    (hget : w.ledger.get shippingID = some s)
    (h : w'.ledger = w.ledger.put shippingID s')
    (hp : s'.Price = s.Price) (hw : s'.Winner = s.Winner) (key : String) :
    priceWinnerAt w' key = priceWinnerAt w key := by
  by_cases hk : shippingID = key
  · subst hk
    simp [priceWinnerAt, h, KV.get_put_self, hget, hp, hw]
  · simp [priceWinnerAt, h, KV.get_put_of_ne _ _ _ _ hk]

/-- C19: in every reachable state a stored shipping whose status is open or
closed has price 100000000 and an empty winner.  SubmitBid, RevealBid,
CloseShipping and Bid leave the price and winner stored under every key as
they were, and a successful EndShipping stores status ended. -/
theorem price_and_winner_unset_before_end (env : Env) :
    (∀ w, Reachable env w → ∀ shippingID s, w.ledger.get shippingID = some s →
      s.Status = "open" ∨ s.Status = "closed" → s.Price = 100000000 ∧ s.Winner = "") ∧
    (∀ ctx w shippingID txID key,
      priceWinnerAt (SubmitBid env ctx w shippingID txID).2 key = priceWinnerAt w key ∧
      priceWinnerAt (RevealBid env ctx w shippingID txID).2 key = priceWinnerAt w key ∧
      priceWinnerAt (CloseShipping ctx w shippingID).2 key = priceWinnerAt w key ∧
      priceWinnerAt (Bid ctx w shippingID).2 key = priceWinnerAt w key ∧
      (priceWinnerAt (EndShipping env ctx w shippingID).2 key ≠ priceWinnerAt w key →
        (EndShipping env ctx w shippingID).1 = none ∧
        statusAt (EndShipping env ctx w shippingID).2 key = some "ended")) := by
  constructor
  · intro w hw
    refine reachable_shipping_induction env
      (fun s => s.Status = "open" ∨ s.Status = "closed" → s.Price = 100000000 ∧ s.Winner = "")
      ?_ ?_ ?_ ?_ ?_ w hw
    · intro _ _ _ _ _ _ _
      exact ⟨rfl, rfl⟩
    · intro s org bidKey hash hs hst _
      exact hs (Or.inl hst)
    · intro s bidKey bid hs hst _
      exact hs (Or.inr hst)
    · intro s hs hst _
      exact hs (Or.inl hst)
    · intro s bids _ _ h
      simp at h
  · intro ctx w shippingID txID key
    refine ⟨?_, ?_, ?_, priceWinner_congr (Bid_ledger ctx w shippingID) key, ?_⟩
    · rcases SubmitBid_cases env ctx w shippingID txID with
        ⟨-, hl, -⟩ | ⟨s, org, bidKey, p, hget, -, -, -, -, -, hl, -⟩
      · exact priceWinner_congr hl key
      · exact priceWinner_put hget hl rfl rfl key
    · rcases RevealBid_cases env ctx w shippingID txID with
        ⟨e, he⟩ | ⟨s, bidKey, p, bid, hget, -, -, -, -, -, -, hok⟩
      · rw [he]
      · have hl := congrArg (fun r => r.2.ledger) hok
        exact priceWinner_put hget hl rfl rfl key
    · rcases CloseShipping_cases ctx w shippingID with ⟨e, he⟩ | ⟨s, hget, -, -, hok⟩
      · rw [he]
      · have hl := congrArg (fun r => r.2.ledger) hok
        exact priceWinner_put hget hl rfl rfl key
    · intro hne
      rcases EndShipping_cases env ctx w shippingID with
        ⟨e, he⟩ | ⟨s, hget, -, -, -, -, hok⟩
      · rw [he] at hne
        exact absurd rfl hne
      · rw [hok] at hne ⊢
        refine ⟨rfl, ?_⟩
        by_cases hk : shippingID = key
        · subst hk
          simp [statusAt, KV.get_put_self]
        · exfalso
          apply hne
          simp [priceWinnerAt, KV.get_put_of_ne _ _ _ _ hk]

/-- C19 at a concrete run: the state after alice's reveal on the closed "s1",
and the seller's EndShipping on it. -/
theorem price_and_winner_unset_before_end_witness :
    (∀ shippingID s, demoRevealed.ledger.get shippingID = some s →
      s.Status = "open" ∨ s.Status = "closed" → s.Price = 100000000 ∧ s.Winner = "") ∧
    (priceWinnerAt (EndShipping demoEnv demoSeller demoRevealed "s1").2 "s1" ≠
        priceWinnerAt demoRevealed "s1" →
      (EndShipping demoEnv demoSeller demoRevealed "s1").1 = none ∧
      statusAt (EndShipping demoEnv demoSeller demoRevealed "s1").2 "s1" = some "ended") :=
  ⟨(price_and_winner_unset_before_end demoEnv).1 demoRevealed
      (run_reachable demoEnv _ _ (run_reachable demoEnv _ _
        (run_reachable demoEnv _ _ Reachable.genesis))),
    ((price_and_winner_unset_before_end demoEnv).2 demoSeller demoRevealed "s1" "tx1"
      "s1").2.2.2.2⟩

/-- C11 at a concrete run: the state in which bob of Org2MSP has joined, and
his SubmitBid, which added Org2MSP to the orgs and to the endorsement list. -/
theorem orgs_cover_private_bids_witness :
    (∀ shippingID s, demoForeign.ledger.get shippingID = some s →
      (∀ e ∈ s.PrivateBids, e.2.Org ∈ s.Orgs) ∧ s.Orgs.Nodup) ∧
    ∃ s', (SubmitBid demoEnv (demoBob2 "tx5" none)
        (Bid (demoBob2 "tx4" (some bob300org2)) demoCommitted "s1").2 "s1" "tx4").2.ledger.get
          "s1" = some s' ∧
      ((s'.Orgs = ["Org1MSP"] ++ ["Org2MSP"] ∧
        (SubmitBid demoEnv (demoBob2 "tx5" none)
          (Bid (demoBob2 "tx4" (some bob300org2)) demoCommitted "s1").2 "s1" "tx4").2.policy =
          (Bid (demoBob2 "tx4" (some bob300org2)) demoCommitted "s1").2.policy.put "s1"
            ((((Bid (demoBob2 "tx4" (some bob300org2)) demoCommitted "s1").2.policy.get
              "s1").getD []) ++ ["Org2MSP"]))
          ↔ "Org2MSP" ∉ ["Org1MSP"]) ∧
      ((s'.Orgs = ["Org1MSP"] ∧
        (SubmitBid demoEnv (demoBob2 "tx5" none)
          (Bid (demoBob2 "tx4" (some bob300org2)) demoCommitted "s1").2 "s1" "tx4").2.policy =
          (Bid (demoBob2 "tx4" (some bob300org2)) demoCommitted "s1").2.policy)
          ↔ "Org2MSP" ∈ ["Org1MSP"]) :=
  ⟨(orgs_cover_private_bids demoEnv).1 demoForeign (run_reachable demoEnv _ _ Reachable.genesis),
    (orgs_cover_private_bids demoEnv).2 (demoBob2 "tx5" none)
      (Bid (demoBob2 "tx4" (some bob300org2)) demoCommitted "s1").2
      (SubmitBid demoEnv (demoBob2 "tx5" none)
        (Bid (demoBob2 "tx4" (some bob300org2)) demoCommitted "s1").2 "s1" "tx4").2
      "s1" "tx4" { demoShipping with
        PrivateBids := [(demoKey, ⟨"Org1MSP", hexString (demoHash alice500)⟩)] }
      "Org2MSP" (by decide) (by decide) (by decide)⟩

end ShipSupplychain
